import Mathlib

/-!
# Market-data pipeline: wire codec, SPSC ring buffer, order book, reassembly layer and orchestrator

A shallow embedding of `OrderProtocol.cpp`, `LockFreeRingBuffer.h`,
`OrderBook.cpp`, `TCPIPStack.cpp`, `SIMDMessageParser.h` and
`MarketDataHandler.cpp`, followed by the properties established about them.

Conventions of the embedding

* Machine integers are natural numbers; a value of type `uintN_t` is a natural
  number below `2^N`, written as an explicit bound where it matters.
* Bytes are natural numbers, read modulo 256.
* Memory whose content the C++ program does not determine (padding bytes, an
  uninitialised local) is an explicit argument of the function that exposes it.
* What a method takes from outside the program state is an explicit argument as
  well: clock readings, the shutdown flag, and the order in which a loop visits
  the entries of an `std::unordered_map`.
* The methods are embedded as sequential functions: one call runs to its end
  before the next one starts. `push` and `pop` of the ring buffer are embedded a
  second time as the steps of a producer thread and a consumer thread, taken in
  any interleaving (`Spsc`); the steps of an interleaving are totally ordered,
  the memory orders of the C++ atomics are not represented.
* Values drawn from a random number generator are explicit arguments.
-/

/-! ## OrderProtocol.h / OrderProtocol.cpp -/

/-- The record `struct Order` of `OrderProtocol.h`. -/
structure Order where
  order_id : Nat
  price : Nat
  quantity : Nat
  is_buy : Bool
deriving DecidableEq, Repr

/-- The values of `Order` the C++ type admits: `order_id : uint64_t`,
`price, quantity : uint32_t`. -/
def Order.InRange (o : Order) : Prop :=
  o.order_id < 2 ^ 64 ∧ o.price < 2 ^ 32 ∧ o.quantity < 2 ^ 32

instance (o : Order) : Decidable o.InRange := by
  unfold Order.InRange; infer_instance

/-- The value `sizeof(Order)` on the x86-64 target of the repository: 8 + 4 + 4 + 1
bytes of fields and 7 bytes of tail padding (alignment 8). -/
def sizeof_Order : Nat := 24

/-- The `w` little-endian bytes of an unsigned integer. -/
def leBytes : Nat → Nat → List Nat
  | 0, _ => []
  | w + 1, x => x % 256 :: leBytes w (x / 256)

/-- The unsigned integer held by a little-endian byte sequence. -/
def leValue : List Nat → Nat
  | [] => 0
  | b :: t => b % 256 + 256 * leValue t

/-- Bytes `off .. off + n - 1` of a buffer (a byte outside the list reads as 0). -/
def bytesAt (data : List Nat) (off n : Nat) : List Nat :=
  (List.range n).map fun i => data.getD (off + i) 0

/-- The object representation of an `Order` in memory: `order_id` at offset 0,
`price` at 8, `quantity` at 12, `is_buy` at 16, and the seven padding bytes
17..23, whose content `pad` the program does not determine. -/
def Order.objectBytes (o : Order) (pad : List Nat) : List Nat :=
  leBytes 8 o.order_id ++ leBytes 4 o.price ++ leBytes 4 o.quantity
    ++ [if o.is_buy then 1 else 0] ++ bytesAt (pad.map (· % 256)) 0 7

/-- The `Order` whose object representation is the first `sizeof(Order)` bytes
of `data` (what `memcpy(&order, data, sizeof(Order))` leaves in `order`). -/
def Order.ofBytes (data : List Nat) : Order :=
  { order_id := leValue (bytesAt data 0 8)
    price := leValue (bytesAt data 8 4)
    quantity := leValue (bytesAt data 12 4)
    is_buy := decide (data.getD 16 0 % 256 ≠ 0) }

/-- `OrderProtocol::serialize_order`: a vector of `sizeof(Order)` bytes holding a
`memcpy` of the object. `pad` is the content of the object's padding bytes. -/
def OrderProtocol.serialize_order (order : Order) (pad : List Nat) : List Nat :=
  order.objectBytes pad

/-- `OrderProtocol::deserialize_order`. The local `Order order;` is declared
without an initialiser, so it starts with whatever its storage holds: `uninit`.
It is overwritten by the `memcpy` only when `len >= sizeof(Order)`. -/
def OrderProtocol.deserialize_order (uninit : Order) (data : List Nat) (len : Nat) : Order :=
  if len ≥ sizeof_Order then Order.ofBytes data else uninit

/-! ## LockFreeRingBuffer.h -/

/-- The class `LockFreeRingBuffer<T, Size>`: the slot array and the two indices.
The C++ `std::array<T, Size>` always has `Size` slots; here the slots are a list,
of length `Size` in every state the program constructs. -/
structure LockFreeRingBuffer (T : Type) (Size : Nat) where
  buffer : List T
  head : Nat
  tail : Nat
deriving DecidableEq, Repr

namespace LockFreeRingBuffer

variable {T : Type} {Size : Nat}

/-- A freshly constructed queue: `head{0}`, `tail{0}`; `slots` is the initial
content of the array, which the constructor does not determine. -/
def init (Size : Nat) (slots : List T) : LockFreeRingBuffer T Size :=
  { buffer := slots, head := 0, tail := 0 }

/-- The private helper `next`: the following index, wrapping at `Size`. -/
def next (Size : Nat) (current : Nat) : Nat :=
  (current + 1) % Size

/-- The method `push`: the success flag and the queue afterwards. -/
def push (q : LockFreeRingBuffer T Size) (item : T) : Bool × LockFreeRingBuffer T Size :=
  let current_tail := q.tail
  let next_tail := next Size current_tail
  if next_tail = q.head then
    (false, q)
  else
    (true, { q with buffer := q.buffer.set current_tail item, tail := next_tail })

/-- The method `pop(T& item)`: the success flag, the caller's `item` afterwards
and the queue afterwards. -/
def pop (q : LockFreeRingBuffer T Size) (item : T) : Bool × T × LockFreeRingBuffer T Size :=
  let current_head := q.head
  if current_head = q.tail then
    (false, item, q)
  else
    (true, q.buffer.getD current_head item, { q with head := next Size current_head })

/-- The number of queued items, `(tail − head) mod Size`, computed over the integers. -/
def occupancy (q : LockFreeRingBuffer T Size) : Nat :=
  (((q.tail : Int) - (q.head : Int)) % (Size : Int)).toNat

/-- The ring buffer `q` holds exactly the items of the list `l`, oldest first. -/
def Holds (q : LockFreeRingBuffer T Size) (l : List T) : Prop :=
  q.buffer.length = Size ∧ q.head < Size ∧ q.tail < Size ∧ l.length < Size ∧
    (q.head + l.length) % Size = q.tail ∧
    ∀ i, i < l.length → q.buffer[(q.head + i) % Size]? = l[i]?

/-- The queue states a program can reach: a fresh queue, then any pushes and pops. -/
inductive Reachable : LockFreeRingBuffer T Size → Prop
  | fresh (slots : List T) (h : slots.length = Size) : Reachable (init Size slots)
  | push (q : LockFreeRingBuffer T Size) (item : T) : Reachable q → Reachable (q.push item).2
  | pop (q : LockFreeRingBuffer T Size) (item : T) : Reachable q → Reachable (q.pop item).2.2

end LockFreeRingBuffer

/-- One call on a queue, made by a sequential caller: `push(item)`, or
`pop(item)` with the caller's output variable holding `item` beforehand. -/
inductive QueueCall (T : Type) where
  | push (item : T)
  | pop (item : T)
deriving DecidableEq, Repr

/-- What a caller observes of one call: the flag returned by `push`, or the value
delivered by a successful `pop` (`none` when `pop` returned false). -/
inductive QueueEvent (T : Type) where
  | pushed (ok : Bool) (item : T)
  | popped (value : Option T)
deriving DecidableEq, Repr

/-- Runs a sequence of calls on the ring buffer, one after another, and records
what each call returned. -/
def LockFreeRingBuffer.run {T : Type} {Size : Nat} :
    List (QueueCall T) → LockFreeRingBuffer T Size → List (QueueEvent T) × LockFreeRingBuffer T Size
  | [], q => ([], q)
  | QueueCall.push item :: rest, q =>
    let r := q.push item
    let out := LockFreeRingBuffer.run rest r.2
    (QueueEvent.pushed r.1 item :: out.1, out.2)
  | QueueCall.pop item :: rest, q =>
    let r := q.pop item
    let out := LockFreeRingBuffer.run rest r.2.2
    (QueueEvent.popped (if r.1 then some r.2.1 else none) :: out.1, out.2)

/-- The reference queue of the specification: a plain list used as a FIFO with
room for `cap` items. `push` appends when there is room, `pop` takes the front. -/
def ListFifo.run {T : Type} (cap : Nat) :
    List (QueueCall T) → List T → List (QueueEvent T) × List T
  | [], l => ([], l)
  | QueueCall.push item :: rest, l =>
    if l.length < cap then
      let out := ListFifo.run cap rest (l ++ [item])
      (QueueEvent.pushed true item :: out.1, out.2)
    else
      let out := ListFifo.run cap rest l
      (QueueEvent.pushed false item :: out.1, out.2)
  | QueueCall.pop _ :: rest, [] =>
    let out := ListFifo.run cap rest []
    (QueueEvent.popped none :: out.1, out.2)
  | QueueCall.pop _ :: rest, x :: l =>
    let out := ListFifo.run cap rest l
    (QueueEvent.popped (some x) :: out.1, out.2)

/-- The items accepted by the successful pushes of a trace, in order. -/
def acceptedItems {T : Type} : List (QueueEvent T) → List T
  | [] => []
  | QueueEvent.pushed true item :: rest => item :: acceptedItems rest
  | _ :: rest => acceptedItems rest

/-- The values delivered by the successful pops of a trace, in order. -/
def deliveredItems {T : Type} : List (QueueEvent T) → List T
  | [] => []
  | QueueEvent.popped (some v) :: rest => v :: deliveredItems rest
  | _ :: rest => deliveredItems rest

/-! ## OrderBook.h / OrderBook.cpp -/

/-- An associative container with integer keys (`std::map`, `std::unordered_map`),
as the list of its entries in the container's key order. A `std::map` is kept in
the order of its comparator; an `std::unordered_map`, whose iteration order the
program never observes, is kept in ascending key order. -/
abbrev Assoc (V : Type) := List (Nat × V)

namespace Assoc

variable {V : Type}

/-- Key `a` is ordered before key `b`: by `std::greater` when `desc`, by
`std::less` otherwise. -/
def before (desc : Bool) (a b : Nat) : Bool :=
  if desc then decide (b < a) else decide (a < b)

/-- The lookup `m.find(k)`: the mapped value, `none` for `m.end()`. -/
def find (k : Nat) : Assoc V → Option V
  | [] => none
  | (k', v) :: t => if k' = k then some v else find k t

/-- The assignment `m[k] = v`: replaces the value of an existing key, otherwise
inserts the entry at its place in the key order. -/
def insert (desc : Bool) (k : Nat) (v : V) : Assoc V → Assoc V
  | [] => [(k, v)]
  | (k', v') :: t =>
    if k' = k then (k, v) :: t
    else if before desc k k' then (k, v) :: (k', v') :: t
    else (k', v') :: insert desc k v t

/-- The call `m.erase(k)`. -/
def erase (k : Nat) : Assoc V → Assoc V
  | [] => []
  | (k', v') :: t => if k' = k then t else (k', v') :: erase k t

/-- The entries are strictly ordered by key (so no key occurs twice): what every
C++ map satisfies. -/
def Ordered (desc : Bool) (m : Assoc V) : Prop :=
  List.Pairwise (fun a b => before desc a.1 b.1 = true) m

end Assoc

/-- The private record `OrderBook::Order` (field order of the header). -/
structure OrderBook.Order where
  order_id : Nat
  quantity : Nat
  price : Nat
  is_buy : Bool
deriving DecidableEq, Repr

/-- A value of type `Order*` stored in `order_map`: the address of the node
`bids[price][order_id]` (when `is_buy`) or `asks[price][order_id]`. Nodes of the
node-based containers never move, so as long as the node exists its address and
its key path denote the same object. -/
structure OrderBook.OrderPtr where
  is_buy : Bool
  price : Nat
  order_id : Nat
deriving DecidableEq, Repr

/-- One price level: `std::unordered_map<uint64_t, Order>`. -/
abbrev OrderBook.Level := Assoc OrderBook.Order

/-- The class `OrderBook`: `bids` (ordered by `std::greater`), `asks` (ordered by
`std::less`) and the index `order_map`. -/
structure OrderBook where
  bids : Assoc OrderBook.Level
  asks : Assoc OrderBook.Level
  order_map : Assoc OrderBook.OrderPtr
deriving DecidableEq, Repr

namespace OrderBook

/-- A freshly constructed book. -/
def empty : OrderBook :=
  { bids := [], asks := [], order_map := [] }

/-- The level that `side[price]` refers to: the existing one, or the empty level
that `operator[]` creates for a new key. -/
def levelAt (side : Assoc Level) (price : Nat) : Level :=
  (Assoc.find price side).getD []

/-- Reading through an `Order*`: the node it addresses, `none` when no such node
exists (a dangling pointer). -/
def deref (b : OrderBook) (p : OrderPtr) : Option Order :=
  Assoc.find p.order_id (levelAt (if p.is_buy then b.bids else b.asks) p.price)

/-- Writing through an `Order*`: replaces the content of the addressed node. -/
def store (b : OrderBook) (p : OrderPtr) (o : Order) : OrderBook :=
  if p.is_buy then
    { b with
      bids := Assoc.insert true p.price (Assoc.insert false p.order_id o (levelAt b.bids p.price)) b.bids }
  else
    { b with
      asks := Assoc.insert false p.price (Assoc.insert false p.order_id o (levelAt b.asks p.price)) b.asks }

/-- `OrderBook::addOrder`. -/
def addOrder (b : OrderBook) (order_id price quantity : Nat) (is_buy : Bool) : OrderBook :=
  let order : Order := { order_id := order_id, quantity := quantity, price := price, is_buy := is_buy }
  if is_buy then
    { b with
      bids := Assoc.insert true price (Assoc.insert false order_id order (levelAt b.bids price)) b.bids
      order_map := Assoc.insert false order_id ⟨true, price, order_id⟩ b.order_map }
  else
    { b with
      asks := Assoc.insert false price (Assoc.insert false order_id order (levelAt b.asks price)) b.asks
      order_map := Assoc.insert false order_id ⟨false, price, order_id⟩ b.order_map }

/-- `OrderBook::removeOrder`. The fields `order->is_buy` and `order->price` are
read from the node the index entry points to; the reads of `order->price` that
follow the `erase` of that node are taken to yield the value the node held.
A pointer without a node does not arise from the public operations; the model
leaves such a book as it is. -/
def removeOrder (b : OrderBook) (order_id : Nat) : OrderBook :=
  match Assoc.find order_id b.order_map with
  | none => b
  | some ptr =>
    match b.deref ptr with
    | none => b
    | some order =>
      if order.is_buy then
        let bids₁ :=
          Assoc.insert true order.price (Assoc.erase order_id (levelAt b.bids order.price)) b.bids
        let bids₂ := if (levelAt bids₁ order.price).isEmpty then Assoc.erase order.price bids₁ else bids₁
        { b with bids := bids₂, order_map := Assoc.erase order_id b.order_map }
      else
        let asks₁ :=
          Assoc.insert false order.price (Assoc.erase order_id (levelAt b.asks order.price)) b.asks
        let asks₂ := if (levelAt asks₁ order.price).isEmpty then Assoc.erase order.price asks₁ else asks₁
        { b with asks := asks₂, order_map := Assoc.erase order_id b.order_map }

/-- `OrderBook::modifyOrder`: `it->second->quantity = new_quantity`. -/
def modifyOrder (b : OrderBook) (order_id new_quantity : Nat) : OrderBook :=
  match Assoc.find order_id b.order_map with
  | none => b
  | some ptr =>
    match b.deref ptr with
    | none => b
    | some order => b.store ptr { order with quantity := new_quantity }

/-- `OrderBook::getBestBid`: 0 when there are no bids, else the key of `bids.begin()`. -/
def getBestBid (b : OrderBook) : Nat :=
  match b.bids with
  | [] => 0
  | (price, _) :: _ => price

/-- `OrderBook::getBestAsk`: `numeric_limits<uint32_t>::max()` when there are no
asks, else the key of `asks.begin()`. -/
def getBestAsk (b : OrderBook) : Nat :=
  match b.asks with
  | [] => 4294967295
  | (price, _) :: _ => price

/-- One side of the book: `bids` for `true`, `asks` for `false`. The flag is also
the side's key order (`bids` descends, `asks` ascends). -/
def side (b : OrderBook) (is_buy : Bool) : Assoc Level :=
  if is_buy then b.bids else b.asks

/-- The effect of `side[price][order_id] = order` on one side. -/
def putNode (desc : Bool) (m : Assoc Level) (price order_id : Nat) (order : Order) : Assoc Level :=
  Assoc.insert desc price (Assoc.insert false order_id order (levelAt m price)) m

/-- The effect on one side of `side[price].erase(order_id)` followed by the
pruning of the level when it became empty. -/
def dropNode (desc : Bool) (m : Assoc Level) (price order_id : Nat) : Assoc Level :=
  if (levelAt (Assoc.insert desc price (Assoc.erase order_id (levelAt m price)) m) price).isEmpty then
    Assoc.erase price (Assoc.insert desc price (Assoc.erase order_id (levelAt m price)) m)
  else
    Assoc.insert desc price (Assoc.erase order_id (levelAt m price)) m

/-- A side is well formed: its levels are in key order, and every level is in key
order and not empty. -/
def SideOK (desc : Bool) (m : Assoc Level) : Prop :=
  Assoc.Ordered desc m ∧ ∀ e ∈ m, Assoc.Ordered false e.2 ∧ e.2 ≠ []

/-- The invariant of the books built by the public calls: the containers are in
key order, no level is empty, every node carries the id, price and side of the
place it is stored at, and every index entry points to an existing node with
its own id. -/
def Inv (b : OrderBook) : Prop :=
  Assoc.Ordered false b.order_map ∧
  (∀ s, SideOK s (b.side s)) ∧
  (∀ ptr o, b.deref ptr = some o →
    o.order_id = ptr.order_id ∧ o.price = ptr.price ∧ o.is_buy = ptr.is_buy) ∧
  (∀ id ptr, Assoc.find id b.order_map = some ptr → ptr.order_id = id ∧ (b.deref ptr).isSome)

/-- Every node of the book is the one its id is indexed at. -/
def Indexed (b : OrderBook) : Prop :=
  ∀ ptr o, b.deref ptr = some o → Assoc.find ptr.order_id b.order_map = some ptr

/-- Every order stored in the price levels of one side. -/
def sideOrders (side : Assoc Level) : List Order :=
  side.flatMap fun e => e.2.map Prod.snd

/-- Every order resting in the book, on either side. -/
def restingOrders (b : OrderBook) : List Order :=
  sideOrders b.bids ++ sideOrders b.asks

end OrderBook

/-- One call of the public interface that changes the book. -/
inductive BookCall where
  | addOrder (order_id price quantity : Nat) (is_buy : Bool)
  | removeOrder (order_id : Nat)
  | modifyOrder (order_id new_quantity : Nat)
deriving DecidableEq, Repr

namespace OrderBook

/-- The book after one call. -/
def step (b : OrderBook) : BookCall → OrderBook
  | BookCall.addOrder order_id price quantity is_buy => b.addOrder order_id price quantity is_buy
  | BookCall.removeOrder order_id => b.removeOrder order_id
  | BookCall.modifyOrder order_id new_quantity => b.modifyOrder order_id new_quantity

/-- The book after a sequence of calls, made one after another. -/
def run (b : OrderBook) (calls : List BookCall) : OrderBook :=
  calls.foldl step b

/-- The books that arise from the empty book by public calls. -/
def Reachable (b : OrderBook) : Prop :=
  ∃ calls : List BookCall, b = run empty calls

/-- No `addOrder` call of the sequence, made from book `b` on, reuses an id that
rests in the book at a different price or on the other side. -/
def ClashFree : OrderBook → List BookCall → Prop
  | _, [] => True
  | b, BookCall.addOrder order_id price quantity is_buy :: rest =>
    (∀ o ∈ b.restingOrders, o.order_id = order_id → o.price = price ∧ o.is_buy = is_buy) ∧
      ClashFree (b.addOrder order_id price quantity is_buy) rest
  | b, c :: rest => ClashFree (b.step c) rest

/-- Whether a sequence of calls is clash free can be computed. -/
def ClashFree.decidable : (b : OrderBook) → (calls : List BookCall) → Decidable (ClashFree b calls)
  | _, [] => isTrue trivial
  | b, BookCall.addOrder order_id price quantity is_buy :: rest =>
    have : Decidable (ClashFree (b.addOrder order_id price quantity is_buy) rest) :=
      ClashFree.decidable _ rest
    show Decidable ((∀ o ∈ b.restingOrders, o.order_id = order_id →
      o.price = price ∧ o.is_buy = is_buy) ∧
        ClashFree (b.addOrder order_id price quantity is_buy) rest) from inferInstance
  | b, BookCall.removeOrder order_id :: rest =>
    show Decidable (ClashFree (b.step (BookCall.removeOrder order_id)) rest) from
      ClashFree.decidable _ rest
  | b, BookCall.modifyOrder order_id new_quantity :: rest =>
    show Decidable (ClashFree (b.step (BookCall.modifyOrder order_id new_quantity)) rest) from
      ClashFree.decidable _ rest

instance (b : OrderBook) (calls : List BookCall) : Decidable (ClashFree b calls) :=
  ClashFree.decidable b calls

/-- The ids passed to the `addOrder` calls of a sequence, in order. -/
def addedIds : List BookCall → List Nat
  | [] => []
  | BookCall.addOrder order_id _ _ _ :: rest => order_id :: addedIds rest
  | _ :: rest => addedIds rest

end OrderBook

/-! ## TCPIPStack.h / TCPIPStack.cpp -/

/-- The record `struct IPHeader`. -/
structure IPHeader where
  src_ip : Nat
  dest_ip : Nat
  protocol : Nat
deriving DecidableEq, Repr

/-- The record `struct TCPHeader`. -/
structure TCPHeader where
  src_port : Nat
  dest_port : Nat
  seq_num : Nat
  ack_num : Nat
deriving DecidableEq, Repr

/-- The value `sizeof(IPHeader)`: 4 + 4 + 1 bytes of fields and 3 bytes of tail
padding (alignment 4). -/
def sizeof_IPHeader : Nat := 12

/-- The value `sizeof(TCPHeader)`: 2 + 2 + 4 + 4 bytes, no padding. -/
def sizeof_TCPHeader : Nat := 12

/-- The fields read through `reinterpret_cast<const IPHeader*>(data)`: `src_ip` at
offset 0, `dest_ip` at 4, `protocol` at 8. -/
def IPHeader.ofBytes (data : List Nat) : IPHeader :=
  { src_ip := leValue (bytesAt data 0 4)
    dest_ip := leValue (bytesAt data 4 4)
    protocol := leValue (bytesAt data 8 1) }

/-- The fields read through `reinterpret_cast<const TCPHeader*>(data)`: `src_port`
at offset 0, `dest_port` at 2, `seq_num` at 4, `ack_num` at 8. -/
def TCPHeader.ofBytes (data : List Nat) : TCPHeader :=
  { src_port := leValue (bytesAt data 0 2)
    dest_port := leValue (bytesAt data 2 2)
    seq_num := leValue (bytesAt data 4 4)
    ack_num := leValue (bytesAt data 8 4) }

/-- The class `TCPConnection`; `received_data` is the `std::queue`, front first. -/
structure TCPConnection where
  remote_ip : Nat
  remote_port : Nat
  local_ip : Nat
  local_port : Nat
  next_seq_num : Nat
  next_ack_num : Nat
  received_data : List (List Nat)
deriving DecidableEq, Repr

namespace TCPConnection

/-- The constructor `TCPConnection(rip, rport, lip, lport)`: both sequence numbers
start at 0 and the queue is empty. -/
def new (rip rport lip lport : Nat) : TCPConnection :=
  { remote_ip := rip, remote_port := rport, local_ip := lip, local_port := lport,
    next_seq_num := 0, next_ack_num := 0, received_data := [] }

/-- `TCPConnection::process_packet`: `next_ack_num = tcp_header.seq_num + len`,
stored in a `uint32_t`, and the `len` bytes at `data` pushed as one chunk when
`len > 0`. -/
def process_packet (c : TCPConnection) (tcp_header : TCPHeader) (data : List Nat) (len : Nat) :
    TCPConnection :=
  if len > 0 then
    { c with
      next_ack_num := (tcp_header.seq_num + len) % 2 ^ 32
      received_data := c.received_data ++ [bytesAt data 0 len] }
  else
    { c with next_ack_num := (tcp_header.seq_num + len) % 2 ^ 32 }

/-- `TCPConnection::create_packet`: the TCP header followed by the `len` bytes at
`data`, and the connection with `next_seq_num += len` (in `uint32_t`). -/
def create_packet (c : TCPConnection) (data : List Nat) (len : Nat) : List Nat × TCPConnection :=
  (leBytes 2 c.local_port ++ leBytes 2 c.remote_port ++ leBytes 4 c.next_seq_num
      ++ leBytes 4 c.next_ack_num ++ bytesAt data 0 len,
    { c with next_seq_num := (c.next_seq_num + len) % 2 ^ 32 })

/-- `TCPConnection::has_data`. -/
def has_data (c : TCPConnection) : Bool :=
  !c.received_data.isEmpty

/-- `TCPConnection::get_data`: the empty vector when the queue is empty, else the
front chunk, which is popped. -/
def get_data (c : TCPConnection) : List Nat × TCPConnection :=
  match c.received_data with
  | [] => ([], c)
  | data :: rest => (data, { c with received_data := rest })

end TCPConnection

/-- The class `TCPIPStack`: the `std::unordered_map` of connections by key. -/
structure TCPIPStack where
  connections : Assoc TCPConnection
deriving DecidableEq, Repr

namespace TCPIPStack

/-- A freshly constructed stack: no connection. -/
def empty : TCPIPStack :=
  { connections := [] }

/-- `TCPIPStack::get_connection_key`: `(uint64_t(ip) << 16) | port`. -/
def get_connection_key (ip port : Nat) : Nat :=
  (ip <<< 16) ||| port

/-- `TCPIPStack::process_packet`. The connection `it->second` is the one found
under the key, or the one emplaced for it when there was none. -/
def process_packet (st : TCPIPStack) (data : List Nat) (len : Nat) : TCPIPStack :=
  if len < sizeof_IPHeader + sizeof_TCPHeader then
    st
  else
    let ip_header := IPHeader.ofBytes data
    let tcp_header := TCPHeader.ofBytes (data.drop sizeof_IPHeader)
    let conn_key := get_connection_key ip_header.src_ip tcp_header.src_port
    let conn :=
      match Assoc.find conn_key st.connections with
      | some c => c
      | none =>
        TCPConnection.new ip_header.src_ip tcp_header.src_port ip_header.dest_ip tcp_header.dest_port
    { connections := Assoc.insert false conn_key
        (conn.process_packet tcp_header (data.drop (sizeof_IPHeader + sizeof_TCPHeader))
          (len - sizeof_IPHeader - sizeof_TCPHeader))
        st.connections }

/-- `TCPIPStack::create_packet`: the frame and the stack afterwards. The frame is
a zero-initialised vector in which `src_ip = 0`, `dest_ip` and `protocol = 6`
are written, followed by the TCP packet of the connection. -/
def create_packet (st : TCPIPStack) (dest_ip dest_port : Nat) (data : List Nat) (len : Nat) :
    List Nat × TCPIPStack :=
  let conn_key := get_connection_key dest_ip dest_port
  let conn :=
    match Assoc.find conn_key st.connections with
    | some c => c
    | none => TCPConnection.new dest_ip dest_port 0 0
  let tcp := conn.create_packet data len
  (leBytes 4 0 ++ leBytes 4 dest_ip ++ leBytes 1 6 ++ [0, 0, 0] ++ tcp.1,
    { connections := Assoc.insert false conn_key tcp.2 st.connections })

/-- The search of `get_next_message`: the key of the first connection for which
`has_data()` holds, when the loop visits the connections in the order `scan`
(`none` when it finds no such connection). -/
def firstWithData (st : TCPIPStack) : List Nat → Option Nat
  | [] => none
  | k :: rest =>
    match Assoc.find k st.connections with
    | some c => if c.has_data then some k else firstWithData st rest
    | none => firstWithData st rest

/-- `TCPIPStack::get_next_message`: the chunk returned and the stack afterwards.
`scan` is the order in which the range-`for` visits the keys of `connections`;
the iteration order of an `std::unordered_map` is unspecified, so it is an
argument. -/
def get_next_message (st : TCPIPStack) (scan : List Nat) : List Nat × TCPIPStack :=
  match firstWithData st scan with
  | none => ([], st)
  | some k =>
    match Assoc.find k st.connections with
    | some c => (c.get_data.1, { connections := Assoc.insert false k c.get_data.2 st.connections })
    | none => ([], st)

/-- The connection key that `process_packet` derives from a frame: the key of the
`src_ip` of its IP header and the `src_port` of its TCP header. -/
def frameKey (data : List Nat) : Nat :=
  get_connection_key (IPHeader.ofBytes data).src_ip
    (TCPHeader.ofBytes (data.drop sizeof_IPHeader)).src_port

/-- The payload of a frame of `len` bytes: the bytes after the two headers. -/
def framePayload (data : List Nat) (len : Nat) : List Nat :=
  bytesAt (data.drop (sizeof_IPHeader + sizeof_TCPHeader)) 0
    (len - sizeof_IPHeader - sizeof_TCPHeader)

/-- The connection a frame is delivered to, as it is before the frame is
processed: the one stored under the frame's key, or else the connection that
`process_packet` creates for it from the header fields. -/
def connBefore (st : TCPIPStack) (data : List Nat) : TCPConnection :=
  (Assoc.find (frameKey data) st.connections).getD
    (TCPConnection.new (IPHeader.ofBytes data).src_ip
      (TCPHeader.ofBytes (data.drop sizeof_IPHeader)).src_port (IPHeader.ofBytes data).dest_ip
      (TCPHeader.ofBytes (data.drop sizeof_IPHeader)).dest_port)

/-- The connection a `create_packet` call for `(dest_ip, dest_port)` uses, as it
is before the call: the one stored under the key, or else the connection that
`create_packet` creates for it. -/
def connFor (st : TCPIPStack) (dest_ip dest_port : Nat) : TCPConnection :=
  (Assoc.find (get_connection_key dest_ip dest_port) st.connections).getD
    (TCPConnection.new dest_ip dest_port 0 0)

/-- The chunks queued in the connection with key `k`, front first (none when
there is no such connection). -/
def queueOf (st : TCPIPStack) (k : Nat) : List (List Nat) :=
  match Assoc.find k st.connections with
  | some c => c.received_data
  | none => []

/-- The invariant of the stacks built by the public calls: the map is in key
order, every connection is stored under the key of its remote endpoint, and its
fields are in the range of their C++ types. -/
def Inv (st : TCPIPStack) : Prop :=
  Assoc.Ordered false st.connections ∧
  ∀ k c, Assoc.find k st.connections = some c →
    k = get_connection_key c.remote_ip c.remote_port ∧ c.remote_ip < 2 ^ 32 ∧
      c.remote_port < 2 ^ 16 ∧ c.next_seq_num < 2 ^ 32 ∧ c.next_ack_num < 2 ^ 32

end TCPIPStack

/-- One call of the public interface of the stack. -/
inductive StackCall where
  | process_packet (data : List Nat) (len : Nat)
  | create_packet (dest_ip dest_port : Nat) (data : List Nat) (len : Nat)
  | get_next_message (scan : List Nat)
deriving DecidableEq, Repr

/-- The arguments of a call are in the range of their C++ types
(`dest_ip : uint32_t`, `dest_port : uint16_t`). -/
def StackCall.InRange : StackCall → Prop
  | StackCall.create_packet dest_ip dest_port _ _ => dest_ip < 2 ^ 32 ∧ dest_port < 2 ^ 16
  | _ => True

namespace TCPIPStack

/-- The stack after one call. -/
def step (st : TCPIPStack) : StackCall → TCPIPStack
  | StackCall.process_packet data len => st.process_packet data len
  | StackCall.create_packet dest_ip dest_port data len => (st.create_packet dest_ip dest_port data len).2
  | StackCall.get_next_message scan => (st.get_next_message scan).2

/-- The stack after a sequence of calls, made one after another. -/
def run (st : TCPIPStack) (calls : List StackCall) : TCPIPStack :=
  calls.foldl step st

/-- The stacks that arise from the empty stack by public calls with arguments in
range. -/
def Reachable (st : TCPIPStack) : Prop :=
  ∃ calls : List StackCall, (∀ c ∈ calls, c.InRange) ∧ st = run empty calls

/-- The chunk a `process_packet` call queues, with the key of the connection that
receives it: the bytes after the two headers, when the frame is not undersized
and has such bytes. -/
def queuedChunk (data : List Nat) (len : Nat) : Option (Nat × List Nat) :=
  if len < sizeof_IPHeader + sizeof_TCPHeader then none
  else if len - sizeof_IPHeader - sizeof_TCPHeader > 0 then
    some (frameKey data, framePayload data len)
  else none

/-- The payloads that the `process_packet` calls of a sequence queue for the
connection with key `k`, in the order of the calls. -/
def queuedFor (k : Nat) : List StackCall → List (List Nat)
  | [] => []
  | StackCall.process_packet data len :: rest =>
    match queuedChunk data len with
    | some (k', chunk) => if k' = k then chunk :: queuedFor k rest else queuedFor k rest
    | none => queuedFor k rest
  | _ :: rest => queuedFor k rest

/-- The chunks that the `get_next_message` calls of a sequence, made from stack
`st` on, return from the connection with key `k`, in the order of the calls. -/
def returnedFrom (k : Nat) : TCPIPStack → List StackCall → List (List Nat)
  | _, [] => []
  | st, StackCall.get_next_message scan :: rest =>
    if firstWithData st scan = some k then
      (st.get_next_message scan).1 :: returnedFrom k (st.get_next_message scan).2 rest
    else
      returnedFrom k (st.get_next_message scan).2 rest
  | st, c :: rest => returnedFrom k (st.step c) rest

end TCPIPStack

/-! ## SIMDMessageParser.h (record) / MarketDataHandler.h / MarketDataHandler.cpp -/

/-- The record `struct MarketDataMessage`; `symbol` is the array `char symbol[8]`. -/
structure MarketDataMessage where
  timestamp : Nat
  sequence_number : Nat
  message_type : Nat
  symbol : List Nat
  order_id : Nat
  price : Nat
  quantity : Nat
deriving DecidableEq, Repr

/-- The state of a `MarketDataHandler` that its methods read and write: the
queue of 1024 slots, the book, the counters, the latency history, the stack
and the id counter. -/
structure MarketDataHandler where
  message_queue : LockFreeRingBuffer MarketDataMessage 1024
  order_book : OrderBook
  processed_messages : Nat
  total_latency : Nat
  message_count : Nat
  latencies : List Nat
  tcp_stack : TCPIPStack
  last_order_id : Nat
deriving DecidableEq, Repr

/-- What one pass of the loop of `process_network_packet` takes from outside the
program state: the order in which `get_next_message` visits the connections of
the stack it is called on, the prior content of the locals `order` (in
`deserialize_order`) and `msg`, and the two clock readings. -/
structure Ambient where
  scan : TCPIPStack → List Nat
  uninit_order : Order
  uninit_msg : MarketDataMessage
  now_stamp : Nat
  now_handle : Nat

namespace TCPIPStack

/-- The number of chunks queued in all connections together. -/
def totalQueued (st : TCPIPStack) : Nat :=
  (st.connections.map fun e => e.2.received_data.length).sum

end TCPIPStack

namespace MarketDataHandler

/-- A freshly constructed handler; `slots` is the initial content of the queue's
array. -/
def fresh (slots : List MarketDataMessage) : MarketDataHandler :=
  { message_queue := LockFreeRingBuffer.init 1024 slots
    order_book := OrderBook.empty
    processed_messages := 0
    total_latency := 0
    message_count := 0
    latencies := []
    tcp_stack := TCPIPStack.empty
    last_order_id := 0 }

/-- `MarketDataHandler::handleMessage`, with the clock reading `now`: the latency
`now − msg.timestamp` is added to `total_latency`, `message_count` is
incremented (both 64-bit counters), and `msg` is pushed; the result of `push`
is not looked at. -/
def handleMessage (h : MarketDataHandler) (msg : MarketDataMessage) (now : Nat) :
    MarketDataHandler :=
  { h with
    total_latency := (h.total_latency + now + (2 ^ 64 - msg.timestamp % 2 ^ 64)) % 2 ^ 64
    message_count := (h.message_count + 1) % 2 ^ 64
    message_queue := (h.message_queue.push msg).2 }

/-- The message that one pass of the loop of `process_network_packet` builds from
the chunk `order_data`: the chunk is decoded with `deserialize_order`, the
fields `order_id`, `price`, `quantity`, `symbol[0]` (`'B'` or `'S'`) and
`timestamp` of the local `msg` are set, and its other fields keep their prior
content. -/
def chunkMessage (a : Ambient) (order_data : List Nat) : MarketDataMessage :=
  let order := OrderProtocol.deserialize_order a.uninit_order order_data order_data.length
  { a.uninit_msg with
    order_id := order.order_id
    price := order.price
    quantity := order.quantity
    symbol := (if order.is_buy then 66 else 83) :: a.uninit_msg.symbol.drop 1
    timestamp := a.now_stamp }

/-- The loop `while (!force_quit) { ... }` of `process_network_packet`, pass `i`
onwards. Every pass that does not leave the loop takes one chunk out of the
stack, so `fuel` passes are enough when `fuel` exceeds the number of queued
chunks. -/
def drainLoop (force_quit : Bool) (env : Nat → Ambient) :
    Nat → Nat → MarketDataHandler → MarketDataHandler
  | 0, _, h => h
  | fuel + 1, i, h =>
    if force_quit then h
    else
      let r := h.tcp_stack.get_next_message ((env i).scan h.tcp_stack)
      if r.1.isEmpty then { h with tcp_stack := r.2 }
      else
        drainLoop force_quit env fuel (i + 1)
          (({ h with tcp_stack := r.2 } : MarketDataHandler).handleMessage
            (chunkMessage (env i) r.1) (env i).now_handle)

/-- `MarketDataHandler::process_network_packet`. -/
def process_network_packet (h : MarketDataHandler) (data : List Nat) (len : Nat)
    (force_quit : Bool) (env : Nat → Ambient) : MarketDataHandler :=
  drainLoop force_quit env ((h.tcp_stack.process_packet data len).totalQueued + 1) 0
    { h with tcp_stack := h.tcp_stack.process_packet data len }

/-- `MarketDataHandler::submit_order`: the order is serialised (`pad` being its
padding bytes), framed for 10.0.0.1:12345 and fed back into
`process_network_packet`. The delay and the console output are left out. -/
def submit_order (h : MarketDataHandler) (order : Order) (pad : List Nat) (force_quit : Bool)
    (env : Nat → Ambient) : MarketDataHandler :=
  let order_data := OrderProtocol.serialize_order order pad
  let r := h.tcp_stack.create_packet 0x0A000001 12345 order_data order_data.length
  ({ h with tcp_stack := r.2 } : MarketDataHandler).process_network_packet r.1 r.1.length
    force_quit env

/-- The loop `while (!force_quit && message_queue.pop(msg)) { ... }` of
`processMessages`, pass `i` onwards; `durations i` is the time measured in pass
`i` and `msg` the local the pops write to. -/
def processLoop (force_quit : Bool) (durations : Nat → Nat) :
    Nat → Nat → MarketDataHandler → MarketDataMessage → MarketDataHandler
  | 0, _, h, _ => h
  | fuel + 1, i, h, msg =>
    if force_quit then h
    else
      let r := h.message_queue.pop msg
      if r.1 then
        processLoop force_quit durations fuel (i + 1)
          { h with
            message_queue := r.2.2
            order_book := h.order_book.addOrder r.2.1.order_id r.2.1.price r.2.1.quantity
              (decide (r.2.1.symbol.getD 0 0 = 66))
            latencies := h.latencies ++ [durations i]
            processed_messages := (h.processed_messages + 1) % 2 ^ 64 }
          r.2.1
      else { h with message_queue := r.2.2 }

/-- `MarketDataHandler::processMessages`; `uninit_msg` is the prior content of
the local `msg`. A queue of 1024 slots holds at most 1023 messages, so 1024
passes are enough. -/
def processMessages (h : MarketDataHandler) (force_quit : Bool) (uninit_msg : MarketDataMessage)
    (durations : Nat → Nat) : MarketDataHandler :=
  processLoop force_quit durations 1024 0 h uninit_msg

/-- The difference `best_ask - best_bid` as the C++ computes it, in `uint32_t`:
modulo `2^32`. -/
def spread32 (best_bid best_ask : Nat) : Nat :=
  (best_ask + (2 ^ 32 - best_bid % 2 ^ 32)) % 2 ^ 32

/-- `MarketDataHandler::executeTradingStrategy`: the orders handed to
`submit_order`, in order, and the handler afterwards. The spread
`best_ask - best_bid` is computed in `uint32_t`; `pad₁`, `env₁`, `pad₂`, `env₂`
are what the two `submit_order` calls take from outside. -/
def executeTradingStrategy (h : MarketDataHandler) (force_quit : Bool) (pad₁ : List Nat)
    (env₁ : Nat → Ambient) (pad₂ : List Nat) (env₂ : Nat → Ambient) :
    List Order × MarketDataHandler :=
  let best_bid := h.order_book.getBestBid
  let best_ask := h.order_book.getBestAsk
  if best_bid > 0 ∧ best_ask < 4294967295 then
    if spread32 best_bid best_ask ≤ 2 then
      let new_order_id := (h.last_order_id + 1) % 2 ^ 64
      let buy_order : Order := ⟨new_order_id, best_bid, 100, true⟩
      let sell_order : Order := ⟨(new_order_id + 1) % 2 ^ 64, best_ask, 100, false⟩
      ([buy_order, sell_order],
        ((({ h with last_order_id := (h.last_order_id + 2) % 2 ^ 64 } : MarketDataHandler).submit_order
          buy_order pad₁ force_quit env₁).submit_order sell_order pad₂ force_quit env₂))
    else ([], h)
  else ([], h)

end MarketDataHandler

/-! ## SIMDMessageParser.h (parser) / MarketDataHandler.cpp (order generator) -/

/-- `SIMDMessageParser::parse`: every field of the local `msg` is assigned from
the bytes at `data`: `timestamp` from the 8 bytes at offset 0, `sequence_number`
from the 4 bytes at offset 8, `message_type` from the byte at offset 12,
`symbol` from the 8 bytes at offset 13 (`memcpy`), `order_id` from the 8 bytes
at offset 21, `price` from the 4 bytes at offset 29 and `quantity` from the 4
bytes at offset 33. The integers are read in the byte order of the x86-64
target, little-endian. -/
def SIMDMessageParser.parse (data : List Nat) : MarketDataMessage :=
  { timestamp := leValue (bytesAt data 0 8)
    sequence_number := leValue (bytesAt data 8 4)
    message_type := data.getD 12 0 % 256
    symbol := (bytesAt data 13 8).map (· % 256)
    order_id := leValue (bytesAt data 21 8)
    price := leValue (bytesAt data 29 4)
    quantity := leValue (bytesAt data 33 4) }

/-- `MarketDataHandler::generate_random_order`: the order returned and the
handler afterwards. `order_id` is the value `last_order_id.fetch_add(1)`
returns, the counter before the addition; `price`, `quantity` and `is_buy` are
what the three distributions draw from the generator. -/
def MarketDataHandler.generate_random_order (h : MarketDataHandler) (price quantity : Nat)
    (is_buy : Bool) : Order × MarketDataHandler :=
  ({ order_id := h.last_order_id, price := price, quantity := quantity, is_buy := is_buy },
    { h with last_order_id := (h.last_order_id + 1) % 2 ^ 64 })

/-! ## The loop of `process_network_packet`, observed -/

namespace TCPIPStack

/-- Every chunk queued in the stack, connection by connection. -/
def allChunks (st : TCPIPStack) : List (List Nat) :=
  st.connections.flatMap fun e => e.2.received_data

/-- No queued chunk is empty. -/
def NoEmptyChunk (st : TCPIPStack) : Prop :=
  ∀ k, ∀ chunk ∈ st.queueOf k, chunk ≠ []

end TCPIPStack

namespace MarketDataHandler

/-- The chunks that the passes of the loop of `process_network_packet` decode and
hand to `handleMessage`, in the order of the calls; the loop is the one of
`drainLoop`, from pass `i` onwards. -/
def drainChunks (force_quit : Bool) (env : Nat → Ambient) :
    Nat → Nat → MarketDataHandler → List (List Nat)
  | 0, _, _ => []
  | fuel + 1, i, h =>
    if force_quit then []
    else
      let r := h.tcp_stack.get_next_message ((env i).scan h.tcp_stack)
      if r.1.isEmpty then []
      else
        r.1 :: drainChunks force_quit env fuel (i + 1)
          (({ h with tcp_stack := r.2 } : MarketDataHandler).handleMessage
            (chunkMessage (env i) r.1) (env i).now_handle)

end MarketDataHandler

/-! ## LockFreeRingBuffer.h: one producer thread and one consumer thread -/

/-- Where the producer thread stands inside a call `push(item)`: between calls;
after `tail.load` (holding `current_tail`); after `head.load` found the queue
not full; while the assignment `buffer[current_tail] = item` is under way; after
that assignment, before `tail.store`. -/
inductive ProducerPc (T : Type) where
  | idle
  | loadedTail (item : T) (current_tail : Nat)
  | checked (item : T) (current_tail : Nat)
  | writing (item : T) (current_tail : Nat)
  | written (item : T) (current_tail : Nat)
deriving DecidableEq, Repr

/-- Where the consumer thread stands inside a call `pop(item)`: between calls;
after `head.load` (holding `current_head`); after `tail.load` found the queue
not empty; while the copy `item = buffer[current_head]` is under way; after that
copy (holding the value copied, `none` for an indeterminate one), before
`head.store`. -/
inductive ConsumerPc (T : Type) where
  | idle
  | loadedHead (current_head : Nat)
  | checked (current_head : Nat)
  | copying (current_head : Nat)
  | copied (current_head : Nat) (item : Option T)
deriving DecidableEq, Repr

/-- One scheduling decision: the producer thread or the consumer thread performs
its next step. `item` is the argument of the `push` call that the producer
begins when it is between calls (it is not looked at otherwise). -/
inductive Turn (T : Type) where
  | producer (item : T)
  | consumer
deriving DecidableEq, Repr

/-- One ring buffer shared by a producer thread and a consumer thread. The
slots hold `some` value, or `none` while an assignment to the slot is under way
(a partially written slot). `pushed` lists the items of the pushes that
returned true and `popped` the values delivered by the pops that returned true,
both in order. -/
structure Spsc (T : Type) (Size : Nat) where
  mem : LockFreeRingBuffer (Option T) Size
  producer : ProducerPc T
  consumer : ConsumerPc T
  pushed : List T
  popped : List (Option T)
deriving DecidableEq, Repr

namespace Spsc

variable {T : Type} {Size : Nat}

/-- A freshly constructed queue with both threads between calls. -/
def init (Size : Nat) (slots : List T) : Spsc T Size :=
  { mem := LockFreeRingBuffer.init Size (slots.map some)
    producer := ProducerPc.idle
    consumer := ConsumerPc.idle
    pushed := []
    popped := [] }

/-- The next step of the producer thread inside `push`: `tail.load`; then
`head.load` and the comparison, returning false when full; then the assignment
to the slot, which begins (the slot is partially written) and ends; then
`tail.store(next_tail)`, returning true. -/
def producerStep (s : Spsc T Size) (item : T) : Spsc T Size :=
  match s.producer with
  | ProducerPc.idle => { s with producer := ProducerPc.loadedTail item s.mem.tail }
  | ProducerPc.loadedTail it current_tail =>
    if LockFreeRingBuffer.next Size current_tail = s.mem.head then
      { s with producer := ProducerPc.idle }
    else
      { s with producer := ProducerPc.checked it current_tail }
  | ProducerPc.checked it current_tail =>
    { s with
      mem := { s.mem with buffer := s.mem.buffer.set current_tail none }
      producer := ProducerPc.writing it current_tail }
  | ProducerPc.writing it current_tail =>
    { s with
      mem := { s.mem with buffer := s.mem.buffer.set current_tail (some it) }
      producer := ProducerPc.written it current_tail }
  | ProducerPc.written it current_tail =>
    { s with
      mem := { s.mem with tail := LockFreeRingBuffer.next Size current_tail }
      producer := ProducerPc.idle
      pushed := s.pushed ++ [it] }

/-- The next step of the consumer thread inside `pop`: `head.load`; then
`tail.load` and the comparison, returning false when empty; then the copy out
of the slot, which begins and ends (it yields what the slot holds then); then
`head.store(next(current_head))`, returning true. -/
def consumerStep (s : Spsc T Size) : Spsc T Size :=
  match s.consumer with
  | ConsumerPc.idle => { s with consumer := ConsumerPc.loadedHead s.mem.head }
  | ConsumerPc.loadedHead current_head =>
    if current_head = s.mem.tail then
      { s with consumer := ConsumerPc.idle }
    else
      { s with consumer := ConsumerPc.checked current_head }
  | ConsumerPc.checked current_head => { s with consumer := ConsumerPc.copying current_head }
  | ConsumerPc.copying current_head =>
    { s with consumer := ConsumerPc.copied current_head (s.mem.buffer.getD current_head none) }
  | ConsumerPc.copied current_head item =>
    { s with
      mem := { s.mem with head := LockFreeRingBuffer.next Size current_head }
      consumer := ConsumerPc.idle
      popped := s.popped ++ [item] }

/-- One step of the system: the step of the thread whose turn it is. -/
def step (s : Spsc T Size) : Turn T → Spsc T Size
  | Turn.producer item => s.producerStep item
  | Turn.consumer => s.consumerStep

/-- The state after an interleaving of steps of the two threads. -/
def run (s : Spsc T Size) (turns : List (Turn T)) : Spsc T Size :=
  turns.foldl step s

/-- What holds of the producer's local state when the queue holds `l`. -/
def ProducerOK (s : Spsc T Size) (l : List T) : Prop :=
  match s.producer with
  | ProducerPc.idle => True
  | ProducerPc.loadedTail _ ct => ct = s.mem.tail
  | ProducerPc.checked _ ct => ct = s.mem.tail ∧ l.length < Size - 1
  | ProducerPc.writing _ ct => ct = s.mem.tail ∧ l.length < Size - 1
  | ProducerPc.written it ct =>
    ct = s.mem.tail ∧ l.length < Size - 1 ∧ s.mem.buffer[ct]? = some (some it)

/-- What holds of the consumer's local state when the queue holds `l`. -/
def ConsumerOK (s : Spsc T Size) (l : List T) : Prop :=
  match s.consumer with
  | ConsumerPc.idle => True
  | ConsumerPc.loadedHead ch => ch = s.mem.head
  | ConsumerPc.checked ch => ch = s.mem.head ∧ l ≠ []
  | ConsumerPc.copying ch => ch = s.mem.head ∧ l ≠ []
  | ConsumerPc.copied ch v => ch = s.mem.head ∧ ∃ x t, l = x :: t ∧ v = some x

/-- The invariant of the interleavings: the queue holds, fully written and in
order, exactly the items pushed and not yet popped, and the local state of each
thread agrees with the shared indices. -/
def Inv (s : Spsc T Size) : Prop :=
  ∃ l : List T, s.popped ++ l.map some = s.pushed.map some ∧
    LockFreeRingBuffer.Holds s.mem (l.map some) ∧ s.ProducerOK l ∧ s.ConsumerOK l

end Spsc

/-! # Properties

## Wire codec -/

theorem leBytes_length (w x : Nat) : (leBytes w x).length = w := by
  induction w generalizing x with
  | zero => rfl
  | succ w ih => simp [leBytes, ih]

theorem leValue_leBytes (w x : Nat) : leValue (leBytes w x) = x % 256 ^ w := by
  induction w generalizing x with
  | zero => simp [leBytes, leValue, Nat.mod_one]
  | succ w ih =>
    simp only [leBytes, leValue, ih, Nat.mod_mod]
    rw [pow_succ, Nat.mul_comm (256 ^ w) 256, Nat.mod_mul]

theorem bytesAt_congr (d₁ d₂ : List Nat) (o₁ o₂ n : Nat)
    (h : ∀ i, i < n → d₁.getD (o₁ + i) 0 = d₂.getD (o₂ + i) 0) :
    bytesAt d₁ o₁ n = bytesAt d₂ o₂ n := by
  unfold bytesAt
  apply List.map_congr_left
  intro i hi
  exact h i (List.mem_range.mp hi)

theorem bytesAt_self (l : List Nat) : bytesAt l 0 l.length = l := by
  unfold bytesAt
  apply List.ext_getElem
  · simp
  · intro i h₁ h₂
    simp [List.getD_eq_getElem?_getD, List.getElem?_eq_getElem h₂]

theorem bytesAt_front (l r : List Nat) (n : Nat) (h : l.length = n) :
    bytesAt (l ++ r) 0 n = l := by
  subst h
  rw [bytesAt_congr (l ++ r) l 0 0 l.length, bytesAt_self]
  intro i hi
  simp [List.getD_eq_getElem?_getD, List.getElem?_append_left hi]

theorem getD_skip (l r : List Nat) (i j : Nat) (h : i = l.length + j) :
    (l ++ r).getD i 0 = r.getD j 0 := by
  subst h
  simp only [List.getD_eq_getElem?_getD]
  rw [List.getElem?_append_right (by omega)]
  congr 2
  omega

theorem bytesAt_skip (l r : List Nat) (off off' n : Nat) (h : off = l.length + off') :
    bytesAt (l ++ r) off n = bytesAt r off' n := by
  apply bytesAt_congr
  intro i _
  exact getD_skip l r (off + i) (off' + i) (by omega)

theorem Order.objectBytes_length (o : Order) (pad : List Nat) :
    (o.objectBytes pad).length = sizeof_Order := by
  simp [Order.objectBytes, leBytes_length, bytesAt, sizeof_Order]

theorem Order.ofBytes_objectBytes (o : Order) (pad : List Nat) (h : o.InRange) :
    Order.ofBytes (o.objectBytes pad) = o := by
  obtain ⟨h₁, h₂, h₃⟩ := h
  have e₁ : Order.order_id (Order.ofBytes (o.objectBytes pad)) = o.order_id := by
    simp only [Order.ofBytes, Order.objectBytes, List.append_assoc]
    rw [bytesAt_front _ _ 8 (leBytes_length _ _), leValue_leBytes]
    exact Nat.mod_eq_of_lt (by norm_num; omega)
  have e₂ : Order.price (Order.ofBytes (o.objectBytes pad)) = o.price := by
    simp only [Order.ofBytes, Order.objectBytes, List.append_assoc]
    rw [bytesAt_skip _ _ 8 0 4 (by simp [leBytes_length]),
      bytesAt_front _ _ 4 (leBytes_length _ _), leValue_leBytes]
    exact Nat.mod_eq_of_lt (by norm_num; omega)
  have e₃ : Order.quantity (Order.ofBytes (o.objectBytes pad)) = o.quantity := by
    simp only [Order.ofBytes, Order.objectBytes, List.append_assoc]
    rw [bytesAt_skip _ _ 12 4 4 (by simp [leBytes_length]),
      bytesAt_skip _ _ 4 0 4 (by simp [leBytes_length]),
      bytesAt_front _ _ 4 (leBytes_length _ _), leValue_leBytes]
    exact Nat.mod_eq_of_lt (by norm_num; omega)
  have e₄ : Order.is_buy (Order.ofBytes (o.objectBytes pad)) = o.is_buy := by
    simp only [Order.ofBytes, Order.objectBytes, List.append_assoc]
    rw [getD_skip _ _ 16 8 (by simp [leBytes_length]),
      getD_skip _ _ 8 4 (by simp [leBytes_length]),
      getD_skip _ _ 4 0 (by simp [leBytes_length])]
    cases o.is_buy <;> simp
  cases o
  simp_all [Order.ofBytes]

/-- C1 (wire round trip): for every `Order` value in the range of its C++ field
types, whatever the padding bytes of the object and the prior content of the
decoder's local, `serialize_order` yields exactly `sizeof(Order)` bytes and
`deserialize_order` on those bytes, with `len` their length, returns a record
equal to the original one in all four fields. -/
theorem C1_wire_round_trip (o : Order) (pad : List Nat) (uninit : Order) (h : o.InRange) :
    (OrderProtocol.serialize_order o pad).length = sizeof_Order ∧
    OrderProtocol.deserialize_order uninit (OrderProtocol.serialize_order o pad)
      (OrderProtocol.serialize_order o pad).length = o ∧
    (OrderProtocol.deserialize_order uninit (OrderProtocol.serialize_order o pad)
      (OrderProtocol.serialize_order o pad).length).order_id = o.order_id ∧
    (OrderProtocol.deserialize_order uninit (OrderProtocol.serialize_order o pad)
      (OrderProtocol.serialize_order o pad).length).price = o.price ∧
    (OrderProtocol.deserialize_order uninit (OrderProtocol.serialize_order o pad)
      (OrderProtocol.serialize_order o pad).length).quantity = o.quantity ∧
    (OrderProtocol.deserialize_order uninit (OrderProtocol.serialize_order o pad)
      (OrderProtocol.serialize_order o pad).length).is_buy = o.is_buy := by
  have hlen : (OrderProtocol.serialize_order o pad).length = sizeof_Order :=
    Order.objectBytes_length o pad
  have hrt : OrderProtocol.deserialize_order uninit (OrderProtocol.serialize_order o pad)
      (OrderProtocol.serialize_order o pad).length = o := by
    rw [hlen]
    simp only [OrderProtocol.deserialize_order, ge_iff_le, le_refl, if_true]
    exact Order.ofBytes_objectBytes o pad h
  refine ⟨hlen, hrt, ?_, ?_, ?_, ?_⟩ <;> rw [hrt]

/-- C1 at the order `{id = 1, price = 150, quantity = 20, buy}`, with padding
bytes `0xAA` and a non-zero decoder local. -/
theorem C1_wire_round_trip_witness :
    Order.InRange ⟨1, 150, 20, true⟩ ∧
    OrderProtocol.deserialize_order ⟨9, 9, 9, false⟩
      (OrderProtocol.serialize_order ⟨1, 150, 20, true⟩ [170, 170, 170, 170, 170, 170, 170])
      (OrderProtocol.serialize_order ⟨1, 150, 20, true⟩ [170, 170, 170, 170, 170, 170, 170]).length
      = ⟨1, 150, 20, true⟩ :=
  ⟨by decide, (C1_wire_round_trip ⟨1, 150, 20, true⟩ [170, 170, 170, 170, 170, 170, 170]
    ⟨9, 9, 9, false⟩ (by decide)).2.1⟩

/-- C2 (short buffer), as the code behaves: for every buffer and every `len`
below `sizeof(Order)`, `deserialize_order` returns its local `order` as it was
declared, without initialiser: the result is the prior content `uninit` of that
storage, whatever the buffer holds. It is the zero-valued record only if that
storage happened to hold zeros. -/
theorem C2_short_buffer_returns_uninitialised (uninit : Order) (data : List Nat) (len : Nat)
    (h : len < sizeof_Order) :
    OrderProtocol.deserialize_order uninit data len = uninit := by
  unfold OrderProtocol.deserialize_order
  rw [if_neg (by omega)]

/-- C2 at a one-byte chunk whose decoder local holds `{7, 7, 7, true}`: the
result is that record, not the zero-valued one. -/
theorem C2_short_buffer_returns_uninitialised_witness :
    1 < sizeof_Order ∧
    OrderProtocol.deserialize_order ⟨7, 7, 7, true⟩ [0] 1 = ⟨7, 7, 7, true⟩ ∧
    OrderProtocol.deserialize_order ⟨7, 7, 7, true⟩ [0] 1 ≠ ⟨0, 0, 0, false⟩ :=
  ⟨by decide, C2_short_buffer_returns_uninitialised ⟨7, 7, 7, true⟩ [0] 1 (by decide),
    by decide⟩

/-! ## Ring buffer -/

namespace LockFreeRingBuffer

variable {T : Type} {Size : Nat}

theorem wrap_eq (Size x : Nat) (h : x < 2 * Size) :
    x % Size = if x < Size then x else x - Size := by
  split
  · next h₁ => exact Nat.mod_eq_of_lt h₁
  · next h₁ =>
    rw [Nat.mod_eq_sub_mod (by omega)]
    exact Nat.mod_eq_of_lt (by omega)

theorem next_eq (Size t : Nat) (h : t < Size) :
    next Size t = if t + 1 < Size then t + 1 else 0 := by
  unfold next
  rw [wrap_eq Size (t + 1) (by omega)]
  split <;> omega

theorem occupancy_eq (q : LockFreeRingBuffer T Size) (hh : q.head < Size) (ht : q.tail < Size) :
    q.occupancy = if q.head ≤ q.tail then q.tail - q.head else q.tail + Size - q.head := by
  unfold occupancy
  split
  · next h =>
    rw [Int.emod_eq_of_lt (by omega) (by omega)]
    omega
  · next h =>
    rw [← Int.add_emod_self, Int.emod_eq_of_lt (by omega) (by omega)]
    omega

theorem Reachable.bounds (hSize : 0 < Size) {q : LockFreeRingBuffer T Size} (hq : Reachable q) :
    q.head < Size ∧ q.tail < Size := by
  induction hq with
  | fresh slots h => exact ⟨hSize, hSize⟩
  | push q item _ ih =>
    unfold LockFreeRingBuffer.push
    simp only
    split
    · exact ih
    · exact ⟨ih.1, Nat.mod_lt _ hSize⟩
  | pop q item _ ih =>
    unfold LockFreeRingBuffer.pop
    simp only
    split
    · exact ih
    · exact ⟨Nat.mod_lt _ hSize, ih.2⟩

end LockFreeRingBuffer

namespace LockFreeRingBuffer

variable {T : Type} {Size : Nat}

theorem Holds.fresh (hSize : 2 ≤ Size) (slots : List T) (h : slots.length = Size) :
    Holds (init Size slots) [] := by
  refine ⟨h, by simp [init]; omega, by simp [init]; omega, by simp; omega, ?_, ?_⟩
  · simp [init]
  · intro i hi
    simp at hi

theorem Holds.push_full {q : LockFreeRingBuffer T Size} {l : List T} (h : Holds q l) (item : T)
    (hfull : ¬ l.length < Size - 1) : q.push item = (false, q) := by
  obtain ⟨_, hh, ht, hl, htail, _⟩ := h
  have n₁ := next_eq Size q.tail ht
  have w := wrap_eq Size (q.head + l.length) (by omega)
  rw [htail] at w
  have : next Size q.tail = q.head := by
    rw [n₁]
    split_ifs at w ⊢ <;> omega
  simp [push, this]

theorem Holds.push_ok {q : LockFreeRingBuffer T Size} {l : List T} (h : Holds q l) (item : T)
    (hroom : l.length < Size - 1) :
    (q.push item).1 = true ∧ Holds (q.push item).2 (l ++ [item]) := by
  obtain ⟨hb, hh, ht, hl, htail, hslots⟩ := h
  have n₁ := next_eq Size q.tail ht
  have w := wrap_eq Size (q.head + l.length) (by omega)
  rw [htail] at w
  have hne : ¬ next Size q.tail = q.head := by
    rw [n₁]
    split_ifs at w ⊢ <;> omega
  have hp : q.push item = (true, { q with buffer := q.buffer.set q.tail item, tail := next Size q.tail }) := by
    simp [push, hne]
  rw [hp]
  refine ⟨rfl, by simpa using hb, hh, by simp only; rw [n₁]; split_ifs <;> omega,
    by simp; omega, ?_, ?_⟩
  · simp only [List.length_append, List.length_singleton]
    rw [n₁, wrap_eq Size (q.head + (l.length + 1)) (by omega)]
    split_ifs at w ⊢ <;> omega
  · intro i hi
    simp only [List.length_append, List.length_singleton] at hi
    have wi := wrap_eq Size (q.head + i) (by omega)
    by_cases hil : i < l.length
    · have hidx : q.tail ≠ (q.head + i) % Size := by
        rw [wi]
        split_ifs at w ⊢ <;> omega
      simp only
      rw [List.getElem?_set_ne hidx, hslots i hil, List.getElem?_append_left hil]
    · have hi' : i = l.length := by omega
      subst hi'
      simp only
      rw [htail, List.getElem?_set_self (by omega)]
      simp

theorem Holds.pop_empty {q : LockFreeRingBuffer T Size} (h : Holds q []) (item : T) :
    q.pop item = (false, item, q) := by
  obtain ⟨_, hh, _, _, htail, _⟩ := h
  have : q.head = q.tail := by
    rw [← htail]
    simp [Nat.mod_eq_of_lt hh]
  simp [pop, this]

theorem Holds.pop_ok {q : LockFreeRingBuffer T Size} {x : T} {l : List T} (h : Holds q (x :: l))
    (item : T) :
    (q.pop item).1 = true ∧ (q.pop item).2.1 = x ∧ Holds (q.pop item).2.2 l := by
  obtain ⟨hb, hh, ht, hl, htail, hslots⟩ := h
  simp only [List.length_cons] at hl htail
  have n₂ := next_eq Size q.head hh
  have w := wrap_eq Size (q.head + (l.length + 1)) (by omega)
  rw [htail] at w
  have hne : ¬ q.head = q.tail := by
    split_ifs at w <;> omega
  have hp : q.pop item = (true, q.buffer.getD q.head item, { q with head := next Size q.head }) := by
    simp [pop, hne]
  have h0 := hslots 0 (by simp)
  simp only [Nat.add_zero, Nat.mod_eq_of_lt hh, List.getElem?_cons_zero] at h0
  rw [hp]
  refine ⟨rfl, by simp [List.getD_eq_getElem?_getD, h0], hb,
    by simp only; rw [n₂]; split_ifs <;> omega, ht, by omega, ?_, ?_⟩
  · show (next Size q.head + l.length) % Size = q.tail
    rw [← htail]
    unfold next
    rw [Nat.mod_add_mod]
    congr 1
    omega
  · intro i hi
    have hs := hslots (i + 1) (by simp; omega)
    simp only [List.getElem?_cons_succ] at hs
    rw [← hs]
    show q.buffer[(next Size q.head + i) % Size]? = _
    unfold next
    rw [Nat.mod_add_mod]
    congr 2
    omega

theorem run_refines (calls : List (QueueCall T)) :
    ∀ (q : LockFreeRingBuffer T Size) (l : List T), Holds q l →
      (run calls q).1 = (ListFifo.run (Size - 1) calls l).1 := by
  induction calls with
  | nil => intro q l _; rfl
  | cons c rest ih =>
    intro q l h
    cases c with
    | push item =>
      by_cases hroom : l.length < Size - 1
      · obtain ⟨h₁, h₂⟩ := h.push_ok item hroom
        simp only [run, ListFifo.run, hroom, if_true, h₁]
        rw [ih _ _ h₂]
      · have h₁ := h.push_full item hroom
        simp only [run, ListFifo.run, hroom, if_false, h₁]
        rw [ih _ _ h]
    | pop item =>
      cases l with
      | nil =>
        have h₁ := h.pop_empty item
        simp only [run, ListFifo.run, h₁]
        rw [ih _ _ h]
        simp
      | cons x l =>
        obtain ⟨h₁, h₂, h₃⟩ := h.pop_ok item
        simp only [run, ListFifo.run, h₁, h₂, if_true]
        rw [ih _ _ h₃]

end LockFreeRingBuffer

theorem ListFifo.accepted_eq {T : Type} (cap : Nat) (calls : List (QueueCall T)) :
    ∀ l : List T, l ++ acceptedItems (ListFifo.run cap calls l).1
      = deliveredItems (ListFifo.run cap calls l).1 ++ (ListFifo.run cap calls l).2 := by
  induction calls with
  | nil => intro l; simp [ListFifo.run, acceptedItems, deliveredItems]
  | cons c rest ih =>
    intro l
    cases c with
    | push item =>
      by_cases hroom : l.length < cap
      · simp only [ListFifo.run, hroom, if_true, acceptedItems, deliveredItems]
        rw [← ih (l ++ [item])]
        simp
      · simp only [ListFifo.run, hroom, if_false, acceptedItems, deliveredItems]
        exact ih l
    | pop item =>
      cases l with
      | nil =>
        simp only [ListFifo.run, acceptedItems, deliveredItems]
        exact ih []
      | cons x l =>
        simp only [ListFifo.run, acceptedItems, deliveredItems]
        rw [List.cons_append, ih l, List.cons_append]

/-- C3 (sequential FIFO behaviour): starting from a fresh ring buffer with
`Size ≥ 2`, for every finite sequence of `push` and `pop` calls made one after
another, every call returns what the same call returns on a plain list-based
FIFO of capacity `Size − 1` (the ring buffer refines that FIFO), and the values
delivered by the successful pops are, in order, the first values accepted by
the successful pushes: nothing is lost, duplicated or reordered. -/
theorem C3_sequential_fifo {T : Type} {Size : Nat} (hSize : 2 ≤ Size) (slots : List T)
    (hslots : slots.length = Size) (calls : List (QueueCall T)) :
    (LockFreeRingBuffer.run calls (LockFreeRingBuffer.init Size slots)).1
      = (ListFifo.run (Size - 1) calls []).1 ∧
    deliveredItems (LockFreeRingBuffer.run calls (LockFreeRingBuffer.init Size slots)).1
      <+: acceptedItems (LockFreeRingBuffer.run calls (LockFreeRingBuffer.init Size slots)).1 := by
  have href := LockFreeRingBuffer.run_refines calls _ _
    (LockFreeRingBuffer.Holds.fresh hSize slots hslots)
  refine ⟨href, ?_⟩
  rw [href]
  have h := ListFifo.accepted_eq (Size - 1) calls []
  rw [List.nil_append] at h
  exact ⟨_, h.symm⟩

/-- C3 on a three-slot queue: the third push is refused, the pops deliver 1, 2,
4, 5 in that order. -/
theorem C3_sequential_fifo_witness :
    (LockFreeRingBuffer.run
      [.push 1, .push 2, .push 3, .pop 0, .pop 0, .push 4, .push 5, .pop 0, .pop 0, .pop 0]
      (LockFreeRingBuffer.init 3 [0, 0, 0])).1
      = (ListFifo.run (3 - 1)
      [.push 1, .push 2, .push 3, .pop 0, .pop 0, .push 4, .push 5, .pop 0, .pop 0, .pop 0] []).1 ∧
    deliveredItems (LockFreeRingBuffer.run
      [.push 1, .push 2, .push 3, .pop 0, .pop 0, .push 4, .push 5, .pop 0, .pop 0, .pop 0]
      (LockFreeRingBuffer.init 3 [0, 0, 0])).1 = [1, 2, 4, 5] :=
  ⟨(C3_sequential_fifo (by decide) [0, 0, 0] rfl
    [.push 1, .push 2, .push 3, .pop 0, .pop 0, .push 4, .push 5, .pop 0, .pop 0, .pop 0]).1,
   by decide⟩

/-- C4 (queue failure is atomic): for every queue state, `push` on a full queue
(`next(tail) == head`) returns false and leaves the queue, that is head, tail
and every slot, unchanged; `pop` on an empty queue (`head == tail`) returns
false and leaves the queue and the caller's output item unchanged. -/
theorem C4_queue_failure_atomic {T : Type} {Size : Nat} (q : LockFreeRingBuffer T Size) (item : T) :
    (LockFreeRingBuffer.next Size q.tail = q.head → q.push item = (false, q)) ∧
    (q.head = q.tail → q.pop item = (false, item, q)) := by
  constructor
  · intro h
    simp [LockFreeRingBuffer.push, h]
  · intro h
    simp [LockFreeRingBuffer.pop, h]

/-- C4 on a full and on an empty three-slot queue. -/
theorem C4_queue_failure_atomic_witness :
    (LockFreeRingBuffer.push (⟨[10, 20, 30], 1, 0⟩ : LockFreeRingBuffer Nat 3) 99
      = (false, ⟨[10, 20, 30], 1, 0⟩)) ∧
    (LockFreeRingBuffer.pop (⟨[10, 20, 30], 2, 2⟩ : LockFreeRingBuffer Nat 3) 99
      = (false, 99, ⟨[10, 20, 30], 2, 2⟩)) :=
  ⟨(C4_queue_failure_atomic (⟨[10, 20, 30], 1, 0⟩ : LockFreeRingBuffer Nat 3) 99).1 (by decide),
   (C4_queue_failure_atomic (⟨[10, 20, 30], 2, 2⟩ : LockFreeRingBuffer Nat 3) 99).2 (by decide)⟩

/-- C5 (queue occupancy): in every state reachable from the fresh queue, with
`Size ≥ 2`, `head < Size`, `tail < Size` and the occupancy `(tail − head) mod Size`
is at most `Size − 1`; a successful `push` raises the occupancy by exactly one, a
successful `pop` lowers it by exactly one; `push` fails exactly when the occupancy
is `Size − 1` and `pop` fails exactly when it is 0. -/
theorem C5_queue_occupancy {T : Type} {Size : Nat} (hSize : 2 ≤ Size)
    (q : LockFreeRingBuffer T Size) (hq : LockFreeRingBuffer.Reachable q) (item : T) :
    q.head < Size ∧ q.tail < Size ∧ q.occupancy ≤ Size - 1 ∧
    ((q.push item).1 = true → (q.push item).2.occupancy = q.occupancy + 1) ∧
    ((q.push item).1 = false ↔ q.occupancy = Size - 1) ∧
    ((q.pop item).1 = true → (q.pop item).2.2.occupancy + 1 = q.occupancy) ∧
    ((q.pop item).1 = false ↔ q.occupancy = 0) := by
  obtain ⟨hh, ht⟩ := LockFreeRingBuffer.Reachable.bounds (by omega) hq
  have e₀ := LockFreeRingBuffer.occupancy_eq q hh ht
  have n₁ := LockFreeRingBuffer.next_eq Size q.tail ht
  have n₂ := LockFreeRingBuffer.next_eq Size q.head hh
  refine ⟨hh, ht, by split_ifs at e₀ <;> omega, ?_, ?_, ?_, ?_⟩
  · by_cases hfull : LockFreeRingBuffer.next Size q.tail = q.head
    · simp [LockFreeRingBuffer.push, hfull]
    · intro _
      have hp : (q.push item).2 =
          { q with buffer := q.buffer.set q.tail item, tail := LockFreeRingBuffer.next Size q.tail } := by
        simp [LockFreeRingBuffer.push, hfull]
      rw [hp]
      have e₁ := LockFreeRingBuffer.occupancy_eq
        ({ q with buffer := q.buffer.set q.tail item, tail := LockFreeRingBuffer.next Size q.tail } :
          LockFreeRingBuffer T Size) hh (by simp only; rw [n₁]; split_ifs <;> omega)
      simp only at e₁
      rw [e₁, e₀]
      split_ifs at n₁ <;> split_ifs <;> omega
  · by_cases hfull : LockFreeRingBuffer.next Size q.tail = q.head
    · simp only [LockFreeRingBuffer.push, hfull, if_true, true_iff]
      rw [e₀]
      split_ifs at n₁ <;> split_ifs <;> omega
    · simp only [LockFreeRingBuffer.push, hfull, if_false, Bool.true_eq_false, false_iff]
      rw [e₀]
      split_ifs at n₁ <;> split_ifs <;> omega
  · by_cases hemp : q.head = q.tail
    · simp [LockFreeRingBuffer.pop, hemp]
    · intro _
      have hp : (q.pop item).2.2 = { q with head := LockFreeRingBuffer.next Size q.head } := by
        simp [LockFreeRingBuffer.pop, hemp]
      rw [hp]
      have e₂ := LockFreeRingBuffer.occupancy_eq
        ({ q with head := LockFreeRingBuffer.next Size q.head } : LockFreeRingBuffer T Size)
        (by simp only; rw [n₂]; split_ifs <;> omega) ht
      simp only at e₂
      rw [e₂, e₀]
      split_ifs at n₂ <;> split_ifs <;> omega
  · by_cases hemp : q.head = q.tail
    · simp only [LockFreeRingBuffer.pop, hemp, if_true, true_iff]
      rw [e₀]
      split_ifs <;> omega
    · simp only [LockFreeRingBuffer.pop, hemp, if_false, Bool.true_eq_false, false_iff]
      rw [e₀]
      split_ifs <;> omega

/-- C5 on the 1024-slot pipeline queue after one push: at most 1023 messages. -/
theorem C5_queue_occupancy_witness :
    LockFreeRingBuffer.occupancy
      ((LockFreeRingBuffer.init 1024 (List.replicate 1024 (0 : Nat))).push 5).2 ≤ 1023 :=
  (C5_queue_occupancy (by decide)
    ((LockFreeRingBuffer.init 1024 (List.replicate 1024 (0 : Nat))).push 5).2
    (LockFreeRingBuffer.Reachable.push _ 5
      (LockFreeRingBuffer.Reachable.fresh _ (List.length_replicate 1024 0))) 0).2.2.1

/-! ## Order book -/

namespace Assoc

variable {V : Type}

theorem find_insert_self (d : Bool) (k : Nat) (v : V) (m : Assoc V) :
    find k (insert d k v m) = some v := by
  induction m with
  | nil => simp [insert, find]
  | cons e t ih =>
    obtain ⟨k', v'⟩ := e
    unfold insert
    split_ifs with h₁ h₂
    · simp [find]
    · simp [find]
    · simp [find, h₁, ih]

theorem find_insert_ne (d : Bool) {k k' : Nat} (v : V) (m : Assoc V) (h : k' ≠ k) :
    find k' (insert d k v m) = find k' m := by
  induction m with
  | nil => simp [insert, find, Ne.symm h]
  | cons e t ih =>
    obtain ⟨k₀, v₀⟩ := e
    unfold insert
    split_ifs with h₁ h₂
    · subst h₁
      simp [find, Ne.symm h]
    · simp [find, Ne.symm h]
    · simp only [find, ih]

theorem find_erase_ne {k k' : Nat} (m : Assoc V) (h : k' ≠ k) :
    find k' (erase k m) = find k' m := by
  induction m with
  | nil => rfl
  | cons e t ih =>
    obtain ⟨k₀, v₀⟩ := e
    unfold erase
    split_ifs with h₁
    · subst h₁
      simp [find, Ne.symm h]
    · simp only [find, ih]

theorem mem_of_find {k : Nat} {v : V} {m : Assoc V} (h : find k m = some v) : (k, v) ∈ m := by
  induction m with
  | nil => simp [find] at h
  | cons e t ih =>
    obtain ⟨k₀, v₀⟩ := e
    unfold find at h
    split_ifs at h with h₁
    · subst h₁
      simp only [Option.some.injEq] at h
      subst h
      exact List.mem_cons_self _ _
    · exact List.mem_cons_of_mem _ (ih h)

theorem before_irrefl (d : Bool) (k : Nat) : before d k k = false := by
  cases d <;> simp [before]

theorem before_trans (d : Bool) {a b c : Nat} (h₁ : before d a b = true) (h₂ : before d b c = true) :
    before d a c = true := by
  cases d <;> simp [before] at * <;> omega

theorem before_total (d : Bool) {a b : Nat} (h₁ : ¬ b = a) (h₂ : ¬ before d a b = true) :
    before d b a = true := by
  cases d <;> simp [before] at * <;> omega

theorem find_none_of_before (d : Bool) {k : Nat} {m : Assoc V}
    (h : ∀ e ∈ m, before d k e.1 = true) : find k m = none := by
  induction m with
  | nil => rfl
  | cons e t ih =>
    obtain ⟨k₀, v₀⟩ := e
    have h₀ := h (k₀, v₀) (List.mem_cons_self _ _)
    have hne : ¬ k₀ = k := by
      intro heq
      subst heq
      simp [before_irrefl] at h₀
    simp only [find, hne, if_false]
    exact ih fun e he => h e (List.mem_cons_of_mem _ he)

theorem find_of_mem (d : Bool) {k : Nat} {v : V} {m : Assoc V} (ho : Ordered d m)
    (h : (k, v) ∈ m) : find k m = some v := by
  induction m with
  | nil => simp at h
  | cons e t ih =>
    obtain ⟨k₀, v₀⟩ := e
    unfold Ordered at ho
    rw [List.pairwise_cons] at ho
    rcases List.mem_cons.mp h with heq | hmem
    · simp only [Prod.mk.injEq] at heq
      obtain ⟨rfl, rfl⟩ := heq
      simp [find]
    · have hb := ho.1 (k, v) hmem
      have hne : ¬ k₀ = k := by
        intro heq
        subst heq
        simp [before_irrefl] at hb
      simp only [find, hne, if_false]
      exact ih ho.2 hmem

theorem find_erase_self (d : Bool) (k : Nat) {m : Assoc V} (ho : Ordered d m) :
    find k (erase k m) = none := by
  induction m with
  | nil => rfl
  | cons e t ih =>
    obtain ⟨k₀, v₀⟩ := e
    unfold Ordered at ho
    rw [List.pairwise_cons] at ho
    unfold erase
    split_ifs with h₁
    · subst h₁
      exact find_none_of_before d fun e he => ho.1 e he
    · simp only [find, h₁, if_false]
      exact ih ho.2

theorem mem_insert {d : Bool} {k : Nat} {v : V} {m : Assoc V} {e : Nat × V}
    (h : e ∈ insert d k v m) : e = (k, v) ∨ e ∈ m := by
  induction m with
  | nil => simpa [insert] using h
  | cons e₀ t ih =>
    obtain ⟨k₀, v₀⟩ := e₀
    unfold insert at h
    split_ifs at h with h₁ h₂
    · rcases List.mem_cons.mp h with h | h
      · exact Or.inl h
      · exact Or.inr (List.mem_cons_of_mem _ h)
    · rcases List.mem_cons.mp h with h | h
      · exact Or.inl h
      · exact Or.inr h
    · rcases List.mem_cons.mp h with h | h
      · exact Or.inr (h ▸ List.mem_cons_self _ _)
      · rcases ih h with h | h
        · exact Or.inl h
        · exact Or.inr (List.mem_cons_of_mem _ h)

theorem mem_erase {k : Nat} {m : Assoc V} {e : Nat × V} (h : e ∈ erase k m) : e ∈ m := by
  induction m with
  | nil => simp [erase] at h
  | cons e₀ t ih =>
    obtain ⟨k₀, v₀⟩ := e₀
    unfold erase at h
    split_ifs at h with h₁
    · exact List.mem_cons_of_mem _ h
    · rcases List.mem_cons.mp h with h | h
      · exact h ▸ List.mem_cons_self _ _
      · exact List.mem_cons_of_mem _ (ih h)

theorem ordered_insert (d : Bool) (k : Nat) (v : V) {m : Assoc V} (ho : Ordered d m) :
    Ordered d (insert d k v m) := by
  induction m with
  | nil => simp [insert, Ordered]
  | cons e t ih =>
    obtain ⟨k₀, v₀⟩ := e
    unfold Ordered at ho ⊢
    rw [List.pairwise_cons] at ho
    unfold insert
    split_ifs with h₁ h₂
    · subst h₁
      exact List.pairwise_cons.mpr ho
    · refine List.pairwise_cons.mpr ⟨?_, List.pairwise_cons.mpr ho⟩
      intro e he
      rcases List.mem_cons.mp he with he | he
      · subst he
        exact h₂
      · exact before_trans d h₂ (ho.1 e he)
    · refine List.pairwise_cons.mpr ⟨?_, ih ho.2⟩
      intro e he
      rcases mem_insert he with he | he
      · subst he
        exact before_total d h₁ h₂
      · exact ho.1 e he

theorem ordered_erase (d : Bool) (k : Nat) {m : Assoc V} (ho : Ordered d m) :
    Ordered d (erase k m) := by
  induction m with
  | nil => simp [erase, Ordered]
  | cons e t ih =>
    obtain ⟨k₀, v₀⟩ := e
    unfold Ordered at ho ⊢
    rw [List.pairwise_cons] at ho
    unfold erase
    split_ifs with h₁
    · exact ho.2
    · exact List.pairwise_cons.mpr ⟨fun e he => ho.1 e (mem_erase he), ih ho.2⟩

theorem key_ne_of_mem_erase (d : Bool) {k : Nat} {m : Assoc V} {e : Nat × V} (ho : Ordered d m)
    (h : e ∈ erase k m) : e.1 ≠ k := by
  intro heq
  have h₁ := find_of_mem d (ordered_erase d k ho) (show (e.1, e.2) ∈ erase k m from h)
  rw [heq, find_erase_self d k ho] at h₁
  simp at h₁

theorem erase_of_find_none {k : Nat} {m : Assoc V} (h : find k m = none) : erase k m = m := by
  induction m with
  | nil => rfl
  | cons e t ih =>
    obtain ⟨k₀, v₀⟩ := e
    unfold find at h
    split_ifs at h with h₁
    simp only [erase, h₁, if_false, ih h]

theorem keys_insert_of_find (d : Bool) {k : Nat} (v : V) {v₀ : V} {m : Assoc V} (ho : Ordered d m)
    (h : find k m = some v₀) : (insert d k v m).map Prod.fst = m.map Prod.fst := by
  induction m with
  | nil => simp [find] at h
  | cons e t ih =>
    obtain ⟨k₀, v₁⟩ := e
    unfold Ordered at ho
    rw [List.pairwise_cons] at ho
    unfold insert
    split_ifs with h₁ h₂
    · simp [h₁]
    · exfalso
      simp only [find, h₁, if_false] at h
      have := ho.1 (k, v₀) (mem_of_find h)
      have h₃ := before_trans d h₂ this
      simp [before_irrefl] at h₃
    · simp only [find, h₁, if_false] at h
      simp only [List.map_cons, ih ho.2 h]

end Assoc

namespace OrderBook

theorem levelAt_insert (d : Bool) (m : Assoc Level) (p p' : Nat) (lvl : Level) :
    levelAt (Assoc.insert d p lvl m) p' = if p' = p then lvl else levelAt m p' := by
  unfold levelAt
  split_ifs with h
  · subst h
    rw [Assoc.find_insert_self]
    rfl
  · rw [Assoc.find_insert_ne d lvl m h]

theorem levelAt_erase (d : Bool) {m : Assoc Level} (ho : Assoc.Ordered d m) (p p' : Nat) :
    levelAt (Assoc.erase p m) p' = if p' = p then [] else levelAt m p' := by
  unfold levelAt
  split_ifs with h
  · subst h
    rw [Assoc.find_erase_self d p' ho]
    rfl
  · rw [Assoc.find_erase_ne m h]

theorem levelAt_ordered {m : Assoc Level} (h : ∀ e ∈ m, Assoc.Ordered false e.2) (p : Nat) :
    Assoc.Ordered false (levelAt m p) := by
  unfold levelAt
  cases hf : Assoc.find p m with
  | none => simp [Assoc.Ordered]
  | some lvl => exact h (p, lvl) (Assoc.mem_of_find hf)

theorem find_putNode (d : Bool) (m : Assoc Level) (p id : Nat) (o : Order) (p' id' : Nat) :
    Assoc.find id' (levelAt (putNode d m p id o) p')
      = if p' = p ∧ id' = id then some o else Assoc.find id' (levelAt m p') := by
  unfold putNode
  rw [levelAt_insert]
  by_cases hp : p' = p
  · subst hp
    by_cases hid : id' = id
    · subst hid
      simp [Assoc.find_insert_self]
    · simp [hid, Assoc.find_insert_ne false o _ hid]
  · simp [hp]

theorem sideOK_putNode {d : Bool} {m : Assoc Level} (h : SideOK d m) (p id : Nat) (o : Order) :
    SideOK d (putNode d m p id o) := by
  refine ⟨Assoc.ordered_insert d p _ h.1, ?_⟩
  intro e he
  rcases Assoc.mem_insert he with he | he
  · subst he
    refine ⟨Assoc.ordered_insert false id o (levelAt_ordered (fun e he => (h.2 e he).1) p), ?_⟩
    intro hnil
    have := Assoc.find_insert_self false id o (levelAt m p)
    simp only at hnil
    rw [hnil] at this
    simp [Assoc.find] at this
  · exact h.2 e he

theorem find_dropNode {d : Bool} {m : Assoc Level} (h : SideOK d m) (p id p' id' : Nat) :
    Assoc.find id' (levelAt (dropNode d m p id) p')
      = if p' = p ∧ id' = id then none else Assoc.find id' (levelAt m p') := by
  have hlo := levelAt_ordered (fun e he => (h.2 e he).1) p
  have key : levelAt (dropNode d m p id) p'
      = if p' = p then Assoc.erase id (levelAt m p) else levelAt m p' := by
    unfold dropNode
    split_ifs with he hp hp
    · subst hp
      rw [levelAt_erase d (Assoc.ordered_insert d _ _ h.1)]
      rw [levelAt_insert] at he
      simp only [if_true] at he ⊢
      exact (List.isEmpty_iff.mp he).symm
    · rw [levelAt_erase d (Assoc.ordered_insert d _ _ h.1), if_neg hp, levelAt_insert, if_neg hp]
    · subst hp
      rw [levelAt_insert, if_pos rfl]
    · rw [levelAt_insert, if_neg hp]
  rw [key]
  by_cases hp : p' = p
  · subst hp
    by_cases hid : id' = id
    · subst hid
      simp [Assoc.find_erase_self false id' hlo]
    · simp [hid, Assoc.find_erase_ne _ hid]
  · simp [hp]

theorem sideOK_dropNode {d : Bool} {m : Assoc Level} (h : SideOK d m) (p id : Nat) :
    SideOK d (dropNode d m p id) := by
  have hlo := levelAt_ordered (fun e he => (h.2 e he).1) p
  have h₁ : Assoc.Ordered d (Assoc.insert d p (Assoc.erase id (levelAt m p)) m) :=
    Assoc.ordered_insert d _ _ h.1
  unfold dropNode
  split_ifs with he
  · refine ⟨Assoc.ordered_erase d p h₁, ?_⟩
    intro e hmem
    have hk := Assoc.key_ne_of_mem_erase d h₁ hmem
    rcases Assoc.mem_insert (Assoc.mem_erase hmem) with heq | hin
    · subst heq
      exact absurd rfl hk
    · exact h.2 e hin
  · refine ⟨h₁, ?_⟩
    intro e hmem
    rcases Assoc.mem_insert hmem with heq | hin
    · subst heq
      refine ⟨Assoc.ordered_erase false id hlo, ?_⟩
      rw [levelAt_insert, if_pos rfl] at he
      intro hnil
      simp only at hnil
      rw [hnil] at he
      simp at he
    · exact h.2 e hin

end OrderBook

namespace OrderBook

theorem deref_eq (b : OrderBook) (ptr : OrderPtr) :
    b.deref ptr = Assoc.find ptr.order_id (levelAt (b.side ptr.is_buy) ptr.price) := rfl

theorem side_addOrder (b : OrderBook) (id p q : Nat) (s s' : Bool) :
    (b.addOrder id p q s).side s'
      = if s' = s then putNode s (b.side s) p id ⟨id, q, p, s⟩ else b.side s' := by
  cases s <;> cases s' <;> rfl

theorem order_map_addOrder (b : OrderBook) (id p q : Nat) (s : Bool) :
    (b.addOrder id p q s).order_map = Assoc.insert false id ⟨s, p, id⟩ b.order_map := by
  cases s <;> rfl

theorem side_store (b : OrderBook) (ptr : OrderPtr) (o : Order) (s' : Bool) :
    (b.store ptr o).side s'
      = if s' = ptr.is_buy then putNode ptr.is_buy (b.side ptr.is_buy) ptr.price ptr.order_id o
        else b.side s' := by
  obtain ⟨s, p, id⟩ := ptr
  cases s <;> cases s' <;> rfl

theorem order_map_store (b : OrderBook) (ptr : OrderPtr) (o : Order) :
    (b.store ptr o).order_map = b.order_map := by
  obtain ⟨s, p, id⟩ := ptr
  cases s <;> rfl

theorem removeOrder_of_find_none {b : OrderBook} {id : Nat}
    (h : Assoc.find id b.order_map = none) : b.removeOrder id = b := by
  simp [removeOrder, h]

theorem modifyOrder_of_find_none {b : OrderBook} {id : Nat} (q : Nat)
    (h : Assoc.find id b.order_map = none) : b.modifyOrder id q = b := by
  simp [modifyOrder, h]

theorem side_removeOrder {b : OrderBook} {id : Nat} {ptr : OrderPtr} {o : Order}
    (h₁ : Assoc.find id b.order_map = some ptr) (h₂ : b.deref ptr = some o) (s' : Bool) :
    (b.removeOrder id).side s'
      = if s' = o.is_buy then dropNode o.is_buy (b.side o.is_buy) o.price id else b.side s' := by
  simp only [removeOrder, h₁, h₂]
  cases hs : o.is_buy <;> cases s' <;> simp [side, dropNode]

theorem order_map_removeOrder {b : OrderBook} {id : Nat} {ptr : OrderPtr} {o : Order}
    (h₁ : Assoc.find id b.order_map = some ptr) (h₂ : b.deref ptr = some o) :
    (b.removeOrder id).order_map = Assoc.erase id b.order_map := by
  simp only [removeOrder, h₁, h₂]
  cases hs : o.is_buy <;> simp

theorem modifyOrder_eq {b : OrderBook} {id : Nat} {ptr : OrderPtr} {o : Order} (q : Nat)
    (h₁ : Assoc.find id b.order_map = some ptr) (h₂ : b.deref ptr = some o) :
    b.modifyOrder id q = b.store ptr { o with quantity := q } := by
  simp only [modifyOrder, h₁, h₂]

theorem deref_addOrder (b : OrderBook) (id p q : Nat) (s : Bool) (ptr : OrderPtr) :
    (b.addOrder id p q s).deref ptr
      = if ptr = ⟨s, p, id⟩ then some ⟨id, q, p, s⟩ else b.deref ptr := by
  obtain ⟨s', p', id'⟩ := ptr
  rw [deref_eq, deref_eq, side_addOrder]
  by_cases hs : s' = s
  · subst hs
    simp only [if_true, find_putNode, OrderPtr.mk.injEq, true_and]
  · simp [hs]

theorem deref_store (b : OrderBook) (ptr₀ : OrderPtr) (o : Order) (ptr : OrderPtr) :
    (b.store ptr₀ o).deref ptr = if ptr = ptr₀ then some o else b.deref ptr := by
  obtain ⟨s', p', id'⟩ := ptr
  obtain ⟨s, p, id⟩ := ptr₀
  rw [deref_eq, deref_eq, side_store]
  by_cases hs : s' = s
  · subst hs
    simp only [if_true, find_putNode, OrderPtr.mk.injEq, true_and]
  · simp [hs]

theorem deref_removeOrder {b : OrderBook} (hb : b.Inv) {id : Nat} {ptr₀ : OrderPtr} {o : Order}
    (h₁ : Assoc.find id b.order_map = some ptr₀) (h₂ : b.deref ptr₀ = some o) (ptr : OrderPtr) :
    (b.removeOrder id).deref ptr = if ptr = ptr₀ then none else b.deref ptr := by
  obtain ⟨_, hside, hnode, hidx⟩ := hb
  obtain ⟨e₁, e₂, e₃⟩ := hnode ptr₀ o h₂
  have e₄ := (hidx id ptr₀ h₁).1
  obtain ⟨s', p', id'⟩ := ptr
  obtain ⟨s, p, id₀⟩ := ptr₀
  simp only at e₁ e₂ e₃ e₄
  subst e₄
  rw [deref_eq, deref_eq, side_removeOrder h₁ h₂, e₃, e₂]
  by_cases hs : s' = s
  · subst hs
    simp only [if_true, find_dropNode (hside s'), OrderPtr.mk.injEq, true_and]
  · simp [hs]

end OrderBook

namespace OrderBook

theorem inv_empty : empty.Inv := by
  refine ⟨by simp [empty, Assoc.Ordered], ?_, ?_, ?_⟩
  · intro s
    cases s <;> simp [side, empty, SideOK, Assoc.Ordered]
  · intro ptr o h
    obtain ⟨s, p, id⟩ := ptr
    cases s <;> simp [deref, empty, levelAt, Assoc.find] at h
  · intro id ptr h
    simp [empty, Assoc.find] at h

theorem inv_addOrder {b : OrderBook} (hb : b.Inv) (id p q : Nat) (s : Bool) :
    (b.addOrder id p q s).Inv := by
  obtain ⟨hom, hside, hnode, hidx⟩ := hb
  refine ⟨?_, ?_, ?_, ?_⟩
  · rw [order_map_addOrder]
    exact Assoc.ordered_insert false _ _ hom
  · intro s'
    rw [side_addOrder]
    split_ifs with hs
    · subst hs
      exact sideOK_putNode (hside s') _ _ _
    · exact hside s'
  · intro ptr o h
    rw [deref_addOrder] at h
    split_ifs at h with hp
    · subst hp
      simp only [Option.some.injEq] at h
      subst h
      exact ⟨rfl, rfl, rfl⟩
    · exact hnode ptr o h
  · intro id' ptr h
    rw [order_map_addOrder] at h
    rw [deref_addOrder]
    by_cases hid : id' = id
    · subst hid
      rw [Assoc.find_insert_self] at h
      simp only [Option.some.injEq] at h
      subst h
      simp
    · rw [Assoc.find_insert_ne false _ _ hid] at h
      obtain ⟨e, hsome⟩ := hidx id' ptr h
      refine ⟨e, ?_⟩
      split_ifs
      · rfl
      · exact hsome

theorem inv_store {b : OrderBook} (hb : b.Inv) {ptr₀ : OrderPtr} {o₀ : Order}
    (h₀ : b.deref ptr₀ = some o₀) (q : Nat) : (b.store ptr₀ { o₀ with quantity := q }).Inv := by
  obtain ⟨hom, hside, hnode, hidx⟩ := hb
  refine ⟨?_, ?_, ?_, ?_⟩
  · rw [order_map_store]
    exact hom
  · intro s'
    rw [side_store]
    split_ifs with hs
    · subst hs
      exact sideOK_putNode (hside _) _ _ _
    · exact hside s'
  · intro ptr o h
    rw [deref_store] at h
    split_ifs at h with hp
    · subst hp
      simp only [Option.some.injEq] at h
      subst h
      exact hnode ptr o₀ h₀
    · exact hnode ptr o h
  · intro id' ptr h
    rw [order_map_store] at h
    obtain ⟨e, hsome⟩ := hidx id' ptr h
    refine ⟨e, ?_⟩
    rw [deref_store]
    split_ifs
    · rfl
    · exact hsome

theorem inv_modifyOrder {b : OrderBook} (hb : b.Inv) (id q : Nat) : (b.modifyOrder id q).Inv := by
  cases h₁ : Assoc.find id b.order_map with
  | none => rw [modifyOrder_of_find_none q h₁]; exact hb
  | some ptr =>
    obtain ⟨_, hsome⟩ := hb.2.2.2 id ptr h₁
    obtain ⟨o, h₂⟩ := Option.isSome_iff_exists.mp hsome
    rw [modifyOrder_eq q h₁ h₂]
    exact inv_store hb h₂ q

theorem inv_removeOrder {b : OrderBook} (hb : b.Inv) (id : Nat) : (b.removeOrder id).Inv := by
  cases h₁ : Assoc.find id b.order_map with
  | none => rw [removeOrder_of_find_none h₁]; exact hb
  | some ptr₀ =>
    obtain ⟨e₀, hsome⟩ := hb.2.2.2 id ptr₀ h₁
    obtain ⟨o₀, h₂⟩ := Option.isSome_iff_exists.mp hsome
    have hd := deref_removeOrder hb h₁ h₂
    obtain ⟨hom, hside, hnode, hidx⟩ := hb
    refine ⟨?_, ?_, ?_, ?_⟩
    · rw [order_map_removeOrder h₁ h₂]
      exact Assoc.ordered_erase false _ hom
    · intro s'
      rw [side_removeOrder h₁ h₂]
      split_ifs with hs
      · subst hs
        exact sideOK_dropNode (hside _) _ _
      · exact hside s'
    · intro ptr o h
      rw [hd] at h
      split_ifs at h
      exact hnode ptr o h
    · intro id' ptr h
      rw [order_map_removeOrder h₁ h₂] at h
      by_cases hid : id' = id
      · subst hid
        rw [Assoc.find_erase_self false id' hom] at h
        simp at h
      · rw [Assoc.find_erase_ne _ hid] at h
        obtain ⟨e, hsome'⟩ := hidx id' ptr h
        refine ⟨e, ?_⟩
        rw [hd]
        have hne : ptr ≠ ptr₀ := by
          intro heq
          subst heq
          exact hid (e.symm.trans e₀)
        rw [if_neg hne]
        exact hsome'

theorem inv_step {b : OrderBook} (hb : b.Inv) (c : BookCall) : (b.step c).Inv := by
  cases c with
  | addOrder id p q s => exact inv_addOrder hb id p q s
  | removeOrder id => exact inv_removeOrder hb id
  | modifyOrder id q => exact inv_modifyOrder hb id q

theorem inv_run {b : OrderBook} (hb : b.Inv) (calls : List BookCall) : (b.run calls).Inv := by
  induction calls generalizing b with
  | nil => exact hb
  | cons c rest ih => exact ih (inv_step hb c)

theorem mem_sideOrders {m : Assoc Level} {o : Order} :
    o ∈ sideOrders m ↔ ∃ p lvl id, (p, lvl) ∈ m ∧ (id, o) ∈ lvl := by
  unfold sideOrders
  simp only [List.mem_flatMap, List.mem_map, Prod.exists]
  constructor
  · rintro ⟨p, lvl, hm, id, o', hl, rfl⟩
    exact ⟨p, lvl, id, hm, hl⟩
  · rintro ⟨p, lvl, id, hm, hl⟩
    exact ⟨p, lvl, hm, id, o, hl, rfl⟩

theorem mem_sideOrders_iff {d : Bool} {m : Assoc Level} (h : SideOK d m) {o : Order} :
    o ∈ sideOrders m ↔ ∃ p id, Assoc.find id (levelAt m p) = some o := by
  rw [mem_sideOrders]
  constructor
  · rintro ⟨p, lvl, id, hm, hl⟩
    refine ⟨p, id, ?_⟩
    unfold levelAt
    rw [Assoc.find_of_mem d h.1 hm]
    exact Assoc.find_of_mem false (h.2 _ hm).1 hl
  · rintro ⟨p, id, hf⟩
    unfold levelAt at hf
    cases hl : Assoc.find p m with
    | none => simp [hl, Assoc.find] at hf
    | some lvl =>
      rw [hl] at hf
      exact ⟨p, lvl, id, Assoc.mem_of_find hl, Assoc.mem_of_find hf⟩

theorem mem_restingOrders_iff {b : OrderBook} (hb : b.Inv) {o : Order} :
    o ∈ b.restingOrders ↔ ∃ ptr, b.deref ptr = some o := by
  have hbids : o ∈ sideOrders b.bids ↔ _ := mem_sideOrders_iff (hb.2.1 true)
  have hasks : o ∈ sideOrders b.asks ↔ _ := mem_sideOrders_iff (hb.2.1 false)
  unfold restingOrders
  rw [List.mem_append, hbids, hasks]
  constructor
  · rintro (⟨p, id, h⟩ | ⟨p, id, h⟩)
    · exact ⟨⟨true, p, id⟩, h⟩
    · exact ⟨⟨false, p, id⟩, h⟩
  · rintro ⟨⟨s, p, id⟩, h⟩
    cases s
    · exact Or.inr ⟨p, id, h⟩
    · exact Or.inl ⟨p, id, h⟩

end OrderBook

namespace OrderBook

theorem side_eq_nil_of_no_orders {d : Bool} {m : Assoc Level} (h : SideOK d m)
    (hno : sideOrders m = []) : m = [] := by
  cases m with
  | nil => rfl
  | cons e t =>
    exfalso
    obtain ⟨p, lvl⟩ := e
    have hne := (h.2 (p, lvl) (List.mem_cons_self _ _)).2
    cases lvl with
    | nil => exact hne rfl
    | cons x l =>
      have : x.2 ∈ sideOrders ((p, x :: l) :: t) :=
        mem_sideOrders.mpr ⟨p, x :: l, x.1, List.mem_cons_self _ _, List.mem_cons_self _ _⟩
      rw [hno] at this
      simp at this

theorem key_le_getBestBid {b : OrderBook} (h : Assoc.Ordered true b.bids) :
    ∀ e ∈ b.bids, e.1 ≤ b.getBestBid := by
  intro e he
  unfold getBestBid
  cases hb : b.bids with
  | nil => rw [hb] at he; simp at he
  | cons e₀ t =>
    rw [hb] at he h
    unfold Assoc.Ordered at h
    rw [List.pairwise_cons] at h
    rcases List.mem_cons.mp he with he | he
    · subst he
      exact Nat.le_refl _
    · have := h.1 e he
      simp only [Assoc.before, if_true, decide_eq_true_eq] at this
      exact Nat.le_of_lt this

theorem getBestAsk_le_key {b : OrderBook} (h : Assoc.Ordered false b.asks) :
    ∀ e ∈ b.asks, b.getBestAsk ≤ e.1 := by
  intro e he
  unfold getBestAsk
  cases hb : b.asks with
  | nil => rw [hb] at he; simp at he
  | cons e₀ t =>
    rw [hb] at he h
    unfold Assoc.Ordered at h
    rw [List.pairwise_cons] at h
    rcases List.mem_cons.mp he with he | he
    · subst he
      exact Nat.le_refl _
    · have := h.1 e he
      simp only [Assoc.before, Bool.false_eq_true, if_false, decide_eq_true_eq] at this
      exact Nat.le_of_lt this

theorem level_mem_of_deref {b : OrderBook} {ptr : OrderPtr} {o : Order} (h : b.deref ptr = some o) :
    ∃ lvl, (ptr.price, lvl) ∈ b.side ptr.is_buy := by
  rw [deref_eq] at h
  unfold levelAt at h
  cases hl : Assoc.find ptr.price (b.side ptr.is_buy) with
  | none => simp [hl, Assoc.find] at h
  | some lvl => exact ⟨lvl, Assoc.mem_of_find hl⟩

theorem first_order_of_side {b : OrderBook} (hb : b.Inv) (s : Bool) {p : Nat} {lvl : Level}
    {t : Assoc Level} (hs : b.side s = (p, lvl) :: t) :
    ∃ o ∈ b.restingOrders, o.is_buy = s ∧ o.price = p := by
  have hok := hb.2.1 s
  rw [hs] at hok
  have hl := hok.2 (p, lvl) (List.mem_cons_self _ _)
  cases hlvl : lvl with
  | nil => exact absurd hlvl hl.2
  | cons x l =>
    obtain ⟨id, o⟩ := x
    have hd : b.deref ⟨s, p, id⟩ = some o := by
      rw [deref_eq]
      simp only [levelAt, hs, Assoc.find, if_true, Option.getD_some, hlvl]
    obtain ⟨_, e₂, e₃⟩ := hb.2.2.1 _ _ hd
    exact ⟨o, (mem_restingOrders_iff hb).mpr ⟨_, hd⟩, e₃, e₂⟩

theorem inv_reachable (calls : List BookCall) : (run empty calls).Inv :=
  inv_run inv_empty calls

end OrderBook

/-- C6 (empty-book sentinels): the freshly constructed book, and every book
reached from it by `addOrder`, `removeOrder` and `modifyOrder` calls that holds
no resting order, reports `getBestBid() == 0` and `getBestAsk() == 0xFFFFFFFF`. -/
theorem C6_empty_book_sentinels :
    (OrderBook.empty.getBestBid = 0 ∧ OrderBook.empty.getBestAsk = 0xFFFFFFFF) ∧
    ∀ calls : List BookCall, (OrderBook.run OrderBook.empty calls).restingOrders = [] →
      (OrderBook.run OrderBook.empty calls).getBestBid = 0 ∧
      (OrderBook.run OrderBook.empty calls).getBestAsk = 0xFFFFFFFF := by
  refine ⟨⟨rfl, rfl⟩, ?_⟩
  intro calls hno
  have hb := OrderBook.inv_reachable calls
  unfold OrderBook.restingOrders at hno
  obtain ⟨h₁, h₂⟩ := List.append_eq_nil.mp hno
  have e₁ : (OrderBook.run OrderBook.empty calls).bids = [] :=
    OrderBook.side_eq_nil_of_no_orders (hb.2.1 true) h₁
  have e₂ : (OrderBook.run OrderBook.empty calls).asks = [] :=
    OrderBook.side_eq_nil_of_no_orders (hb.2.1 false) h₂
  simp [OrderBook.getBestBid, OrderBook.getBestAsk, e₁, e₂]

/-- C6 after two orders were added and both removed again. -/
theorem C6_empty_book_sentinels_witness :
    (OrderBook.run OrderBook.empty
      [.addOrder 1 100 10 true, .addOrder 2 105 5 false, .removeOrder 2, .removeOrder 1]).getBestBid = 0 ∧
    (OrderBook.run OrderBook.empty
      [.addOrder 1 100 10 true, .addOrder 2 105 5 false, .removeOrder 2, .removeOrder 1]).getBestAsk
      = 0xFFFFFFFF :=
  C6_empty_book_sentinels.2
    [.addOrder 1 100 10 true, .addOrder 2 105 5 false, .removeOrder 2, .removeOrder 1] (by decide)

/-- C7 (best-price correctness): in every book reached from the empty book by
`addOrder`, `removeOrder` and `modifyOrder` calls, `getBestBid()` is the maximum
price over the resting buy orders when there is one (no resting buy order has a
higher price, and a resting buy order has exactly that price), and
`getBestAsk()` is the minimum price over the resting sell orders when there is
one. -/
theorem C7_best_price_correct (calls : List BookCall) :
    ((∀ o ∈ (OrderBook.run OrderBook.empty calls).restingOrders, o.is_buy = true →
        o.price ≤ (OrderBook.run OrderBook.empty calls).getBestBid) ∧
      ((∃ o ∈ (OrderBook.run OrderBook.empty calls).restingOrders, o.is_buy = true) →
        ∃ o ∈ (OrderBook.run OrderBook.empty calls).restingOrders,
          o.is_buy = true ∧ o.price = (OrderBook.run OrderBook.empty calls).getBestBid)) ∧
    ((∀ o ∈ (OrderBook.run OrderBook.empty calls).restingOrders, o.is_buy = false →
        (OrderBook.run OrderBook.empty calls).getBestAsk ≤ o.price) ∧
      ((∃ o ∈ (OrderBook.run OrderBook.empty calls).restingOrders, o.is_buy = false) →
        ∃ o ∈ (OrderBook.run OrderBook.empty calls).restingOrders,
          o.is_buy = false ∧ o.price = (OrderBook.run OrderBook.empty calls).getBestAsk)) := by
  have hb := OrderBook.inv_reachable calls
  generalize OrderBook.run OrderBook.empty calls = b at hb ⊢
  have located : ∀ o ∈ b.restingOrders, ∃ lvl, (o.price, lvl) ∈ b.side o.is_buy := by
    intro o ho
    obtain ⟨ptr, hd⟩ := (OrderBook.mem_restingOrders_iff hb).mp ho
    obtain ⟨_, e₂, e₃⟩ := hb.2.2.1 ptr o hd
    rw [e₂, e₃]
    exact OrderBook.level_mem_of_deref hd
  refine ⟨⟨?_, ?_⟩, ⟨?_, ?_⟩⟩
  · intro o ho hbuy
    obtain ⟨lvl, hl⟩ := located o ho
    rw [hbuy] at hl
    exact OrderBook.key_le_getBestBid (hb.2.1 true).1 (o.price, lvl) hl
  · rintro ⟨o, ho, hbuy⟩
    obtain ⟨lvl, hl⟩ := located o ho
    rw [hbuy] at hl
    cases hbids : b.bids with
    | nil =>
      have : (o.price, lvl) ∈ b.bids := hl
      rw [hbids] at this
      simp at this
    | cons e t =>
      obtain ⟨p, l⟩ := e
      obtain ⟨o', ho', e₁, e₂⟩ := OrderBook.first_order_of_side hb true (show b.side true = _ from hbids)
      exact ⟨o', ho', e₁, by simp [OrderBook.getBestBid, hbids, e₂]⟩
  · intro o ho hsell
    obtain ⟨lvl, hl⟩ := located o ho
    rw [hsell] at hl
    exact OrderBook.getBestAsk_le_key (hb.2.1 false).1 (o.price, lvl) hl
  · rintro ⟨o, ho, hsell⟩
    obtain ⟨lvl, hl⟩ := located o ho
    rw [hsell] at hl
    cases hasks : b.asks with
    | nil =>
      have : (o.price, lvl) ∈ b.asks := hl
      rw [hasks] at this
      simp at this
    | cons e t =>
      obtain ⟨p, l⟩ := e
      obtain ⟨o', ho', e₁, e₂⟩ := OrderBook.first_order_of_side hb false (show b.side false = _ from hasks)
      exact ⟨o', ho', e₁, by simp [OrderBook.getBestAsk, hasks, e₂]⟩

/-- C8 (effect of `addOrder` on the best prices): for every book, id, quantity
and price `p` of type `uint32_t`, after `addOrder(id, p, q, buy)` the best bid
is `max(p, old best bid)` and the best ask is unchanged; after
`addOrder(id, p, q, sell)` the best ask is `min(p, old best ask)` and the best
bid is unchanged. -/
theorem C8_addOrder_best_prices (b : OrderBook) (id p q : Nat) (hp : p < 2 ^ 32) :
    (b.addOrder id p q true).getBestBid = max p b.getBestBid ∧
    (b.addOrder id p q true).getBestAsk = b.getBestAsk ∧
    (b.addOrder id p q false).getBestAsk = min p b.getBestAsk ∧
    (b.addOrder id p q false).getBestBid = b.getBestBid := by
  refine ⟨?_, rfl, ?_, rfl⟩
  · simp only [OrderBook.addOrder, if_true, OrderBook.getBestBid]
    cases hb : b.bids with
    | nil => simp [Assoc.insert]
    | cons e t =>
      obtain ⟨k, lvl⟩ := e
      unfold Assoc.insert
      split_ifs with h₁ h₂
      · simp [h₁]
      · simp only [Assoc.before, if_true, decide_eq_true_eq] at h₂
        simp only
        omega
      · simp only [Assoc.before, if_true, decide_eq_true_eq] at h₂
        simp only
        omega
  · simp only [OrderBook.addOrder, Bool.false_eq_true, if_false, OrderBook.getBestAsk]
    cases hb : b.asks with
    | nil =>
      simp only [Assoc.insert]
      omega
    | cons e t =>
      obtain ⟨k, lvl⟩ := e
      unfold Assoc.insert
      split_ifs with h₁ h₂
      · simp [h₁]
      · simp only [Assoc.before, Bool.false_eq_true, if_false, decide_eq_true_eq] at h₂
        simp only
        omega
      · simp only [Assoc.before, Bool.false_eq_true, if_false, decide_eq_true_eq] at h₂
        simp only
        omega

/-- C8 on the empty book: `addOrder(1, 100, 10, buy)` gives `getBestBid() == 100`. -/
theorem C8_addOrder_best_prices_witness :
    (OrderBook.empty.addOrder 1 100 10 true).getBestBid = 100 :=
  (C8_addOrder_best_prices OrderBook.empty 1 100 10 (by decide)).1

namespace OrderBook

theorem deref_of_mem {b : OrderBook} (hb : b.Inv) {s : Bool} {p id : Nat} {lvl : Level} {o : Order}
    (h₁ : (p, lvl) ∈ b.side s) (h₂ : (id, o) ∈ lvl) : b.deref ⟨s, p, id⟩ = some o := by
  have hok := hb.2.1 s
  rw [deref_eq]
  unfold levelAt
  simp only
  rw [Assoc.find_of_mem s hok.1 h₁]
  exact Assoc.find_of_mem false (hok.2 _ h₁).1 h₂

theorem indexed_empty : empty.Indexed := by
  intro ptr o h
  obtain ⟨s, p, id⟩ := ptr
  cases s <;> simp [deref, empty, levelAt, Assoc.find] at h

theorem indexed_addOrder {b : OrderBook} (hb : b.Inv) (hi : b.Indexed) (id p q : Nat) (s : Bool)
    (hfree : ∀ o ∈ b.restingOrders, o.order_id = id → o.price = p ∧ o.is_buy = s) :
    (b.addOrder id p q s).Indexed := by
  intro ptr o h
  rw [deref_addOrder] at h
  rw [order_map_addOrder]
  split_ifs at h with hp
  · subst hp
    exact Assoc.find_insert_self _ _ _ _
  · have hold := hi ptr o h
    obtain ⟨e₁, e₂, e₃⟩ := hb.2.2.1 ptr o h
    have hne : ptr.order_id ≠ id := by
      intro heq
      obtain ⟨f₁, f₂⟩ := hfree o ((mem_restingOrders_iff hb).mpr ⟨ptr, h⟩) (e₁.trans heq)
      apply hp
      obtain ⟨s', p', id'⟩ := ptr
      simp only at e₂ e₃ heq
      rw [← e₂, ← e₃, f₁, f₂, heq]
    rw [Assoc.find_insert_ne false _ _ hne]
    exact hold

theorem indexed_removeOrder {b : OrderBook} (hb : b.Inv) (hi : b.Indexed) (id : Nat) :
    (b.removeOrder id).Indexed := by
  cases h₁ : Assoc.find id b.order_map with
  | none => rw [removeOrder_of_find_none h₁]; exact hi
  | some ptr₀ =>
    obtain ⟨_, hsome⟩ := hb.2.2.2 id ptr₀ h₁
    obtain ⟨o₀, h₂⟩ := Option.isSome_iff_exists.mp hsome
    intro ptr o h
    rw [deref_removeOrder hb h₁ h₂] at h
    rw [order_map_removeOrder h₁ h₂]
    split_ifs at h with hp
    have hold := hi ptr o h
    have hne : ptr.order_id ≠ id := by
      intro heq
      rw [heq, h₁] at hold
      simp only [Option.some.injEq] at hold
      exact hp hold.symm
    rw [Assoc.find_erase_ne _ hne]
    exact hold

theorem indexed_modifyOrder {b : OrderBook} (hb : b.Inv) (hi : b.Indexed) (id q : Nat) :
    (b.modifyOrder id q).Indexed := by
  cases h₁ : Assoc.find id b.order_map with
  | none => rw [modifyOrder_of_find_none q h₁]; exact hi
  | some ptr₀ =>
    obtain ⟨_, hsome⟩ := hb.2.2.2 id ptr₀ h₁
    obtain ⟨o₀, h₂⟩ := Option.isSome_iff_exists.mp hsome
    rw [modifyOrder_eq q h₁ h₂]
    intro ptr o h
    rw [deref_store] at h
    rw [order_map_store]
    split_ifs at h with hp
    · subst hp
      exact hi ptr o₀ h₂
    · exact hi ptr o h

theorem indexed_run (calls : List BookCall) :
    ∀ b : OrderBook, b.Inv → b.Indexed → ClashFree b calls → (b.run calls).Indexed := by
  induction calls with
  | nil => intro b _ hi _; exact hi
  | cons c rest ih =>
    intro b hb hi hfree
    cases c with
    | addOrder id p q s =>
      exact ih _ (inv_addOrder hb id p q s) (indexed_addOrder hb hi id p q s hfree.1) hfree.2
    | removeOrder id =>
      exact ih _ (inv_removeOrder hb id) (indexed_removeOrder hb hi id) hfree
    | modifyOrder id q =>
      exact ih _ (inv_modifyOrder hb id q) (indexed_modifyOrder hb hi id q) hfree

theorem resting_ids_step {b : OrderBook} (hb : b.Inv) (c : BookCall) :
    ∀ o ∈ (b.step c).restingOrders,
      (∃ o₀ ∈ b.restingOrders, o₀.order_id = o.order_id) ∨ o.order_id ∈ addedIds [c] := by
  intro o ho
  obtain ⟨ptr, hd⟩ := (mem_restingOrders_iff (inv_step hb c)).mp ho
  cases c with
  | addOrder id p q s =>
    simp only [step] at hd
    rw [deref_addOrder] at hd
    split_ifs at hd with hp
    · simp only [Option.some.injEq] at hd
      subst hd
      exact Or.inr (by simp [addedIds])
    · exact Or.inl ⟨o, (mem_restingOrders_iff hb).mpr ⟨ptr, hd⟩, rfl⟩
  | removeOrder id =>
    simp only [step] at hd
    cases h₁ : Assoc.find id b.order_map with
    | none =>
      rw [removeOrder_of_find_none h₁] at hd
      exact Or.inl ⟨o, (mem_restingOrders_iff hb).mpr ⟨ptr, hd⟩, rfl⟩
    | some ptr₀ =>
      obtain ⟨_, hsome⟩ := hb.2.2.2 id ptr₀ h₁
      obtain ⟨o₀, h₂⟩ := Option.isSome_iff_exists.mp hsome
      rw [deref_removeOrder hb h₁ h₂] at hd
      split_ifs at hd
      exact Or.inl ⟨o, (mem_restingOrders_iff hb).mpr ⟨ptr, hd⟩, rfl⟩
  | modifyOrder id q =>
    simp only [step] at hd
    cases h₁ : Assoc.find id b.order_map with
    | none =>
      rw [modifyOrder_of_find_none q h₁] at hd
      exact Or.inl ⟨o, (mem_restingOrders_iff hb).mpr ⟨ptr, hd⟩, rfl⟩
    | some ptr₀ =>
      obtain ⟨_, hsome⟩ := hb.2.2.2 id ptr₀ h₁
      obtain ⟨o₀, h₂⟩ := Option.isSome_iff_exists.mp hsome
      rw [modifyOrder_eq q h₁ h₂, deref_store] at hd
      split_ifs at hd with hp
      · simp only [Option.some.injEq] at hd
        subst hd
        exact Or.inl ⟨o₀, (mem_restingOrders_iff hb).mpr ⟨ptr₀, h₂⟩, rfl⟩
      · exact Or.inl ⟨o, (mem_restingOrders_iff hb).mpr ⟨ptr, hd⟩, rfl⟩

theorem clashFree_of_nodup (calls : List BookCall) :
    ∀ b : OrderBook, b.Inv → (∀ o ∈ b.restingOrders, o.order_id ∉ addedIds calls) →
      (addedIds calls).Nodup → ClashFree b calls := by
  induction calls with
  | nil => intro b _ _ _; trivial
  | cons c rest ih =>
    intro b hb hfresh hnd
    cases c with
    | addOrder id p q s =>
      simp only [addedIds, List.nodup_cons, List.mem_cons, not_or] at hfresh hnd
      refine ⟨fun o ho heq => absurd heq (hfresh o ho).1, ?_⟩
      apply ih _ (inv_addOrder hb id p q s) _ hnd.2
      intro o ho hin
      rcases resting_ids_step hb (BookCall.addOrder id p q s) o ho with ⟨o₀, ho₀, heq⟩ | hadd
      · exact (hfresh o₀ ho₀).2 (heq ▸ hin)
      · simp only [addedIds, List.mem_singleton] at hadd
        exact hnd.1 (hadd ▸ hin)
    | removeOrder id =>
      simp only [addedIds] at hfresh hnd
      apply ih _ (inv_removeOrder hb id) _ hnd
      intro o ho hin
      rcases resting_ids_step hb (BookCall.removeOrder id) o ho with ⟨o₀, ho₀, heq⟩ | hadd
      · exact hfresh o₀ ho₀ (heq ▸ hin)
      · simp [addedIds] at hadd
    | modifyOrder id q =>
      simp only [addedIds] at hfresh hnd
      apply ih _ (inv_modifyOrder hb id q) _ hnd
      intro o ho hin
      rcases resting_ids_step hb (BookCall.modifyOrder id q) o ho with ⟨o₀, ho₀, heq⟩ | hadd
      · exact hfresh o₀ ho₀ (heq ▸ hin)
      · simp [addedIds] at hadd

theorem find_removeOrder_self {b : OrderBook} (hb : b.Inv) (id : Nat) :
    Assoc.find id (b.removeOrder id).order_map = none := by
  cases h₁ : Assoc.find id b.order_map with
  | none => rw [removeOrder_of_find_none h₁]; exact h₁
  | some ptr₀ =>
    obtain ⟨_, hsome⟩ := hb.2.2.2 id ptr₀ h₁
    obtain ⟨o₀, h₂⟩ := Option.isSome_iff_exists.mp hsome
    rw [order_map_removeOrder h₁ h₂]
    exact Assoc.find_erase_self false id hb.1

end OrderBook

namespace OrderBook

theorem filter_level_id {lvl : Level} {id : Nat} {o : Order} (ho : Assoc.Ordered false lvl)
    (hkey : ∀ x ∈ lvl, x.2.order_id = x.1) (hf : Assoc.find id lvl = some o) :
    (lvl.map Prod.snd).filter (fun x => decide (x.order_id = id)) = [o] := by
  induction lvl with
  | nil => simp [Assoc.find] at hf
  | cons e t ih =>
    obtain ⟨k, x⟩ := e
    unfold Assoc.Ordered at ho
    rw [List.pairwise_cons] at ho
    have hk : x.order_id = k := hkey (k, x) (List.mem_cons_self _ _)
    unfold Assoc.find at hf
    split_ifs at hf with h
    · subst h
      simp only [Option.some.injEq] at hf
      subst hf
      have htail : (t.map Prod.snd).filter (fun y => decide (y.order_id = k)) = [] := by
        rw [List.filter_eq_nil_iff]
        intro y hy
        obtain ⟨e, he, rfl⟩ := List.mem_map.mp hy
        have h₁ := ho.1 e he
        have h₂ := hkey e (List.mem_cons_of_mem _ he)
        simp only [Assoc.before, Bool.false_eq_true, if_false, decide_eq_true_eq] at h₁
        simp only [decide_eq_true_eq]
        omega
      simp [List.filter_cons, hk, htail]
    · have hx : ¬ x.order_id = id := by rw [hk]; exact h
      simp only [List.map_cons, List.filter_cons, hx, decide_False, Bool.false_eq_true, if_false]
      exact ih ho.2 (fun y hy => hkey y (List.mem_cons_of_mem _ hy)) hf

theorem filter_side_id {d : Bool} {m : Assoc Level} {id p₀ : Nat} (hok : SideOK d m)
    (hloc : ∀ e ∈ m, ∀ x ∈ e.2, x.2.order_id = id → e.1 = p₀) :
    (sideOrders m).filter (fun x => decide (x.order_id = id))
      = ((levelAt m p₀).map Prod.snd).filter (fun x => decide (x.order_id = id)) := by
  induction m with
  | nil => rfl
  | cons e t ih =>
    obtain ⟨p, lvl⟩ := e
    have hord := hok.1
    unfold Assoc.Ordered at hord
    rw [List.pairwise_cons] at hord
    have hokt : SideOK d t := ⟨hord.2, fun e he => hok.2 e (List.mem_cons_of_mem _ he)⟩
    have hloct : ∀ e ∈ t, ∀ x ∈ e.2, x.2.order_id = id → e.1 = p₀ :=
      fun e he => hloc e (List.mem_cons_of_mem _ he)
    have hsplit : sideOrders ((p, lvl) :: t) = lvl.map Prod.snd ++ sideOrders t := by
      simp [sideOrders]
    rw [hsplit, List.filter_append, ih hokt hloct]
    by_cases hp : p = p₀
    · subst hp
      have hnone : Assoc.find p t = none :=
        Assoc.find_none_of_before d fun e he => hord.1 e he
      simp [levelAt, Assoc.find, hnone]
    · have hnil : (lvl.map Prod.snd).filter (fun x => decide (x.order_id = id)) = [] := by
        rw [List.filter_eq_nil_iff]
        intro y hy hyid
        obtain ⟨x, hx, rfl⟩ := List.mem_map.mp hy
        exact hp (hloc (p, lvl) (List.mem_cons_self _ _) x hx (by simpa using hyid))
      rw [hnil, List.nil_append]
      simp [levelAt, Assoc.find, hp]

theorem filter_side_other {m : Assoc Level} {id : Nat}
    (hloc : ∀ e ∈ m, ∀ x ∈ e.2, x.2.order_id ≠ id) :
    (sideOrders m).filter (fun x => decide (x.order_id = id)) = [] := by
  rw [List.filter_eq_nil_iff]
  intro o ho
  obtain ⟨p, lvl, k, hm, hl⟩ := mem_sideOrders.mp ho
  simpa using hloc (p, lvl) hm (k, o) hl

theorem getBestBid_congr {b b' : OrderBook} (h : b'.bids.map Prod.fst = b.bids.map Prod.fst) :
    b'.getBestBid = b.getBestBid := by
  unfold getBestBid
  cases h₁ : b.bids <;> cases h₂ : b'.bids <;> simp_all

theorem getBestAsk_congr {b b' : OrderBook} (h : b'.asks.map Prod.fst = b.asks.map Prod.fst) :
    b'.getBestAsk = b.getBestAsk := by
  unfold getBestAsk
  cases h₁ : b.asks <;> cases h₂ : b'.asks <;> simp_all

theorem indexed_of_nodup {calls : List BookCall} (h : (addedIds calls).Nodup) :
    (run empty calls).Indexed :=
  indexed_run calls empty inv_empty indexed_empty
    (clashFree_of_nodup calls empty inv_empty (by simp [restingOrders, sideOrders, empty]) h)

end OrderBook

/-- C9 fails when an id is reused at another price: after
`addOrder(1,100,10,buy); addOrder(1,200,5,buy)` the index holds id 1 (pointing to
price 200), yet two price levels hold an order with id 1, and after
`removeOrder(1)` the level 100 still holds it. -/
theorem C9_id_reuse_counterexample :
    Assoc.find 1 (OrderBook.run OrderBook.empty
      [.addOrder 1 100 10 true, .addOrder 1 200 5 true]).order_map = some ⟨true, 200, 1⟩ ∧
    ((OrderBook.run OrderBook.empty
      [.addOrder 1 100 10 true, .addOrder 1 200 5 true]).restingOrders.filter
        (fun o => decide (o.order_id = 1))).length = 2 ∧
    ((OrderBook.run OrderBook.empty
      [.addOrder 1 100 10 true, .addOrder 1 200 5 true]).removeOrder 1).bids
        = [(100, [(1, ⟨1, 10, 100, true⟩)])] := by
  decide

/-- C9 as amended (index consistency): in every book reached from the empty book
by `addOrder`, `removeOrder` and `modifyOrder` calls, an id present in the index
has an entry on the indexed side at the indexed price, carrying that id, price
and side. If moreover no `addOrder` call reused an id resting in the book at a
different price or on the other side, that entry is the only order with that id
among all price levels of both sides, and after `removeOrder(id)` no price level
on either side holds an order with that id. -/
theorem C9_index_consistency (calls : List BookCall) (id : Nat) (ptr : OrderBook.OrderPtr)
    (h : Assoc.find id (OrderBook.run OrderBook.empty calls).order_map = some ptr) :
    (∃ lvl o, (ptr.price, lvl) ∈ (OrderBook.run OrderBook.empty calls).side ptr.is_buy ∧
      (id, o) ∈ lvl ∧ o.order_id = id ∧ o.price = ptr.price ∧ o.is_buy = ptr.is_buy ∧
      (OrderBook.ClashFree OrderBook.empty calls →
        (OrderBook.run OrderBook.empty calls).restingOrders.filter
          (fun x => decide (x.order_id = id)) = [o])) ∧
    (OrderBook.ClashFree OrderBook.empty calls →
      ∀ x ∈ ((OrderBook.run OrderBook.empty calls).removeOrder id).restingOrders,
        x.order_id ≠ id) := by
  have hb := OrderBook.inv_reachable calls
  have hfree := OrderBook.indexed_run calls OrderBook.empty OrderBook.inv_empty
    OrderBook.indexed_empty
  generalize OrderBook.run OrderBook.empty calls = b at hb h hfree ⊢
  obtain ⟨e₀, hsome⟩ := hb.2.2.2 id ptr h
  obtain ⟨o, hd⟩ := Option.isSome_iff_exists.mp hsome
  obtain ⟨e₁, e₂, e₃⟩ := hb.2.2.1 ptr o hd
  have hlvl : Assoc.find ptr.price (b.side ptr.is_buy) = some (OrderBook.levelAt (b.side ptr.is_buy) ptr.price) := by
    rw [OrderBook.deref_eq] at hd
    unfold OrderBook.levelAt at hd ⊢
    cases hl : Assoc.find ptr.price (b.side ptr.is_buy) with
    | none => simp [hl, Assoc.find] at hd
    | some lvl => rfl
  have hfind : Assoc.find id (OrderBook.levelAt (b.side ptr.is_buy) ptr.price) = some o := by
    rw [← e₀]
    exact hd
  refine ⟨⟨_, o, Assoc.mem_of_find hlvl, Assoc.mem_of_find hfind, e₁.trans e₀, e₂, e₃, ?_⟩, ?_⟩
  · intro hcf
    have hi := hfree hcf
    have hloc : ∀ s, ∀ e ∈ b.side s, ∀ x ∈ e.2, x.2.order_id = id →
        s = ptr.is_buy ∧ e.1 = ptr.price := by
      intro s e he x hx hxid
      have hdx := OrderBook.deref_of_mem hb (show (e.1, e.2) ∈ b.side s from he)
        (show (x.1, x.2) ∈ e.2 from hx)
      have hkey := (hb.2.2.1 _ _ hdx).1
      simp only at hkey
      have hix := hi _ _ hdx
      simp only at hix
      rw [← hkey, hxid, h] at hix
      simp only [Option.some.injEq] at hix
      rw [hix]
      exact ⟨rfl, rfl⟩
    have hkeys : ∀ x ∈ OrderBook.levelAt (b.side ptr.is_buy) ptr.price, x.2.order_id = x.1 := by
      intro x hx
      exact (hb.2.2.1 _ _ (OrderBook.deref_of_mem hb (Assoc.mem_of_find hlvl)
        (show (x.1, x.2) ∈ _ from hx))).1
    have hsame : (OrderBook.sideOrders (b.side ptr.is_buy)).filter (fun x => decide (x.order_id = id))
        = [o] := by
      rw [OrderBook.filter_side_id (hb.2.1 ptr.is_buy)
        (fun e he x hx hxid => (hloc ptr.is_buy e he x hx hxid).2)]
      exact OrderBook.filter_level_id
        (OrderBook.levelAt_ordered (fun e he => ((hb.2.1 ptr.is_buy).2 e he).1) _) hkeys hfind
    have hother : (OrderBook.sideOrders (b.side (!ptr.is_buy))).filter
        (fun x => decide (x.order_id = id)) = [] := by
      apply OrderBook.filter_side_other
      intro e he x hx hxid
      have := (hloc (!ptr.is_buy) e he x hx hxid).1
      cases hs : ptr.is_buy <;> simp [hs] at this
    unfold OrderBook.restingOrders
    rw [List.filter_append]
    cases hs : ptr.is_buy
    · rw [hs] at hsame hother
      simp only [Bool.not_false] at hother
      have h₁ : OrderBook.sideOrders b.bids = OrderBook.sideOrders (b.side true) := rfl
      have h₂ : OrderBook.sideOrders b.asks = OrderBook.sideOrders (b.side false) := rfl
      rw [h₁, h₂, hsame, hother]
      rfl
    · rw [hs] at hsame hother
      simp only [Bool.not_true] at hother
      have h₁ : OrderBook.sideOrders b.bids = OrderBook.sideOrders (b.side true) := rfl
      have h₂ : OrderBook.sideOrders b.asks = OrderBook.sideOrders (b.side false) := rfl
      rw [h₁, h₂, hsame, hother]
      rfl
  · intro hcf x hx hxid
    have hb' := OrderBook.inv_removeOrder hb id
    have hi' := OrderBook.indexed_removeOrder hb (hfree hcf) id
    obtain ⟨ptr', hd'⟩ := (OrderBook.mem_restingOrders_iff hb').mp hx
    have hkey := (hb'.2.2.1 _ _ hd').1
    have hix := hi' _ _ hd'
    rw [← hkey, hxid, OrderBook.find_removeOrder_self hb id] at hix
    simp at hix

/-- C9 on the book after `addOrder(1,100,10,buy); addOrder(2,100,5,buy)`: id 1 is
indexed and is the id of exactly one resting order. -/
theorem C9_index_consistency_witness :
    ∃ o, (OrderBook.run OrderBook.empty
      [.addOrder 1 100 10 true, .addOrder 2 100 5 true]).restingOrders.filter
        (fun x => decide (x.order_id = 1)) = [o] :=
  have h := C9_index_consistency [.addOrder 1 100 10 true, .addOrder 2 100 5 true] 1
    ⟨true, 100, 1⟩ (by decide)
  match h.1 with
  | ⟨_, o, _, _, _, _, _, hone⟩ => ⟨o, hone (by decide)⟩

/-- C10 (removing one of several orders at a level): in every book built from
the empty book by calls whose `addOrder` ids are pairwise distinct, if two
different orders `id1 ≠ id2` rest in the level `lvl` at price `p` on one side,
then after `removeOrder(id1)` the level `p` still exists, it is `lvl` without
`id1` (so it holds `id2`, and every other order of the level, with unchanged
fields), every other level of that side and the whole other side are unchanged,
`getBestBid()` and `getBestAsk()` are unchanged, and the index no longer
resolves `id1`: a following `removeOrder(id1)` or `modifyOrder(id1, q)` changes
nothing. -/
theorem C10_remove_one_of_two (calls : List BookCall) (hnd : (OrderBook.addedIds calls).Nodup)
    (s : Bool) (p id1 id2 : Nat) (lvl : OrderBook.Level) (o1 o2 : OrderBook.Order)
    (hl : Assoc.find p ((OrderBook.run OrderBook.empty calls).side s) = some lvl)
    (h1 : Assoc.find id1 lvl = some o1) (h2 : Assoc.find id2 lvl = some o2) (hne : id1 ≠ id2) :
    Assoc.find p (((OrderBook.run OrderBook.empty calls).removeOrder id1).side s)
      = some (Assoc.erase id1 lvl) ∧
    Assoc.find id2 (Assoc.erase id1 lvl) = some o2 ∧
    Assoc.find id1 (Assoc.erase id1 lvl) = none ∧
    (∀ id, id ≠ id1 → Assoc.find id (Assoc.erase id1 lvl) = Assoc.find id lvl) ∧
    (∀ p', p' ≠ p →
      Assoc.find p' (((OrderBook.run OrderBook.empty calls).removeOrder id1).side s)
        = Assoc.find p' ((OrderBook.run OrderBook.empty calls).side s)) ∧
    ((OrderBook.run OrderBook.empty calls).removeOrder id1).side (!s)
      = (OrderBook.run OrderBook.empty calls).side (!s) ∧
    ((OrderBook.run OrderBook.empty calls).removeOrder id1).getBestBid
      = (OrderBook.run OrderBook.empty calls).getBestBid ∧
    ((OrderBook.run OrderBook.empty calls).removeOrder id1).getBestAsk
      = (OrderBook.run OrderBook.empty calls).getBestAsk ∧
    Assoc.find id1 ((OrderBook.run OrderBook.empty calls).removeOrder id1).order_map = none ∧
    ((OrderBook.run OrderBook.empty calls).removeOrder id1).removeOrder id1
      = (OrderBook.run OrderBook.empty calls).removeOrder id1 ∧
    ∀ q, ((OrderBook.run OrderBook.empty calls).removeOrder id1).modifyOrder id1 q
      = (OrderBook.run OrderBook.empty calls).removeOrder id1 := by
  have hb := OrderBook.inv_reachable calls
  have hi := OrderBook.indexed_of_nodup hnd
  generalize OrderBook.run OrderBook.empty calls = b at hb hi hl ⊢
  have hlo : Assoc.Ordered false lvl := ((hb.2.1 s).2 _ (Assoc.mem_of_find hl)).1
  have hlev : OrderBook.levelAt (b.side s) p = lvl := by simp [OrderBook.levelAt, hl]
  have hd : b.deref ⟨s, p, id1⟩ = some o1 := by
    rw [OrderBook.deref_eq]
    simp only
    rw [hlev]
    exact h1
  have hidx : Assoc.find id1 b.order_map = some ⟨s, p, id1⟩ := hi _ _ hd
  obtain ⟨_, e₂, e₃⟩ := hb.2.2.1 _ _ hd
  simp only at e₂ e₃
  have hkeep : Assoc.find id2 (Assoc.erase id1 lvl) = some o2 := by
    rw [Assoc.find_erase_ne _ (Ne.symm hne)]
    exact h2
  have hside : ∀ s', (b.removeOrder id1).side s'
      = if s' = s then Assoc.insert s p (Assoc.erase id1 lvl) (b.side s) else b.side s' := by
    intro s'
    rw [OrderBook.side_removeOrder hidx hd, e₂, e₃]
    split_ifs with hs
    · unfold OrderBook.dropNode
      rw [OrderBook.levelAt_insert, if_pos rfl, hlev]
      have hnot : (Assoc.erase id1 lvl).isEmpty = false := by
        cases he : Assoc.erase id1 lvl with
        | nil => rw [he] at hkeep; simp [Assoc.find] at hkeep
        | cons x t => rfl
      simp [hnot]
    · rfl
  have hkeys : ((b.removeOrder id1).side s).map Prod.fst = (b.side s).map Prod.fst := by
    rw [hside, if_pos rfl]
    exact Assoc.keys_insert_of_find s _ (hb.2.1 s).1 hl
  have hothers : (b.removeOrder id1).side (!s) = b.side (!s) := by
    rw [hside]
    cases s <;> simp
  have hgone := OrderBook.find_removeOrder_self hb id1
  refine ⟨?_, hkeep, Assoc.find_erase_self false id1 hlo, fun id hid => Assoc.find_erase_ne _ hid,
    ?_, hothers, ?_, ?_, hgone, OrderBook.removeOrder_of_find_none hgone,
    fun q => OrderBook.modifyOrder_of_find_none q hgone⟩
  · rw [hside, if_pos rfl]
    exact Assoc.find_insert_self _ _ _ _
  · intro p' hp'
    rw [hside, if_pos rfl]
    exact Assoc.find_insert_ne s _ _ hp'
  · cases s
    · exact OrderBook.getBestBid_congr (congrArg (List.map Prod.fst) hothers)
    · exact OrderBook.getBestBid_congr hkeys
  · cases s
    · exact OrderBook.getBestAsk_congr hkeys
    · exact OrderBook.getBestAsk_congr (congrArg (List.map Prod.fst) hothers)

/-- C10 on the scenario of the specification: `addOrder(1,100,10,buy);
addOrder(2,100,5,buy); removeOrder(1)` leaves `getBestBid() == 100`, with order
2 still in level 100 and id 1 gone from the index. -/
theorem C10_remove_one_of_two_witness :
    ((OrderBook.run OrderBook.empty
      [.addOrder 1 100 10 true, .addOrder 2 100 5 true]).removeOrder 1).getBestBid = 100 ∧
    Assoc.find 100 ((OrderBook.run OrderBook.empty
      [.addOrder 1 100 10 true, .addOrder 2 100 5 true]).removeOrder 1).bids
      = some [(2, ⟨2, 5, 100, true⟩)] ∧
    Assoc.find 1 ((OrderBook.run OrderBook.empty
      [.addOrder 1 100 10 true, .addOrder 2 100 5 true]).removeOrder 1).order_map = none :=
  have h := C10_remove_one_of_two [.addOrder 1 100 10 true, .addOrder 2 100 5 true] (by decide)
    true 100 1 2 [(1, ⟨1, 10, 100, true⟩), (2, ⟨2, 5, 100, true⟩)] ⟨1, 10, 100, true⟩
    ⟨2, 5, 100, true⟩ (by decide) (by decide) (by decide) (by decide)
  ⟨h.2.2.2.2.2.2.1, h.1, h.2.2.2.2.2.2.2.2.1⟩

/-! ## Order book: pruning, unknown ids, modification -/

namespace Assoc

variable {V : Type}

theorem erase_insert_self (d : Bool) (k : Nat) (v : V) {m : Assoc V} (ho : Ordered d m) :
    erase k (insert d k v m) = erase k m := by
  induction m with
  | nil => simp [insert, erase]
  | cons e t ih =>
    obtain ⟨k₀, v₀⟩ := e
    unfold Ordered at ho
    rw [List.pairwise_cons] at ho
    unfold insert
    split_ifs with h₁ h₂
    · subst h₁
      simp [erase]
    · have hnone : find k ((k₀, v₀) :: t) = none := by
        apply find_none_of_before d
        intro e he
        rcases List.mem_cons.mp he with he | he
        · subst he
          exact h₂
        · exact before_trans d h₂ (ho.1 e he)
      rw [erase_of_find_none hnone]
      simp [erase]
    · simp only [erase, h₁, if_false, ih ho.2]

end Assoc

namespace OrderBook

theorem dropNode_last {d : Bool} {m : Assoc Level} (hm : Assoc.Ordered d m) {p id : Nat} {o : Order}
    (hl : Assoc.find p m = some [(id, o)]) : dropNode d m p id = Assoc.erase p m := by
  have hlev : levelAt m p = [(id, o)] := by simp [levelAt, hl]
  unfold dropNode
  rw [levelAt_insert, if_pos rfl, hlev]
  simp [Assoc.erase, Assoc.erase_insert_self d p _ hm]

end OrderBook

/-- C11 (level pruning): in every book reached from the empty book by `addOrder`,
`removeOrder` and `modifyOrder` calls no price level is empty. When
`removeOrder(id)` removes the only order of its level (the index entry of `id`
points to side `ptr.is_buy`, price `ptr.price`, and that level holds just this
order), the level is erased from its side and the other side is unchanged;
afterwards `getBestBid()` (resp. `getBestAsk()`) is the sentinel when its side
is empty, and otherwise the first key of the side, which no remaining level
beats. -/
theorem C11_level_pruning (calls : List BookCall) :
    (∀ s, ∀ e ∈ (OrderBook.run OrderBook.empty calls).side s, e.2 ≠ []) ∧
    ∀ (id : Nat) (ptr : OrderBook.OrderPtr) (o : OrderBook.Order),
      Assoc.find id (OrderBook.run OrderBook.empty calls).order_map = some ptr →
      Assoc.find ptr.price ((OrderBook.run OrderBook.empty calls).side ptr.is_buy)
        = some [(id, o)] →
      (((OrderBook.run OrderBook.empty calls).removeOrder id).side ptr.is_buy
          = Assoc.erase ptr.price ((OrderBook.run OrderBook.empty calls).side ptr.is_buy) ∧
        Assoc.find ptr.price (((OrderBook.run OrderBook.empty calls).removeOrder id).side ptr.is_buy)
          = none ∧
        ((OrderBook.run OrderBook.empty calls).removeOrder id).side (!ptr.is_buy)
          = (OrderBook.run OrderBook.empty calls).side (!ptr.is_buy)) ∧
      ((((OrderBook.run OrderBook.empty calls).removeOrder id).bids = [] →
          ((OrderBook.run OrderBook.empty calls).removeOrder id).getBestBid = 0) ∧
        (∀ e ∈ ((OrderBook.run OrderBook.empty calls).removeOrder id).bids,
          e.2 ≠ [] ∧ e.1 ≤ ((OrderBook.run OrderBook.empty calls).removeOrder id).getBestBid) ∧
        (((OrderBook.run OrderBook.empty calls).removeOrder id).bids ≠ [] →
          ∃ e ∈ ((OrderBook.run OrderBook.empty calls).removeOrder id).bids,
            e.1 = ((OrderBook.run OrderBook.empty calls).removeOrder id).getBestBid)) ∧
      ((((OrderBook.run OrderBook.empty calls).removeOrder id).asks = [] →
          ((OrderBook.run OrderBook.empty calls).removeOrder id).getBestAsk = 0xFFFFFFFF) ∧
        (∀ e ∈ ((OrderBook.run OrderBook.empty calls).removeOrder id).asks,
          e.2 ≠ [] ∧ ((OrderBook.run OrderBook.empty calls).removeOrder id).getBestAsk ≤ e.1) ∧
        (((OrderBook.run OrderBook.empty calls).removeOrder id).asks ≠ [] →
          ∃ e ∈ ((OrderBook.run OrderBook.empty calls).removeOrder id).asks,
            e.1 = ((OrderBook.run OrderBook.empty calls).removeOrder id).getBestAsk)) := by
  have hb := OrderBook.inv_reachable calls
  generalize OrderBook.run OrderBook.empty calls = b at hb ⊢
  refine ⟨fun s e he => ((hb.2.1 s).2 e he).2, ?_⟩
  intro id ptr o hidx hl
  obtain ⟨e₀, hsome⟩ := hb.2.2.2 id ptr hidx
  obtain ⟨o', hd⟩ := Option.isSome_iff_exists.mp hsome
  obtain ⟨_, e₂, e₃⟩ := hb.2.2.1 ptr o' hd
  have hb' := OrderBook.inv_removeOrder hb id
  have hside : (b.removeOrder id).side ptr.is_buy = Assoc.erase ptr.price (b.side ptr.is_buy) := by
    rw [OrderBook.side_removeOrder hidx hd, e₃, if_pos rfl, e₂]
    exact OrderBook.dropNode_last (hb.2.1 ptr.is_buy).1 hl
  have hother : (b.removeOrder id).side (!ptr.is_buy) = b.side (!ptr.is_buy) := by
    rw [OrderBook.side_removeOrder hidx hd, e₃]
    cases ptr.is_buy <;> simp
  refine ⟨⟨hside, ?_, hother⟩, ⟨?_, ?_, ?_⟩, ⟨?_, ?_, ?_⟩⟩
  · rw [hside]
    exact Assoc.find_erase_self ptr.is_buy _ (hb.2.1 ptr.is_buy).1
  · intro h
    simp [OrderBook.getBestBid, h]
  · intro e he
    exact ⟨((hb'.2.1 true).2 e he).2, OrderBook.key_le_getBestBid (hb'.2.1 true).1 e he⟩
  · intro h
    cases hbids : (b.removeOrder id).bids with
    | nil => exact absurd hbids h
    | cons e t => exact ⟨e, List.mem_cons_self _ _, by simp [OrderBook.getBestBid, hbids]⟩
  · intro h
    simp [OrderBook.getBestAsk, h]
  · intro e he
    exact ⟨((hb'.2.1 false).2 e he).2, OrderBook.getBestAsk_le_key (hb'.2.1 false).1 e he⟩
  · intro h
    cases hasks : (b.removeOrder id).asks with
    | nil => exact absurd hasks h
    | cons e t => exact ⟨e, List.mem_cons_self _ _, by simp [OrderBook.getBestAsk, hasks]⟩

/-- C11 on two bids at different prices: removing order 1, alone at price 100,
erases that level and leaves 90 as the best bid; removing order 2 as well leaves
the sentinel 0. -/
theorem C11_level_pruning_witness :
    ((OrderBook.run OrderBook.empty
      [.addOrder 1 100 10 true, .addOrder 2 90 5 true]).removeOrder 1).bids
      = [(90, [(2, ⟨2, 5, 90, true⟩)])] ∧
    ((OrderBook.run OrderBook.empty
      [.addOrder 1 100 10 true, .addOrder 2 90 5 true]).removeOrder 1).getBestBid = 90 ∧
    (((OrderBook.run OrderBook.empty
      [.addOrder 1 100 10 true, .addOrder 2 90 5 true]).removeOrder 1).removeOrder 2).getBestBid
      = 0 :=
  ⟨((C11_level_pruning [.addOrder 1 100 10 true, .addOrder 2 90 5 true]).2 1 ⟨true, 100, 1⟩
      ⟨1, 10, 100, true⟩ (by decide) (by decide)).1.1,
    by decide, by decide⟩

/-- C12 (unknown order is a silent no-op): for every book and every order id
without an index entry, `removeOrder(id)` and, for every quantity,
`modifyOrder(id, q)` return the book unchanged: the same price levels on both
sides, the same resting orders and the same index. -/
theorem C12_unknown_order_noop (b : OrderBook) (id : Nat)
    (h : Assoc.find id b.order_map = none) :
    b.removeOrder id = b ∧ (∀ q, b.modifyOrder id q = b) ∧
    (b.removeOrder id).bids = b.bids ∧ (b.removeOrder id).asks = b.asks ∧
    (b.removeOrder id).order_map = b.order_map ∧
    (b.removeOrder id).restingOrders = b.restingOrders ∧
    (∀ q, (b.modifyOrder id q).restingOrders = b.restingOrders) := by
  have h₁ : b.removeOrder id = b := by simp [OrderBook.removeOrder, h]
  have h₂ : ∀ q, b.modifyOrder id q = b := fun q => by simp [OrderBook.modifyOrder, h]
  refine ⟨h₁, h₂, ?_, ?_, ?_, ?_, ?_⟩
  · rw [h₁]
  · rw [h₁]
  · rw [h₁]
  · rw [h₁]
  · intro q
    rw [h₂ q]

/-- C12 on a book holding order 1 only: removing or modifying the unknown id 7
returns the same book. -/
theorem C12_unknown_order_noop_witness :
    (OrderBook.empty.addOrder 1 100 10 true).removeOrder 7 = OrderBook.empty.addOrder 1 100 10 true ∧
    (OrderBook.empty.addOrder 1 100 10 true).modifyOrder 7 0 = OrderBook.empty.addOrder 1 100 10 true :=
  have h := C12_unknown_order_noop (OrderBook.empty.addOrder 1 100 10 true) 7 (by decide)
  ⟨h.1, h.2.1 0⟩

namespace OrderBook

theorem find_level_of_deref {b : OrderBook} {ptr : OrderPtr} {o : Order} (h : b.deref ptr = some o) :
    Assoc.find ptr.price (b.side ptr.is_buy) = some (levelAt (b.side ptr.is_buy) ptr.price) := by
  rw [deref_eq] at h
  unfold levelAt at h ⊢
  cases hl : Assoc.find ptr.price (b.side ptr.is_buy) with
  | none => simp [hl, Assoc.find] at h
  | some lvl => rfl

theorem keys_putNode_of_find {d : Bool} {m : Assoc Level} (hm : SideOK d m) {p id : Nat}
    {o : Order} (o' : Order) (h : Assoc.find id (levelAt m p) = some o) :
    (putNode d m p id o').map Prod.fst = m.map Prod.fst ∧
    ∀ p', (levelAt (putNode d m p id o') p').map Prod.fst = (levelAt m p').map Prod.fst := by
  have hl : Assoc.find p m = some (levelAt m p) := by
    unfold levelAt at h ⊢
    cases hl : Assoc.find p m with
    | none => simp [hl, Assoc.find] at h
    | some lvl => rfl
  refine ⟨Assoc.keys_insert_of_find d _ hm.1 hl, ?_⟩
  intro p'
  unfold putNode
  rw [levelAt_insert]
  split_ifs with hp
  · subst hp
    exact Assoc.keys_insert_of_find false o' (levelAt_ordered (fun e he => (hm.2 e he).1) p') h
  · rfl

end OrderBook

/-- C13 (`modifyOrder` changes the quantity only): in every book reached from
the empty book, for every indexed id and every new quantity (zero included),
after `modifyOrder(id, newQty)` the order the index points to has quantity
`newQty` and its former id, price and side, and it still rests in the book;
every other order is unchanged; the price levels of both sides and the ids in
each level are the same; the index is the same; `getBestBid()` and
`getBestAsk()` return the same values; and a following `removeOrder(id)` takes
the order out. -/
theorem C13_modifyOrder_quantity_only (calls : List BookCall) (id newQty : Nat)
    (ptr : OrderBook.OrderPtr)
    (h : Assoc.find id (OrderBook.run OrderBook.empty calls).order_map = some ptr) :
    ∃ o, (OrderBook.run OrderBook.empty calls).deref ptr = some o ∧
      ((OrderBook.run OrderBook.empty calls).modifyOrder id newQty).deref ptr
        = some ⟨o.order_id, newQty, o.price, o.is_buy⟩ ∧
      (⟨o.order_id, newQty, o.price, o.is_buy⟩ : OrderBook.Order) ∈
        ((OrderBook.run OrderBook.empty calls).modifyOrder id newQty).restingOrders ∧
      (∀ ptr', ptr' ≠ ptr →
        ((OrderBook.run OrderBook.empty calls).modifyOrder id newQty).deref ptr'
          = (OrderBook.run OrderBook.empty calls).deref ptr') ∧
      (∀ s, (((OrderBook.run OrderBook.empty calls).modifyOrder id newQty).side s).map Prod.fst
        = ((OrderBook.run OrderBook.empty calls).side s).map Prod.fst) ∧
      (∀ s p, (OrderBook.levelAt
          (((OrderBook.run OrderBook.empty calls).modifyOrder id newQty).side s) p).map Prod.fst
        = (OrderBook.levelAt ((OrderBook.run OrderBook.empty calls).side s) p).map Prod.fst) ∧
      ((OrderBook.run OrderBook.empty calls).modifyOrder id newQty).order_map
        = (OrderBook.run OrderBook.empty calls).order_map ∧
      ((OrderBook.run OrderBook.empty calls).modifyOrder id newQty).getBestBid
        = (OrderBook.run OrderBook.empty calls).getBestBid ∧
      ((OrderBook.run OrderBook.empty calls).modifyOrder id newQty).getBestAsk
        = (OrderBook.run OrderBook.empty calls).getBestAsk ∧
      (((OrderBook.run OrderBook.empty calls).modifyOrder id newQty).removeOrder id).deref ptr
        = none := by
  have hb := OrderBook.inv_reachable calls
  generalize OrderBook.run OrderBook.empty calls = b at hb h ⊢
  obtain ⟨e₀, hsome⟩ := hb.2.2.2 id ptr h
  obtain ⟨o, hd⟩ := Option.isSome_iff_exists.mp hsome
  have hb' := OrderBook.inv_modifyOrder hb id newQty
  have hmod := OrderBook.modifyOrder_eq newQty h hd
  have hd' : (b.modifyOrder id newQty).deref ptr = some ⟨o.order_id, newQty, o.price, o.is_buy⟩ := by
    rw [hmod, OrderBook.deref_store, if_pos rfl]
  have hom : (b.modifyOrder id newQty).order_map = b.order_map := by
    rw [hmod, OrderBook.order_map_store]
  have hkeys := OrderBook.keys_putNode_of_find (hb.2.1 ptr.is_buy)
    (⟨o.order_id, newQty, o.price, o.is_buy⟩ : OrderBook.Order)
    (show Assoc.find ptr.order_id (OrderBook.levelAt (b.side ptr.is_buy) ptr.price) = some o from hd)
  have hsides : ∀ s, ((b.modifyOrder id newQty).side s).map Prod.fst = (b.side s).map Prod.fst := by
    intro s
    rw [hmod, OrderBook.side_store]
    split_ifs with hs
    · subst hs
      exact hkeys.1
    · rfl
  refine ⟨o, hd, hd', (OrderBook.mem_restingOrders_iff hb').mpr ⟨ptr, hd'⟩, ?_, hsides, ?_, hom,
    OrderBook.getBestBid_congr (hsides true), OrderBook.getBestAsk_congr (hsides false), ?_⟩
  · intro ptr' hne
    rw [hmod, OrderBook.deref_store, if_neg hne]
  · intro s p
    rw [hmod, OrderBook.side_store]
    split_ifs with hs
    · subst hs
      exact hkeys.2 p
    · rfl
  · rw [OrderBook.deref_removeOrder hb' (hom ▸ h) hd', if_pos rfl]

/-- C13 with `newQty = 0`: after `addOrder(1,100,10,buy); modifyOrder(1,0)` the
order rests at price 100 with quantity 0 and the best bid is still 100. -/
theorem C13_modifyOrder_quantity_only_witness :
    ((OrderBook.run OrderBook.empty [.addOrder 1 100 10 true]).modifyOrder 1 0).bids
      = [(100, [(1, ⟨1, 0, 100, true⟩)])] ∧
    ((OrderBook.run OrderBook.empty [.addOrder 1 100 10 true]).modifyOrder 1 0).getBestBid = 100 :=
  match C13_modifyOrder_quantity_only [.addOrder 1 100 10 true] 1 0 ⟨true, 100, 1⟩ (by decide) with
  | ⟨_, _, _, _, _, _, _, _, hbid, _, _⟩ => ⟨by decide, hbid⟩

/-! ## Reassembly layer -/

theorem getD_drop (l : List Nat) (k i : Nat) : (l.drop k).getD i 0 = l.getD (k + i) 0 := by
  simp [List.getD_eq_getElem?_getD, List.getElem?_drop]

theorem bytesAt_drop (data : List Nat) (k off n : Nat) :
    bytesAt (data.drop k) off n = bytesAt data (k + off) n := by
  apply bytesAt_congr
  intro i _
  rw [getD_drop]
  congr 1
  omega

theorem bytesAt_drop_all (data : List Nat) (k len : Nat) (h : data.length = len) :
    bytesAt (data.drop k) 0 (len - k) = data.drop k := by
  have := bytesAt_self (data.drop k)
  rw [List.length_drop, h] at this
  exact this

theorem bytesAt_length (data : List Nat) (off n : Nat) : (bytesAt data off n).length = n := by
  simp [bytesAt]

theorem leValue_lt (l : List Nat) : leValue l < 256 ^ l.length := by
  induction l with
  | nil => simp [leValue]
  | cons b t ih =>
    simp only [leValue, List.length_cons, pow_succ]
    have := Nat.mod_lt b (show 0 < 256 by decide)
    nlinarith

namespace TCPIPStack

theorem process_packet_eq (st : TCPIPStack) (data : List Nat) (len : Nat)
    (h : sizeof_IPHeader + sizeof_TCPHeader ≤ len) :
    st.process_packet data len =
      { connections := Assoc.insert false (frameKey data)
          ((st.connBefore data).process_packet (TCPHeader.ofBytes (data.drop sizeof_IPHeader))
            (data.drop (sizeof_IPHeader + sizeof_TCPHeader))
            (len - sizeof_IPHeader - sizeof_TCPHeader))
          st.connections } := by
  unfold process_packet connBefore frameKey
  rw [if_neg (by omega)]
  dsimp only
  split <;> rename_i hf <;> rw [hf] <;> rfl

theorem create_packet_eq (st : TCPIPStack) (dest_ip dest_port : Nat) (data : List Nat) (len : Nat) :
    st.create_packet dest_ip dest_port data len =
      (leBytes 4 0 ++ leBytes 4 dest_ip ++ leBytes 1 6 ++ [0, 0, 0] ++
        ((st.connFor dest_ip dest_port).create_packet data len).1,
       { connections := Assoc.insert false (get_connection_key dest_ip dest_port)
          ((st.connFor dest_ip dest_port).create_packet data len).2 st.connections }) := by
  unfold create_packet connFor
  dsimp only
  split <;> rename_i hf <;> rw [hf] <;> rfl

end TCPIPStack

/-- C16 (inbound frame processing): for every stack and every frame of length at
least `sizeof(IPHeader) + sizeof(TCPHeader)` (24 bytes), after `process_packet`
the connection keyed by the `(src_ip, src_port)` of the headers exists. Compared
with that connection before the call (or, when there was none, with the
connection created for the key from the header fields) its next-ack is
`(seq + payload_len) mod 2^32`, its send-sequence and endpoints are unchanged,
and its queue has the payload appended at the back as one chunk when the
payload is not empty and is unchanged when it is empty, so at most one chunk is
queued. The payload is every byte after the headers. Every other connection is
unchanged. -/
theorem C16_inbound_frame (st : TCPIPStack) (data : List Nat) (len : Nat)
    (h : sizeof_IPHeader + sizeof_TCPHeader ≤ len) :
    ∃ c', Assoc.find (TCPIPStack.frameKey data) (st.process_packet data len).connections = some c' ∧
      c'.next_ack_num = ((TCPHeader.ofBytes (data.drop sizeof_IPHeader)).seq_num
        + (len - sizeof_IPHeader - sizeof_TCPHeader)) % 2 ^ 32 ∧
      c'.next_seq_num = (st.connBefore data).next_seq_num ∧
      c'.received_data =
        (if 0 < len - sizeof_IPHeader - sizeof_TCPHeader then
          (st.connBefore data).received_data ++ [TCPIPStack.framePayload data len]
        else (st.connBefore data).received_data) ∧
      c'.received_data.length ≤ (st.connBefore data).received_data.length + 1 ∧
      c'.remote_ip = (st.connBefore data).remote_ip ∧
      c'.remote_port = (st.connBefore data).remote_port ∧
      c'.local_ip = (st.connBefore data).local_ip ∧
      c'.local_port = (st.connBefore data).local_port ∧
      (Assoc.find (TCPIPStack.frameKey data) st.connections = none →
        st.connBefore data = TCPConnection.new (IPHeader.ofBytes data).src_ip
          (TCPHeader.ofBytes (data.drop sizeof_IPHeader)).src_port (IPHeader.ofBytes data).dest_ip
          (TCPHeader.ofBytes (data.drop sizeof_IPHeader)).dest_port) ∧
      (∀ c, Assoc.find (TCPIPStack.frameKey data) st.connections = some c →
        st.connBefore data = c) ∧
      (data.length = len →
        TCPIPStack.framePayload data len = data.drop (sizeof_IPHeader + sizeof_TCPHeader)) ∧
      (∀ k, k ≠ TCPIPStack.frameKey data →
        Assoc.find k (st.process_packet data len).connections = Assoc.find k st.connections) := by
  rw [TCPIPStack.process_packet_eq st data len h]
  refine ⟨_, Assoc.find_insert_self _ _ _ _, ?_, ?_, ?_, ?_, ?_, ?_, ?_, ?_, ?_, ?_, ?_, ?_⟩
  · unfold TCPConnection.process_packet
    split_ifs <;> rfl
  · unfold TCPConnection.process_packet
    split_ifs <;> rfl
  · unfold TCPConnection.process_packet TCPIPStack.framePayload
    split_ifs <;> rfl
  · unfold TCPConnection.process_packet
    split_ifs <;> simp
  · unfold TCPConnection.process_packet
    split_ifs <;> rfl
  · unfold TCPConnection.process_packet
    split_ifs <;> rfl
  · unfold TCPConnection.process_packet
    split_ifs <;> rfl
  · unfold TCPConnection.process_packet
    split_ifs <;> rfl
  · intro hnone
    simp [TCPIPStack.connBefore, hnone]
  · intro c hc
    simp [TCPIPStack.connBefore, hc]
  · intro hlen
    have := bytesAt_drop_all data (sizeof_IPHeader + sizeof_TCPHeader) len hlen
    unfold TCPIPStack.framePayload
    rw [Nat.sub_sub]
    exact this
  · intro k hk
    exact Assoc.find_insert_ne false _ _ hk

/-- C16 on the empty stack and a 27-byte frame from 1.0.0.0:2 with sequence number
5 and payload `[7, 8, 9]`: the connection is created, its next-ack is 8 and its
queue holds the one chunk `[7, 8, 9]`. -/
theorem C16_inbound_frame_witness :
    ∃ c', Assoc.find (TCPIPStack.get_connection_key 1 2)
        (TCPIPStack.empty.process_packet
          [1, 0, 0, 0, 9, 0, 0, 0, 6, 0, 0, 0, 2, 0, 3, 0, 5, 0, 0, 0, 0, 0, 0, 0, 7, 8, 9]
          27).connections = some c' ∧
      c'.next_ack_num = 8 ∧ c'.received_data = [[7, 8, 9]] :=
  match C16_inbound_frame TCPIPStack.empty
    [1, 0, 0, 0, 9, 0, 0, 0, 6, 0, 0, 0, 2, 0, 3, 0, 5, 0, 0, 0, 0, 0, 0, 0, 7, 8, 9] 27
    (by decide) with
  | ⟨c', h₁, h₂, _, h₄, _⟩ => ⟨c', h₁, h₂, h₄⟩

/-- C17 (undersized frames are dropped): for every stack and every frame whose
length is below `sizeof(IPHeader) + sizeof(TCPHeader)`, `process_packet` returns
the stack unchanged: no connection is created, no next-ack changes and no chunk
is queued. -/
theorem C17_undersized_frame_dropped (st : TCPIPStack) (data : List Nat) (len : Nat)
    (h : len < sizeof_IPHeader + sizeof_TCPHeader) :
    st.process_packet data len = st ∧
    (st.process_packet data len).connections = st.connections ∧
    ∀ k, (st.process_packet data len).queueOf k = st.queueOf k := by
  have : st.process_packet data len = st := by
    unfold TCPIPStack.process_packet
    rw [if_pos h]
  refine ⟨this, by rw [this], fun k => by rw [this]⟩

/-- C17 on a 23-byte frame offered to the empty stack. -/
theorem C17_undersized_frame_dropped_witness :
    TCPIPStack.empty.process_packet
      [1, 0, 0, 0, 9, 0, 0, 0, 6, 0, 0, 0, 2, 0, 3, 0, 5, 0, 0, 0, 0, 0, 0] 23 = TCPIPStack.empty :=
  (C17_undersized_frame_dropped TCPIPStack.empty
    [1, 0, 0, 0, 9, 0, 0, 0, 6, 0, 0, 0, 2, 0, 3, 0, 5, 0, 0, 0, 0, 0, 0] 23 (by decide)).1

theorem leValue_leBytes_of_lt (w x : Nat) (h : x < 256 ^ w) : leValue (leBytes w x) = x := by
  rw [leValue_leBytes]
  exact Nat.mod_eq_of_lt h

theorem leValue_leBytes_one (x : Nat) : leValue (leBytes 1 x) = x % 256 := by
  rw [leValue_leBytes]
  norm_num

theorem leValue_leBytes_two (x : Nat) : leValue (leBytes 2 x) = x % 2 ^ 16 := by
  rw [leValue_leBytes]
  norm_num

theorem leValue_leBytes_four (x : Nat) : leValue (leBytes 4 x) = x % 2 ^ 32 := by
  rw [leValue_leBytes]
  norm_num

namespace TCPIPStack

theorem get_connection_key_eq (ip port : Nat) (h : port < 2 ^ 16) :
    get_connection_key ip port = 2 ^ 16 * ip + port := by
  unfold get_connection_key
  rw [Nat.shiftLeft_eq, Nat.mul_comm, Nat.mul_add_lt_is_or h]

theorem get_connection_key_inj {ip ip' port port' : Nat} (h : port < 2 ^ 16) (h' : port' < 2 ^ 16)
    (heq : get_connection_key ip port = get_connection_key ip' port') : ip = ip' ∧ port = port' := by
  rw [get_connection_key_eq ip port h, get_connection_key_eq ip' port' h'] at heq
  omega

end TCPIPStack

namespace TCPConnection

theorem tcp_packet_length (c : TCPConnection) (data : List Nat) (len : Nat) :
    (c.create_packet data len).1.length = sizeof_TCPHeader + len := by
  simp only [create_packet, List.length_append, leBytes_length, bytesAt_length, sizeof_TCPHeader]

theorem tcp_packet_header (c : TCPConnection) (data : List Nat) (len : Nat) :
    TCPHeader.ofBytes (c.create_packet data len).1
      = ⟨c.local_port % 2 ^ 16, c.remote_port % 2 ^ 16, c.next_seq_num % 2 ^ 32,
          c.next_ack_num % 2 ^ 32⟩ := by
  have e₁ : (TCPHeader.ofBytes (c.create_packet data len).1).src_port = c.local_port % 2 ^ 16 := by
    simp only [TCPHeader.ofBytes, create_packet, List.append_assoc]
    rw [bytesAt_front _ _ 2 (leBytes_length _ _), leValue_leBytes_two]
  have e₂ : (TCPHeader.ofBytes (c.create_packet data len).1).dest_port = c.remote_port % 2 ^ 16 := by
    simp only [TCPHeader.ofBytes, create_packet, List.append_assoc]
    rw [bytesAt_skip _ _ 2 0 2 (by simp [leBytes_length]),
      bytesAt_front _ _ 2 (leBytes_length _ _), leValue_leBytes_two]
  have e₃ : (TCPHeader.ofBytes (c.create_packet data len).1).seq_num = c.next_seq_num % 2 ^ 32 := by
    simp only [TCPHeader.ofBytes, create_packet, List.append_assoc]
    rw [bytesAt_skip _ _ 4 2 4 (by simp [leBytes_length]),
      bytesAt_skip _ _ 2 0 4 (by simp [leBytes_length]),
      bytesAt_front _ _ 4 (leBytes_length _ _), leValue_leBytes_four]
  have e₄ : (TCPHeader.ofBytes (c.create_packet data len).1).ack_num = c.next_ack_num % 2 ^ 32 := by
    simp only [TCPHeader.ofBytes, create_packet, List.append_assoc]
    rw [bytesAt_skip _ _ 8 6 4 (by simp [leBytes_length]),
      bytesAt_skip _ _ 6 4 4 (by simp [leBytes_length]),
      bytesAt_skip _ _ 4 0 4 (by simp [leBytes_length]),
      bytesAt_front _ _ 4 (leBytes_length _ _), leValue_leBytes_four]
  cases hh : TCPHeader.ofBytes (c.create_packet data len).1
  simp_all

theorem tcp_packet_drop (c : TCPConnection) (data : List Nat) (len : Nat) :
    (c.create_packet data len).1.drop sizeof_TCPHeader = bytesAt data 0 len := by
  unfold create_packet
  exact List.drop_left' (by simp [leBytes_length, sizeof_TCPHeader])

end TCPConnection

namespace TCPIPStack

theorem create_packet_drop_ip (st : TCPIPStack) (dest_ip dest_port : Nat) (data : List Nat)
    (len : Nat) :
    (st.create_packet dest_ip dest_port data len).1.drop sizeof_IPHeader
      = ((st.connFor dest_ip dest_port).create_packet data len).1 := by
  rw [create_packet_eq]
  exact List.drop_left' (by simp [leBytes_length, sizeof_IPHeader])

theorem create_packet_drop_headers (st : TCPIPStack) (dest_ip dest_port : Nat) (data : List Nat)
    (len : Nat) :
    (st.create_packet dest_ip dest_port data len).1.drop (sizeof_IPHeader + sizeof_TCPHeader)
      = bytesAt data 0 len := by
  rw [← List.drop_drop, create_packet_drop_ip, TCPConnection.tcp_packet_drop]

theorem create_packet_length (st : TCPIPStack) (dest_ip dest_port : Nat) (data : List Nat)
    (len : Nat) :
    (st.create_packet dest_ip dest_port data len).1.length
      = sizeof_IPHeader + sizeof_TCPHeader + len := by
  rw [create_packet_eq]
  simp [leBytes_length, TCPConnection.tcp_packet_length, sizeof_IPHeader]
  omega

theorem create_packet_ip_header (st : TCPIPStack) (dest_ip dest_port : Nat) (data : List Nat)
    (len : Nat) :
    IPHeader.ofBytes (st.create_packet dest_ip dest_port data len).1
      = ⟨0, dest_ip % 2 ^ 32, 6⟩ := by
  rw [create_packet_eq]
  have e₁ : ∀ r : List Nat, (IPHeader.ofBytes (leBytes 4 0 ++ leBytes 4 dest_ip ++ leBytes 1 6
      ++ [0, 0, 0] ++ r)).src_ip = 0 := by
    intro r
    simp only [IPHeader.ofBytes, List.append_assoc]
    rw [bytesAt_front _ _ 4 (leBytes_length _ _), leValue_leBytes_four]
    rfl
  have e₂ : ∀ r : List Nat, (IPHeader.ofBytes (leBytes 4 0 ++ leBytes 4 dest_ip ++ leBytes 1 6
      ++ [0, 0, 0] ++ r)).dest_ip = dest_ip % 2 ^ 32 := by
    intro r
    simp only [IPHeader.ofBytes, List.append_assoc]
    rw [bytesAt_skip _ _ 4 0 4 (by simp [leBytes_length]),
      bytesAt_front _ _ 4 (leBytes_length _ _), leValue_leBytes_four]
  have e₃ : ∀ r : List Nat, (IPHeader.ofBytes (leBytes 4 0 ++ leBytes 4 dest_ip ++ leBytes 1 6
      ++ [0, 0, 0] ++ r)).protocol = 6 := by
    intro r
    simp only [IPHeader.ofBytes, List.append_assoc]
    rw [bytesAt_skip _ _ 8 4 1 (by simp [leBytes_length]),
      bytesAt_skip _ _ 4 0 1 (by simp [leBytes_length]),
      bytesAt_front _ _ 1 (leBytes_length _ _), leValue_leBytes_one]
  simp only
  cases hh : IPHeader.ofBytes (leBytes 4 0 ++ leBytes 4 dest_ip ++ leBytes 1 6 ++ [0, 0, 0] ++
    ((st.connFor dest_ip dest_port).create_packet data len).1)
  have h₁ := e₁ ((st.connFor dest_ip dest_port).create_packet data len).1
  have h₂ := e₂ ((st.connFor dest_ip dest_port).create_packet data len).1
  have h₃ := e₃ ((st.connFor dest_ip dest_port).create_packet data len).1
  simp_all

theorem create_packet_tcp_header (st : TCPIPStack) (dest_ip dest_port : Nat) (data : List Nat)
    (len : Nat) :
    TCPHeader.ofBytes ((st.create_packet dest_ip dest_port data len).1.drop sizeof_IPHeader)
      = ⟨(st.connFor dest_ip dest_port).local_port % 2 ^ 16,
          (st.connFor dest_ip dest_port).remote_port % 2 ^ 16,
          (st.connFor dest_ip dest_port).next_seq_num % 2 ^ 32,
          (st.connFor dest_ip dest_port).next_ack_num % 2 ^ 32⟩ := by
  rw [create_packet_drop_ip, TCPConnection.tcp_packet_header]

theorem connFor_create_packet (st : TCPIPStack) (dest_ip dest_port : Nat) (data : List Nat)
    (len : Nat) :
    (st.create_packet dest_ip dest_port data len).2.connFor dest_ip dest_port
      = ((st.connFor dest_ip dest_port).create_packet data len).2 := by
  rw [create_packet_eq]
  simp only [connFor]
  rw [Assoc.find_insert_self]
  rfl

theorem find_create_packet_self (st : TCPIPStack) (dest_ip dest_port : Nat) (data : List Nat)
    (len : Nat) :
    Assoc.find (get_connection_key dest_ip dest_port)
        (st.create_packet dest_ip dest_port data len).2.connections
      = some ((st.connFor dest_ip dest_port).create_packet data len).2 := by
  rw [create_packet_eq]
  exact Assoc.find_insert_self _ _ _ _

theorem find_create_packet_ne (st : TCPIPStack) (dest_ip dest_port : Nat) (data : List Nat)
    (len : Nat) {k : Nat} (hk : k ≠ get_connection_key dest_ip dest_port) :
    Assoc.find k (st.create_packet dest_ip dest_port data len).2.connections
      = Assoc.find k st.connections := by
  rw [create_packet_eq]
  exact Assoc.find_insert_ne false _ _ hk

end TCPIPStack

namespace TCPIPStack

theorem inv_empty_stack : empty.Inv := by
  refine ⟨by simp [empty, Assoc.Ordered], ?_⟩
  intro k c h
  simp [empty, Assoc.find] at h

theorem connBefore_ok {st : TCPIPStack} (hst : st.Inv) (data : List Nat) :
    frameKey data = get_connection_key (st.connBefore data).remote_ip (st.connBefore data).remote_port ∧
      (st.connBefore data).remote_ip < 2 ^ 32 ∧ (st.connBefore data).remote_port < 2 ^ 16 ∧
      (st.connBefore data).next_seq_num < 2 ^ 32 ∧ (st.connBefore data).next_ack_num < 2 ^ 32 := by
  unfold connBefore
  cases hf : Assoc.find (frameKey data) st.connections with
  | some c => exact hst.2 _ c hf
  | none =>
    have h₁ := leValue_lt (bytesAt data 0 4)
    have h₂ := leValue_lt (bytesAt (data.drop sizeof_IPHeader) 0 2)
    rw [bytesAt_length] at h₁ h₂
    refine ⟨rfl, ?_, ?_, by simp [TCPConnection.new], by simp [TCPConnection.new]⟩
    · simp only [Option.getD_none, TCPConnection.new, IPHeader.ofBytes]
      norm_num at h₁ ⊢
      exact h₁
    · simp only [Option.getD_none, TCPConnection.new, TCPHeader.ofBytes]
      norm_num at h₂ ⊢
      exact h₂

theorem connFor_ok {st : TCPIPStack} (hst : st.Inv) {dest_ip dest_port : Nat}
    (hport : dest_port < 2 ^ 16) :
    (st.connFor dest_ip dest_port).remote_ip = dest_ip ∧
      (st.connFor dest_ip dest_port).remote_port = dest_port ∧
      (st.connFor dest_ip dest_port).next_seq_num < 2 ^ 32 ∧
      (st.connFor dest_ip dest_port).next_ack_num < 2 ^ 32 := by
  unfold connFor
  cases hf : Assoc.find (get_connection_key dest_ip dest_port) st.connections with
  | some c =>
    obtain ⟨hk, _, hp, hs, ha⟩ := hst.2 _ c hf
    obtain ⟨e₁, e₂⟩ := get_connection_key_inj hport hp hk
    exact ⟨e₁.symm, e₂.symm, hs, ha⟩
  | none => simp [TCPConnection.new]

theorem inv_process_packet {st : TCPIPStack} (hst : st.Inv) (data : List Nat) (len : Nat) :
    (st.process_packet data len).Inv := by
  by_cases h : sizeof_IPHeader + sizeof_TCPHeader ≤ len
  · rw [process_packet_eq st data len h]
    refine ⟨Assoc.ordered_insert false _ _ hst.1, ?_⟩
    intro k c hf
    simp only at hf
    by_cases hk : k = frameKey data
    · subst hk
      rw [Assoc.find_insert_self] at hf
      simp only [Option.some.injEq] at hf
      subst hf
      obtain ⟨h₁, h₂, h₃, h₄, _⟩ := connBefore_ok hst data
      unfold TCPConnection.process_packet
      split_ifs
      · exact ⟨h₁, h₂, h₃, h₄, Nat.mod_lt _ (by norm_num)⟩
      · exact ⟨h₁, h₂, h₃, h₄, Nat.mod_lt _ (by norm_num)⟩
    · rw [Assoc.find_insert_ne false _ _ hk] at hf
      exact hst.2 k c hf
  · unfold process_packet
    rw [if_pos (by omega)]
    exact hst

theorem inv_create_packet {st : TCPIPStack} (hst : st.Inv) {dest_ip dest_port : Nat}
    (hip : dest_ip < 2 ^ 32) (hport : dest_port < 2 ^ 16) (data : List Nat) (len : Nat) :
    (st.create_packet dest_ip dest_port data len).2.Inv := by
  rw [create_packet_eq]
  refine ⟨Assoc.ordered_insert false _ _ hst.1, ?_⟩
  intro k c hf
  simp only at hf
  by_cases hk : k = get_connection_key dest_ip dest_port
  · subst hk
    rw [Assoc.find_insert_self] at hf
    simp only [Option.some.injEq] at hf
    subst hf
    obtain ⟨h₁, h₂, _, h₄⟩ := connFor_ok hst hport
    simp only [TCPConnection.create_packet]
    rw [h₁, h₂]
    exact ⟨rfl, hip, hport, Nat.mod_lt _ (by norm_num), h₄⟩
  · rw [Assoc.find_insert_ne false _ _ hk] at hf
    exact hst.2 k c hf

theorem firstWithData_some {st : TCPIPStack} {scan : List Nat} {k : Nat}
    (h : st.firstWithData scan = some k) :
    ∃ c chunk rest, Assoc.find k st.connections = some c ∧ c.received_data = chunk :: rest := by
  induction scan with
  | nil => simp [firstWithData] at h
  | cons k₀ t ih =>
    unfold firstWithData at h
    cases hf : Assoc.find k₀ st.connections with
    | none =>
      rw [hf] at h
      exact ih h
    | some c =>
      rw [hf] at h
      simp only at h
      split_ifs at h with hd
      · simp only [Option.some.injEq] at h
        subst h
        cases hr : c.received_data with
        | nil => simp [TCPConnection.has_data, hr] at hd
        | cons chunk rest => exact ⟨c, chunk, rest, hf, hr⟩
      · exact ih h

theorem get_next_message_none {st : TCPIPStack} {scan : List Nat}
    (h : st.firstWithData scan = none) : st.get_next_message scan = ([], st) := by
  simp [get_next_message, h]

theorem get_next_message_some {st : TCPIPStack} {scan : List Nat} {k : Nat} {c : TCPConnection}
    {chunk : List Nat} {rest : List (List Nat)} (h : st.firstWithData scan = some k)
    (hf : Assoc.find k st.connections = some c) (hr : c.received_data = chunk :: rest) :
    st.get_next_message scan
      = (chunk,
          { connections := Assoc.insert false k ({ c with received_data := rest }) st.connections }) := by
  simp [get_next_message, h, hf, TCPConnection.get_data, hr]

theorem inv_get_next_message {st : TCPIPStack} (hst : st.Inv) (scan : List Nat) :
    (st.get_next_message scan).2.Inv := by
  cases h : st.firstWithData scan with
  | none => rw [get_next_message_none h]; exact hst
  | some k =>
    obtain ⟨c, chunk, rest, hf, hr⟩ := firstWithData_some h
    rw [get_next_message_some h hf hr]
    refine ⟨Assoc.ordered_insert false _ _ hst.1, ?_⟩
    intro k' c' hf'
    simp only at hf'
    by_cases hk : k' = k
    · subst hk
      rw [Assoc.find_insert_self] at hf'
      simp only [Option.some.injEq] at hf'
      subst hf'
      exact hst.2 k' c hf
    · rw [Assoc.find_insert_ne false _ _ hk] at hf'
      exact hst.2 k' c' hf'

theorem inv_run_stack (calls : List StackCall) :
    ∀ st : TCPIPStack, st.Inv → (∀ c ∈ calls, c.InRange) → (st.run calls).Inv := by
  induction calls with
  | nil => intro st h _; exact h
  | cons c rest ih =>
    intro st hst hr
    have hc := hr c (List.mem_cons_self _ _)
    have hrest : ∀ c ∈ rest, c.InRange := fun c hc => hr c (List.mem_cons_of_mem _ hc)
    cases c with
    | process_packet data len => exact ih _ (inv_process_packet hst data len) hrest
    | create_packet dest_ip dest_port data len =>
      exact ih _ (inv_create_packet hst hc.1 hc.2 data len) hrest
    | get_next_message scan => exact ih _ (inv_get_next_message hst scan) hrest

theorem inv_of_reachable {st : TCPIPStack} (h : st.Reachable) : st.Inv := by
  obtain ⟨calls, hr, rfl⟩ := h
  exact inv_run_stack calls empty inv_empty_stack hr

end TCPIPStack

/-- C18 (outbound frame layout): for every stack reached from the empty one,
every `dest_ip : uint32_t`, `dest_port : uint16_t` and payload of `n` bytes,
`create_packet` returns a frame of exactly
`sizeof(IPHeader) + sizeof(TCPHeader) + n` bytes whose IP header has
`src_ip = 0`, `dest_ip = dest_ip`, `protocol = 6`, whose TCP header has
`dest_port = dest_port`, `seq` equal to the connection's send-sequence before
the call and `ack` equal to its next-ack, and whose remaining `n` bytes are the
payload. Afterwards the connection stored under the key has its send-sequence
advanced by `n` modulo `2^32` and is otherwise as before; every other
connection is unchanged. The connection used is the one stored under the key
of `(dest_ip, dest_port)`, or a new one for that endpoint. -/
theorem C18_outbound_frame (st : TCPIPStack) (hst : st.Reachable) (dest_ip dest_port : Nat)
    (data : List Nat) (hip : dest_ip < 2 ^ 32) (hport : dest_port < 2 ^ 16) :
    (st.create_packet dest_ip dest_port data data.length).1.length
      = sizeof_IPHeader + sizeof_TCPHeader + data.length ∧
    IPHeader.ofBytes (st.create_packet dest_ip dest_port data data.length).1 = ⟨0, dest_ip, 6⟩ ∧
    (TCPHeader.ofBytes ((st.create_packet dest_ip dest_port data data.length).1.drop
      sizeof_IPHeader)).dest_port = dest_port ∧
    (TCPHeader.ofBytes ((st.create_packet dest_ip dest_port data data.length).1.drop
      sizeof_IPHeader)).seq_num = (st.connFor dest_ip dest_port).next_seq_num ∧
    (TCPHeader.ofBytes ((st.create_packet dest_ip dest_port data data.length).1.drop
      sizeof_IPHeader)).ack_num = (st.connFor dest_ip dest_port).next_ack_num ∧
    (st.create_packet dest_ip dest_port data data.length).1.drop
      (sizeof_IPHeader + sizeof_TCPHeader) = data ∧
    Assoc.find (TCPIPStack.get_connection_key dest_ip dest_port)
        (st.create_packet dest_ip dest_port data data.length).2.connections
      = some { st.connFor dest_ip dest_port with
          next_seq_num := ((st.connFor dest_ip dest_port).next_seq_num + data.length) % 2 ^ 32 } ∧
    (∀ k, k ≠ TCPIPStack.get_connection_key dest_ip dest_port →
      Assoc.find k (st.create_packet dest_ip dest_port data data.length).2.connections
        = Assoc.find k st.connections) ∧
    (Assoc.find (TCPIPStack.get_connection_key dest_ip dest_port) st.connections = none →
      st.connFor dest_ip dest_port = TCPConnection.new dest_ip dest_port 0 0) ∧
    (∀ c, Assoc.find (TCPIPStack.get_connection_key dest_ip dest_port) st.connections = some c →
      st.connFor dest_ip dest_port = c) := by
  have hinv := TCPIPStack.inv_of_reachable hst
  obtain ⟨_, h₂, h₃, h₄⟩ := TCPIPStack.connFor_ok hinv hport
  have htcp := TCPIPStack.create_packet_tcp_header st dest_ip dest_port data data.length
  refine ⟨TCPIPStack.create_packet_length _ _ _ _ _, ?_, ?_, ?_, ?_, ?_,
    TCPIPStack.find_create_packet_self _ _ _ _ _,
    fun k hk => TCPIPStack.find_create_packet_ne _ _ _ _ _ hk, ?_, ?_⟩
  · rw [TCPIPStack.create_packet_ip_header, Nat.mod_eq_of_lt hip]
  · rw [htcp]
    simp only
    rw [h₂, Nat.mod_eq_of_lt hport]
  · rw [htcp]
    exact Nat.mod_eq_of_lt h₃
  · rw [htcp]
    exact Nat.mod_eq_of_lt h₄
  · rw [TCPIPStack.create_packet_drop_headers, bytesAt_self]
  · intro hnone
    simp [TCPIPStack.connFor, hnone]
  · intro c hc
    simp [TCPIPStack.connFor, hc]

/-- C18 on the empty stack: the frame built for 10.0.0.1:12345 with payload
`[1, 2, 3]` has 27 bytes, ends with the payload, and the new connection's
send-sequence is 3. -/
theorem C18_outbound_frame_witness :
    (TCPIPStack.empty.create_packet 0x0A000001 12345 [1, 2, 3] 3).1.length = 27 ∧
    (TCPIPStack.empty.create_packet 0x0A000001 12345 [1, 2, 3] 3).1.drop 24 = [1, 2, 3] ∧
    Assoc.find (TCPIPStack.get_connection_key 0x0A000001 12345)
        (TCPIPStack.empty.create_packet 0x0A000001 12345 [1, 2, 3] 3).2.connections
      = some ⟨0x0A000001, 12345, 0, 0, 3, 0, []⟩ :=
  have h := C18_outbound_frame TCPIPStack.empty ⟨[], by simp, rfl⟩ 0x0A000001 12345 [1, 2, 3]
    (by decide) (by decide)
  ⟨h.1, h.2.2.2.2.2.1, h.2.2.2.2.2.2.1⟩

/-- C19 fails at the wrap-around of the 32-bit sequence number: on the stack
reached from the empty one by sending `2^32 − 1` bytes to 10.0.0.1:12345, the
next frame for that endpoint, with a one-byte payload, is stamped 4294967295 and
the frame after it is stamped 0, which is neither 4294967295 + 1 nor at least
4294967295. -/
theorem C19_sequence_wrap_counterexample :
    (TCPHeader.ofBytes (((TCPIPStack.empty.create_packet 0x0A000001 12345
        (List.replicate 4294967295 0) 4294967295).2.create_packet 0x0A000001 12345 [7] 1).1.drop
      sizeof_IPHeader)).seq_num = 4294967295 ∧
    (TCPHeader.ofBytes ((((TCPIPStack.empty.create_packet 0x0A000001 12345
        (List.replicate 4294967295 0) 4294967295).2.create_packet 0x0A000001 12345 [7] 1).2.create_packet
      0x0A000001 12345 [7] 1).1.drop sizeof_IPHeader)).seq_num = 0 := by
  have h₀ : TCPIPStack.empty.connFor 0x0A000001 12345 = TCPConnection.new 0x0A000001 12345 0 0 := rfl
  constructor
  · rw [TCPIPStack.create_packet_tcp_header, TCPIPStack.connFor_create_packet, h₀]
    simp only [TCPConnection.create_packet, TCPConnection.new]
    norm_num
  · rw [TCPIPStack.create_packet_tcp_header, TCPIPStack.connFor_create_packet,
      TCPIPStack.connFor_create_packet, h₀]
    simp only [TCPConnection.create_packet, TCPConnection.new]
    norm_num

/-- C19 as amended (shared connection with advancing sequence): for every stack
reached from the empty one and two successive `create_packet` calls for the
same `(dest_ip, dest_port)` with payloads of `a` and `b` bytes, the second call
finds the connection the first one used and creates none (the map has the same
keys after it), and the sequence number stamped into the second frame is the
sequence number of the first frame plus `a`, modulo `2^32`; it is that sum, and
not smaller than the first, whenever the sum stays below `2^32`. -/
theorem C19_shared_connection (st : TCPIPStack) (hst : st.Reachable) (dest_ip dest_port : Nat)
    (data₁ data₂ : List Nat) (hip : dest_ip < 2 ^ 32) (hport : dest_port < 2 ^ 16) :
    Assoc.find (TCPIPStack.get_connection_key dest_ip dest_port)
        (st.create_packet dest_ip dest_port data₁ data₁.length).2.connections
      = some ((st.create_packet dest_ip dest_port data₁ data₁.length).2.connFor dest_ip dest_port) ∧
    (((st.create_packet dest_ip dest_port data₁ data₁.length).2.create_packet dest_ip dest_port
        data₂ data₂.length).2.connections).map Prod.fst
      = ((st.create_packet dest_ip dest_port data₁ data₁.length).2.connections).map Prod.fst ∧
    (TCPHeader.ofBytes (((st.create_packet dest_ip dest_port data₁ data₁.length).2.create_packet
        dest_ip dest_port data₂ data₂.length).1.drop sizeof_IPHeader)).seq_num
      = ((TCPHeader.ofBytes ((st.create_packet dest_ip dest_port data₁ data₁.length).1.drop
          sizeof_IPHeader)).seq_num + data₁.length) % 2 ^ 32 ∧
    ((TCPHeader.ofBytes ((st.create_packet dest_ip dest_port data₁ data₁.length).1.drop
        sizeof_IPHeader)).seq_num + data₁.length < 2 ^ 32 →
      (TCPHeader.ofBytes (((st.create_packet dest_ip dest_port data₁ data₁.length).2.create_packet
          dest_ip dest_port data₂ data₂.length).1.drop sizeof_IPHeader)).seq_num
        = (TCPHeader.ofBytes ((st.create_packet dest_ip dest_port data₁ data₁.length).1.drop
            sizeof_IPHeader)).seq_num + data₁.length ∧
      (TCPHeader.ofBytes ((st.create_packet dest_ip dest_port data₁ data₁.length).1.drop
          sizeof_IPHeader)).seq_num
        ≤ (TCPHeader.ofBytes (((st.create_packet dest_ip dest_port data₁ data₁.length).2.create_packet
          dest_ip dest_port data₂ data₂.length).1.drop sizeof_IPHeader)).seq_num) := by
  have hinv := TCPIPStack.inv_of_reachable hst
  have hinv₁ := TCPIPStack.inv_create_packet hinv hip hport data₁ data₁.length
  have hfind := TCPIPStack.find_create_packet_self st dest_ip dest_port data₁ data₁.length
  have hconn := TCPIPStack.connFor_create_packet st dest_ip dest_port data₁ data₁.length
  have hseq : (TCPHeader.ofBytes (((st.create_packet dest_ip dest_port data₁ data₁.length).2.create_packet
        dest_ip dest_port data₂ data₂.length).1.drop sizeof_IPHeader)).seq_num
      = ((TCPHeader.ofBytes ((st.create_packet dest_ip dest_port data₁ data₁.length).1.drop
          sizeof_IPHeader)).seq_num + data₁.length) % 2 ^ 32 := by
    rw [TCPIPStack.create_packet_tcp_header, TCPIPStack.create_packet_tcp_header, hconn]
    simp only [TCPConnection.create_packet]
    rw [Nat.mod_mod, Nat.mod_add_mod]
  refine ⟨by rw [hconn]; exact hfind, ?_, hseq, ?_⟩
  · rw [TCPIPStack.create_packet_eq
      (st.create_packet dest_ip dest_port data₁ data₁.length).2 dest_ip dest_port data₂ data₂.length]
    exact Assoc.keys_insert_of_find false _ hinv₁.1 hfind
  · intro hlt
    rw [hseq, Nat.mod_eq_of_lt hlt]
    exact ⟨rfl, Nat.le_add_right _ _⟩

/-- C19 on the empty stack: payloads of 3 and 2 bytes to 10.0.0.1:12345 are
stamped 0 and 3, and the second call leaves the single connection in place. -/
theorem C19_shared_connection_witness :
    (TCPHeader.ofBytes (((TCPIPStack.empty.create_packet 0x0A000001 12345 [1, 2, 3] 3).2.create_packet
        0x0A000001 12345 [4, 5] 2).1.drop sizeof_IPHeader)).seq_num
      = ((TCPHeader.ofBytes ((TCPIPStack.empty.create_packet 0x0A000001 12345 [1, 2, 3] 3).1.drop
          sizeof_IPHeader)).seq_num + 3) % 2 ^ 32 ∧
    (TCPHeader.ofBytes (((TCPIPStack.empty.create_packet 0x0A000001 12345 [1, 2, 3] 3).2.create_packet
        0x0A000001 12345 [4, 5] 2).1.drop sizeof_IPHeader)).seq_num = 3 :=
  ⟨(C19_shared_connection TCPIPStack.empty ⟨[], by simp, rfl⟩ 0x0A000001 12345 [1, 2, 3] [4, 5]
    (by decide) (by decide)).2.2.1, by decide⟩

namespace TCPIPStack

theorem queueOf_process_packet (st : TCPIPStack) (data : List Nat) (len : Nat) (k : Nat) :
    (st.process_packet data len).queueOf k
      = st.queueOf k ++
        (match queuedChunk data len with
          | some (k', chunk) => if k' = k then [chunk] else []
          | none => []) := by
  by_cases h : sizeof_IPHeader + sizeof_TCPHeader ≤ len
  · rw [process_packet_eq st data len h]
    unfold queuedChunk
    rw [if_neg (by omega)]
    by_cases hk : k = frameKey data
    · subst hk
      simp only [queueOf, Assoc.find_insert_self]
      unfold TCPConnection.process_packet connBefore framePayload
      cases hf : Assoc.find (frameKey data) st.connections <;>
        split_ifs <;> simp [TCPConnection.new]
    · simp only [queueOf, Assoc.find_insert_ne false _ _ hk]
      split_ifs
      · simp [Ne.symm hk]
      · simp
  · unfold process_packet queuedChunk
    rw [if_pos (by omega), if_pos (by omega)]
    simp

theorem queueOf_create_packet (st : TCPIPStack) (dest_ip dest_port : Nat) (data : List Nat)
    (len : Nat) (k : Nat) :
    (st.create_packet dest_ip dest_port data len).2.queueOf k = st.queueOf k := by
  rw [create_packet_eq]
  by_cases hk : k = get_connection_key dest_ip dest_port
  · subst hk
    simp only [queueOf, Assoc.find_insert_self]
    unfold connFor TCPConnection.create_packet
    cases hf : Assoc.find (get_connection_key dest_ip dest_port) st.connections <;>
      simp [TCPConnection.new]
  · simp only [queueOf, Assoc.find_insert_ne false _ _ hk]

theorem queueOf_get_next_message (st : TCPIPStack) (scan : List Nat) (k : Nat) :
    st.queueOf k
      = (if st.firstWithData scan = some k then [(st.get_next_message scan).1] else [])
        ++ (st.get_next_message scan).2.queueOf k := by
  cases h : st.firstWithData scan with
  | none =>
    rw [get_next_message_none h]
    simp
  | some k₀ =>
    obtain ⟨c, chunk, rest, hf, hr⟩ := firstWithData_some h
    rw [get_next_message_some h hf hr]
    by_cases hk : k = k₀
    · subst hk
      simp [queueOf, Assoc.find_insert_self, hf, hr]
    · have hne : ¬ k₀ = k := fun e => hk e.symm
      simp [queueOf, Assoc.find_insert_ne false _ _ hk, hne]

theorem queuedFor_cons_process (k : Nat) (data : List Nat) (len : Nat) (rest : List StackCall) :
    queuedFor k (StackCall.process_packet data len :: rest)
      = (match queuedChunk data len with
          | some (k', chunk) => if k' = k then [chunk] else []
          | none => []) ++ queuedFor k rest := by
  rw [queuedFor]
  cases queuedChunk data len with
  | none => rfl
  | some kc =>
    obtain ⟨k', chunk⟩ := kc
    simp only
    split_ifs <;> rfl

theorem queuedFor_cons_create (k dest_ip dest_port : Nat) (data : List Nat) (len : Nat)
    (rest : List StackCall) :
    queuedFor k (StackCall.create_packet dest_ip dest_port data len :: rest) = queuedFor k rest := by
  simp [queuedFor]

theorem queuedFor_cons_next (k : Nat) (scan : List Nat) (rest : List StackCall) :
    queuedFor k (StackCall.get_next_message scan :: rest) = queuedFor k rest := by
  simp [queuedFor]

theorem returnedFrom_cons_process (k : Nat) (st : TCPIPStack) (data : List Nat) (len : Nat)
    (rest : List StackCall) :
    returnedFrom k st (StackCall.process_packet data len :: rest)
      = returnedFrom k (st.process_packet data len) rest := by
  simp [returnedFrom, step]

theorem returnedFrom_cons_create (k : Nat) (st : TCPIPStack) (dest_ip dest_port : Nat)
    (data : List Nat) (len : Nat) (rest : List StackCall) :
    returnedFrom k st (StackCall.create_packet dest_ip dest_port data len :: rest)
      = returnedFrom k (st.create_packet dest_ip dest_port data len).2 rest := by
  simp [returnedFrom, step]

theorem returnedFrom_cons_next (k : Nat) (st : TCPIPStack) (scan : List Nat)
    (rest : List StackCall) :
    returnedFrom k st (StackCall.get_next_message scan :: rest)
      = (if st.firstWithData scan = some k then [(st.get_next_message scan).1] else [])
        ++ returnedFrom k (st.get_next_message scan).2 rest := by
  rw [returnedFrom]
  split_ifs <;> rfl

theorem queued_eq_returned (k : Nat) (calls : List StackCall) :
    ∀ st : TCPIPStack,
      st.queueOf k ++ queuedFor k calls = returnedFrom k st calls ++ (st.run calls).queueOf k := by
  induction calls with
  | nil =>
    intro st
    simp [queuedFor, returnedFrom, run]
  | cons c rest ih =>
    intro st
    cases c with
    | process_packet data len =>
      have hstep := queueOf_process_packet st data len k
      have hrest := ih (st.process_packet data len)
      rw [queuedFor_cons_process, ← List.append_assoc, ← hstep, hrest, returnedFrom_cons_process]
      rfl
    | create_packet dest_ip dest_port data len =>
      have hstep := queueOf_create_packet st dest_ip dest_port data len k
      have hrest := ih (st.create_packet dest_ip dest_port data len).2
      rw [hstep] at hrest
      rw [queuedFor_cons_create, hrest, returnedFrom_cons_create]
      rfl
    | get_next_message scan =>
      have hstep := queueOf_get_next_message st scan k
      have hrest := ih (st.get_next_message scan).2
      rw [queuedFor_cons_next, hstep, List.append_assoc, hrest, returnedFrom_cons_next,
        List.append_assoc]
      rfl

end TCPIPStack

/-- C20 (per-connection arrival order): for every sequence of `process_packet`,
`get_next_message` and `create_packet` calls made on the empty stack, whatever
the order in which each `get_next_message` visits the connections, and for
every connection key `k`: the payloads queued for `k`, in the order in which
their frames were processed, are exactly the chunks that `get_next_message`
returned from `k`, in the order of return, followed by the chunks still queued
in `k`. So the returned chunks are an initial part of the queued payloads: in
arrival order, each once, byte for byte. A call that finds no connection with
data returns the empty chunk and changes nothing. -/
theorem C20_arrival_order (calls : List StackCall) (k : Nat) :
    TCPIPStack.queuedFor k calls
      = TCPIPStack.returnedFrom k TCPIPStack.empty calls
        ++ (TCPIPStack.run TCPIPStack.empty calls).queueOf k ∧
    TCPIPStack.returnedFrom k TCPIPStack.empty calls <+: TCPIPStack.queuedFor k calls ∧
    (∀ (st : TCPIPStack) (scan : List Nat), st.firstWithData scan = none →
      st.get_next_message scan = ([], st)) ∧
    (∀ (st : TCPIPStack) (scan : List Nat) (k' : Nat), st.firstWithData scan = some k' →
      ∃ rest, st.queueOf k' = (st.get_next_message scan).1 :: rest ∧
        (st.get_next_message scan).2.queueOf k' = rest) := by
  have h := TCPIPStack.queued_eq_returned k calls TCPIPStack.empty
  have h₀ : TCPIPStack.empty.queueOf k = [] := rfl
  rw [h₀, List.nil_append] at h
  refine ⟨h, ⟨_, h.symm⟩, fun st scan hn => TCPIPStack.get_next_message_none hn, ?_⟩
  intro st scan k' hs
  have := TCPIPStack.queueOf_get_next_message st scan k'
  rw [if_pos hs] at this
  exact ⟨_, this, rfl⟩

/-! ## Pipeline orchestrator -/

namespace MarketDataHandler

theorem last_order_id_handleMessage (h : MarketDataHandler) (msg : MarketDataMessage) (now : Nat) :
    (h.handleMessage msg now).last_order_id = h.last_order_id := rfl

theorem drainLoop_succ (force_quit : Bool) (env : Nat → Ambient) (fuel i : Nat)
    (h : MarketDataHandler) :
    drainLoop force_quit env (fuel + 1) i h =
      if force_quit then h
      else if (h.tcp_stack.get_next_message ((env i).scan h.tcp_stack)).1.isEmpty then
        { h with tcp_stack := (h.tcp_stack.get_next_message ((env i).scan h.tcp_stack)).2 }
      else
        drainLoop force_quit env fuel (i + 1)
          (({ h with tcp_stack := (h.tcp_stack.get_next_message ((env i).scan h.tcp_stack)).2 } :
            MarketDataHandler).handleMessage
            (chunkMessage (env i) (h.tcp_stack.get_next_message ((env i).scan h.tcp_stack)).1)
            (env i).now_handle) := by
  rw [drainLoop]

theorem last_order_id_drainLoop (force_quit : Bool) (env : Nat → Ambient) (fuel : Nat) :
    ∀ (i : Nat) (h : MarketDataHandler),
      (drainLoop force_quit env fuel i h).last_order_id = h.last_order_id := by
  induction fuel with
  | zero => intro i h; rfl
  | succ n ih =>
    intro i h
    rw [drainLoop_succ]
    split_ifs
    · rfl
    · rfl
    · rw [ih]
      rfl

theorem last_order_id_submit_order (h : MarketDataHandler) (order : Order) (pad : List Nat)
    (force_quit : Bool) (env : Nat → Ambient) :
    (h.submit_order order pad force_quit env).last_order_id = h.last_order_id := by
  unfold submit_order process_network_packet
  rw [last_order_id_drainLoop]

end MarketDataHandler


namespace LockFreeRingBuffer

theorem Reachable.buffer_length {T : Type} {Size : Nat} {q : LockFreeRingBuffer T Size}
    (hq : Reachable q) : q.buffer.length = Size := by
  induction hq with
  | fresh slots h => exact h
  | push q item _ ih =>
    unfold LockFreeRingBuffer.push
    simp only
    split
    · exact ih
    · simpa using ih
  | pop q item _ ih =>
    unfold LockFreeRingBuffer.pop
    simp only
    split
    · exact ih
    · exact ih

theorem holds_nil_of_reachable {T : Type} {Size : Nat} (hSize : 0 < Size)
    {q : LockFreeRingBuffer T Size} (hq : Reachable q) (he : q.head = q.tail) : Holds q [] := by
  obtain ⟨hh, ht⟩ := Reachable.bounds hSize hq
  refine ⟨Reachable.buffer_length hq, hh, ht, by simpa using hSize, ?_, ?_⟩
  · simp only [List.length_nil, Nat.add_zero]
    rw [Nat.mod_eq_of_lt hh]
    exact he
  · intro i hi
    simp at hi

theorem Holds.head_eq_tail {T : Type} {Size : Nat} {q : LockFreeRingBuffer T Size}
    (h : Holds q []) : q.head = q.tail := by
  obtain ⟨_, hh, _, _, htail, _⟩ := h
  rw [← htail]
  simp [Nat.mod_eq_of_lt hh]

end LockFreeRingBuffer

namespace TCPIPStack

theorem find_some_of_queueOf {st : TCPIPStack} {k : Nat} (h : st.queueOf k ≠ []) :
    ∃ c, Assoc.find k st.connections = some c ∧ c.received_data = st.queueOf k := by
  unfold queueOf at h ⊢
  cases hf : Assoc.find k st.connections with
  | none => simp [hf] at h
  | some c => exact ⟨c, rfl, rfl⟩

theorem firstWithData_none_of_empty {st : TCPIPStack} (h : ∀ k, st.queueOf k = [])
    (scan : List Nat) : st.firstWithData scan = none := by
  induction scan with
  | nil => rfl
  | cons k t ih =>
    unfold firstWithData
    cases hf : Assoc.find k st.connections with
    | none => exact ih
    | some c =>
      have hk := h k
      simp only [queueOf, hf] at hk
      simp only [TCPConnection.has_data, hk, List.isEmpty_nil, Bool.not_true, Bool.false_eq_true,
        if_false]
      exact ih

theorem firstWithData_only {st : TCPIPStack} {key : Nat} (hothers : ∀ k, k ≠ key → st.queueOf k = [])
    (hkey : st.queueOf key ≠ []) {scan : List Nat} (hmem : key ∈ scan) :
    st.firstWithData scan = some key := by
  induction scan with
  | nil => simp at hmem
  | cons k t ih =>
    obtain ⟨c, hc, hrc⟩ := find_some_of_queueOf hkey
    unfold firstWithData
    by_cases hk : k = key
    · subst hk
      rw [hc]
      have : c.has_data = true := by
        unfold TCPConnection.has_data
        rw [hrc]
        cases hq : st.queueOf k with
        | nil => exact absurd hq hkey
        | cons x l => rfl
      simp [this]
    · have hmem' : key ∈ t := by
        rcases List.mem_cons.mp hmem with h | h
        · exact absurd h.symm hk
        · exact h
      cases hf : Assoc.find k st.connections with
      | none => exact ih hmem'
      | some c' =>
        have hq := hothers k hk
        simp only [queueOf, hf] at hq
        simp only [TCPConnection.has_data, hq, List.isEmpty_nil, Bool.not_true, Bool.false_eq_true,
          if_false]
        exact ih hmem'

theorem length_le_totalQueued {st : TCPIPStack} {k : Nat} {c : TCPConnection}
    (h : Assoc.find k st.connections = some c) : c.received_data.length ≤ st.totalQueued := by
  unfold totalQueued
  have hmem := Assoc.mem_of_find h
  generalize st.connections = m at hmem
  induction m with
  | nil => simp at hmem
  | cons e t ih =>
    simp only [List.map_cons, List.sum_cons]
    rcases List.mem_cons.mp hmem with heq | hin
    · rw [← heq]
      exact Nat.le_add_right _ _
    · exact Nat.le_trans (ih hin) (Nat.le_add_left _ _)

end TCPIPStack

namespace TCPIPStack

theorem loopback_queues (st : TCPIPStack) (hno : ∀ k, st.queueOf k = []) (dest_ip dest_port : Nat)
    (bytes : List Nat) (hpos : 0 < bytes.length) :
    (∀ k, k ≠ frameKey (st.create_packet dest_ip dest_port bytes bytes.length).1 →
      ((st.create_packet dest_ip dest_port bytes bytes.length).2.process_packet
        (st.create_packet dest_ip dest_port bytes bytes.length).1
        (st.create_packet dest_ip dest_port bytes bytes.length).1.length).queueOf k = []) ∧
    ((st.create_packet dest_ip dest_port bytes bytes.length).2.process_packet
      (st.create_packet dest_ip dest_port bytes bytes.length).1
      (st.create_packet dest_ip dest_port bytes bytes.length).1.length).queueOf
        (frameKey (st.create_packet dest_ip dest_port bytes bytes.length).1) = [bytes] := by
  have hlen := create_packet_length st dest_ip dest_port bytes bytes.length
  have hpay : framePayload (st.create_packet dest_ip dest_port bytes bytes.length).1
      (st.create_packet dest_ip dest_port bytes bytes.length).1.length = bytes := by
    unfold framePayload
    rw [create_packet_drop_headers, hlen, bytesAt_self]
    have : sizeof_IPHeader + sizeof_TCPHeader + bytes.length - sizeof_IPHeader - sizeof_TCPHeader
        = bytes.length := by omega
    rw [this, bytesAt_self]
  have hq : queuedChunk (st.create_packet dest_ip dest_port bytes bytes.length).1
      (st.create_packet dest_ip dest_port bytes bytes.length).1.length
      = some (frameKey (st.create_packet dest_ip dest_port bytes bytes.length).1, bytes) := by
    unfold queuedChunk
    rw [if_neg (by omega), if_pos (by omega), hpay]
  have hstep := fun k => queueOf_process_packet
    (st.create_packet dest_ip dest_port bytes bytes.length).2
    (st.create_packet dest_ip dest_port bytes bytes.length).1
    (st.create_packet dest_ip dest_port bytes bytes.length).1.length k
  constructor
  · intro k hk
    rw [hstep k, hq, queueOf_create_packet, hno k]
    simp [Ne.symm hk]
  · rw [hstep, hq, queueOf_create_packet, hno]
    simp

end TCPIPStack

namespace MarketDataHandler

theorem chunkMessage_serialize (a : Ambient) (o : Order) (pad : List Nat) (ho : o.InRange) :
    (chunkMessage a (OrderProtocol.serialize_order o pad)).order_id = o.order_id ∧
    (chunkMessage a (OrderProtocol.serialize_order o pad)).price = o.price ∧
    (chunkMessage a (OrderProtocol.serialize_order o pad)).quantity = o.quantity ∧
    decide ((chunkMessage a (OrderProtocol.serialize_order o pad)).symbol.getD 0 0 = 66)
      = o.is_buy := by
  have hrt : OrderProtocol.deserialize_order a.uninit_order (OrderProtocol.serialize_order o pad)
      (OrderProtocol.serialize_order o pad).length = o := by
    have hlen : (OrderProtocol.serialize_order o pad).length = sizeof_Order :=
      Order.objectBytes_length o pad
    rw [hlen]
    simp only [OrderProtocol.deserialize_order, ge_iff_le, le_refl, if_true]
    exact Order.ofBytes_objectBytes o pad ho
  unfold chunkMessage
  simp only [hrt]
  refine ⟨trivial, trivial, trivial, ?_⟩
  cases o.is_buy <;> simp

theorem submit_order_eq (h : MarketDataHandler) (hno : ∀ k, h.tcp_stack.queueOf k = [])
    (o : Order) (pad : List Nat) (env : Nat → Ambient)
    (hscan : ∀ (st : TCPIPStack) (k : Nat) (c : TCPConnection),
      Assoc.find k st.connections = some c → k ∈ (env 0).scan st) :
    ∃ st₃ : TCPIPStack, (∀ k, st₃.queueOf k = []) ∧
      h.submit_order o pad false env
        = ({ h with tcp_stack := st₃ } : MarketDataHandler).handleMessage
            (chunkMessage (env 0) (OrderProtocol.serialize_order o pad)) (env 0).now_handle := by
  have hblen : (OrderProtocol.serialize_order o pad).length = sizeof_Order :=
    Order.objectBytes_length o pad
  have hpos : 0 < (OrderProtocol.serialize_order o pad).length := by
    rw [hblen]
    decide
  obtain ⟨hothers, hkey⟩ := TCPIPStack.loopback_queues h.tcp_stack hno 0x0A000001 12345
    (OrderProtocol.serialize_order o pad) hpos
  unfold submit_order process_network_packet
  simp only
  generalize hst₂ : (h.tcp_stack.create_packet 0x0A000001 12345 (OrderProtocol.serialize_order o pad)
      (OrderProtocol.serialize_order o pad).length).2.process_packet
      (h.tcp_stack.create_packet 0x0A000001 12345 (OrderProtocol.serialize_order o pad)
        (OrderProtocol.serialize_order o pad).length).1
      (h.tcp_stack.create_packet 0x0A000001 12345 (OrderProtocol.serialize_order o pad)
        (OrderProtocol.serialize_order o pad).length).1.length = st₂ at hothers hkey ⊢
  generalize TCPIPStack.frameKey (h.tcp_stack.create_packet 0x0A000001 12345
      (OrderProtocol.serialize_order o pad) (OrderProtocol.serialize_order o pad).length).1 = key
    at hothers hkey
  have hne : st₂.queueOf key ≠ [] := by rw [hkey]; simp
  obtain ⟨c, hc, hrc⟩ := TCPIPStack.find_some_of_queueOf hne
  have hfirst : st₂.firstWithData ((env 0).scan st₂) = some key :=
    TCPIPStack.firstWithData_only hothers hne (hscan st₂ key c hc)
  have hq := fun k => TCPIPStack.queueOf_get_next_message st₂ ((env 0).scan st₂) k
  have hret : (st₂.get_next_message ((env 0).scan st₂)).1 = OrderProtocol.serialize_order o pad
      ∧ (st₂.get_next_message ((env 0).scan st₂)).2.queueOf key = [] := by
    have := hq key
    rw [if_pos hfirst, hkey] at this
    simp only [List.singleton_append, List.cons.injEq] at this
    exact ⟨this.1.symm, this.2.symm⟩
  have hrest : ∀ k, (st₂.get_next_message ((env 0).scan st₂)).2.queueOf k = [] := by
    intro k
    by_cases hk : k = key
    · rw [hk]
      exact hret.2
    · have := hq k
      have hne' : ¬ st₂.firstWithData ((env 0).scan st₂) = some k := by
        rw [hfirst]
        intro e
        exact hk (Option.some.inj e).symm
      rw [hothers k hk, if_neg hne'] at this
      simpa using this.symm
  have htotal : 1 ≤ st₂.totalQueued := by
    have := TCPIPStack.length_le_totalQueued hc
    rw [hrc, hkey] at this
    simpa using this
  obtain ⟨n, hn⟩ : ∃ n, st₂.totalQueued + 1 = n + 2 := ⟨st₂.totalQueued - 1, by omega⟩
  refine ⟨(st₂.get_next_message ((env 0).scan st₂)).2, hrest, ?_⟩
  rw [hn, drainLoop_succ]
  simp only [Bool.false_eq_true, if_false]
  rw [hret.1]
  have hnotempty : (OrderProtocol.serialize_order o pad).isEmpty = false := by
    cases hb : OrderProtocol.serialize_order o pad with
    | nil => rw [hb] at hpos; simp at hpos
    | cons x l => rfl
  rw [hnotempty]
  simp only [Bool.false_eq_true, if_false]
  rw [drainLoop_succ]
  simp only [Bool.false_eq_true, if_false]
  have hnone := TCPIPStack.firstWithData_none_of_empty hrest
    ((env (0 + 1)).scan (st₂.get_next_message ((env 0).scan st₂)).2)
  have hgn := TCPIPStack.get_next_message_none hnone
  simp only [handleMessage] at hgn ⊢
  rw [hgn]
  simp

end MarketDataHandler

namespace MarketDataHandler

theorem processLoop_succ (force_quit : Bool) (durations : Nat → Nat) (fuel i : Nat)
    (h : MarketDataHandler) (msg : MarketDataMessage) :
    processLoop force_quit durations (fuel + 1) i h msg =
      if force_quit then h
      else if (h.message_queue.pop msg).1 then
        processLoop force_quit durations fuel (i + 1)
          { h with
            message_queue := (h.message_queue.pop msg).2.2
            order_book := h.order_book.addOrder (h.message_queue.pop msg).2.1.order_id
              (h.message_queue.pop msg).2.1.price (h.message_queue.pop msg).2.1.quantity
              (decide ((h.message_queue.pop msg).2.1.symbol.getD 0 0 = 66))
            latencies := h.latencies ++ [durations i]
            processed_messages := (h.processed_messages + 1) % 2 ^ 64 }
          (h.message_queue.pop msg).2.1
      else { h with message_queue := (h.message_queue.pop msg).2.2 } := by
  rw [processLoop]

theorem processMessages_one (h : MarketDataHandler) (msg uninit_msg : MarketDataMessage)
    (durations : Nat → Nat) (hq : LockFreeRingBuffer.Holds h.message_queue [msg]) :
    LockFreeRingBuffer.Holds (h.processMessages false uninit_msg durations).message_queue [] ∧
    (h.processMessages false uninit_msg durations).processed_messages
      = (h.processed_messages + 1) % 2 ^ 64 ∧
    (h.processMessages false uninit_msg durations).order_book
      = h.order_book.addOrder msg.order_id msg.price msg.quantity
          (decide (msg.symbol.getD 0 0 = 66)) ∧
    (h.processMessages false uninit_msg durations).latencies = h.latencies ++ [durations 0] ∧
    (h.processMessages false uninit_msg durations).tcp_stack = h.tcp_stack := by
  obtain ⟨h₁, h₂, h₃⟩ := hq.pop_ok uninit_msg
  have h₄ := h₃.pop_empty msg
  unfold processMessages
  rw [processLoop_succ]
  simp only [Bool.false_eq_true, if_false, h₁, if_true, h₂]
  rw [processLoop_succ]
  simp only [Bool.false_eq_true, if_false, h₄]
  exact ⟨h₃, trivial, trivial, trivial, trivial⟩

end MarketDataHandler

/-- C14 (end-to-end submit path): for every `Order` in the range of its field
types and every handler whose message queue is empty, whose reassembly layer
has no queued chunk and whose processed counter is below its maximum, with the
shutdown flag clear and `get_next_message` visiting every connection:
`submit_order(o)` followed by `processMessages()` raises the processed counter
by exactly 1, leaves the queue empty, and leaves the order book equal to the
previous book after `addOrder(o.order_id, o.price, o.quantity, o.is_buy)`. -/
theorem C14_submit_then_process (h : MarketDataHandler) (o : Order) (pad : List Nat)
    (env : Nat → Ambient) (uninit_msg : MarketDataMessage) (durations : Nat → Nat)
    (ho : o.InRange)
    (hq : LockFreeRingBuffer.Reachable h.message_queue)
    (hempty : h.message_queue.head = h.message_queue.tail)
    (hno : ∀ k, h.tcp_stack.queueOf k = [])
    (hscan : ∀ (i : Nat) (st : TCPIPStack) (k : Nat) (c : TCPConnection),
      Assoc.find k st.connections = some c → k ∈ (env i).scan st)
    (hcount : h.processed_messages + 1 < 2 ^ 64) :
    ((h.submit_order o pad false env).processMessages false uninit_msg durations).processed_messages
      = h.processed_messages + 1 ∧
    ((h.submit_order o pad false env).processMessages false uninit_msg durations).message_queue.head
      = ((h.submit_order o pad false env).processMessages false uninit_msg
          durations).message_queue.tail ∧
    ((h.submit_order o pad false env).processMessages false uninit_msg
      durations).message_queue.occupancy = 0 ∧
    ((h.submit_order o pad false env).processMessages false uninit_msg durations).order_book
      = h.order_book.addOrder o.order_id o.price o.quantity o.is_buy := by
  obtain ⟨st₃, _, hsub⟩ := MarketDataHandler.submit_order_eq h hno o pad env (hscan 0)
  have hholds := LockFreeRingBuffer.holds_nil_of_reachable (by decide) hq hempty
  obtain ⟨_, hpush⟩ := hholds.push_ok
    (MarketDataHandler.chunkMessage (env 0) (OrderProtocol.serialize_order o pad)) (by decide)
  have hqueue : LockFreeRingBuffer.Holds (h.submit_order o pad false env).message_queue
      [MarketDataHandler.chunkMessage (env 0) (OrderProtocol.serialize_order o pad)] := by
    rw [hsub]
    exact hpush
  obtain ⟨r₁, r₂, r₃, _, _⟩ := MarketDataHandler.processMessages_one
    (h.submit_order o pad false env) _ uninit_msg durations hqueue
  obtain ⟨m₁, m₂, m₃, m₄⟩ := MarketDataHandler.chunkMessage_serialize (env 0) o pad ho
  have hbook : (h.submit_order o pad false env).order_book = h.order_book := by rw [hsub]; rfl
  have hproc : (h.submit_order o pad false env).processed_messages = h.processed_messages := by
    rw [hsub]; rfl
  have hhead := r₁.head_eq_tail
  refine ⟨?_, hhead, ?_, ?_⟩
  · rw [r₂, hproc]
    exact Nat.mod_eq_of_lt hcount
  · rw [LockFreeRingBuffer.occupancy_eq _ r₁.2.1 r₁.2.2.1, hhead]
    simp
  · rw [r₃, hbook, m₁, m₂, m₃, m₄]

/-- C14 on a fresh handler: submitting `{id = 1, price = 150, qty = 20, buy}` and
then processing gives a processed count of 1 and `getBestBid() == 150`. -/
theorem C14_submit_then_process_witness :
    (((MarketDataHandler.fresh (List.replicate 1024 ⟨0, 0, 0, [], 0, 0, 0⟩)).submit_order
        ⟨1, 150, 20, true⟩ [] false
        (fun _ => ⟨fun st => st.connections.map Prod.fst, ⟨0, 0, 0, false⟩,
          ⟨0, 0, 0, [], 0, 0, 0⟩, 0, 0⟩)).processMessages false ⟨0, 0, 0, [], 0, 0, 0⟩
        (fun _ => 0)).processed_messages = 1 ∧
    (((MarketDataHandler.fresh (List.replicate 1024 ⟨0, 0, 0, [], 0, 0, 0⟩)).submit_order
        ⟨1, 150, 20, true⟩ [] false
        (fun _ => ⟨fun st => st.connections.map Prod.fst, ⟨0, 0, 0, false⟩,
          ⟨0, 0, 0, [], 0, 0, 0⟩, 0, 0⟩)).processMessages false ⟨0, 0, 0, [], 0, 0, 0⟩
        (fun _ => 0)).order_book.getBestBid = 150 :=
  have h := C14_submit_then_process
    (MarketDataHandler.fresh (List.replicate 1024 ⟨0, 0, 0, [], 0, 0, 0⟩)) ⟨1, 150, 20, true⟩ []
    (fun _ => ⟨fun st => st.connections.map Prod.fst, ⟨0, 0, 0, false⟩,
      ⟨0, 0, 0, [], 0, 0, 0⟩, 0, 0⟩) ⟨0, 0, 0, [], 0, 0, 0⟩ (fun _ => 0) (by decide)
    (LockFreeRingBuffer.Reachable.fresh _ (List.length_replicate 1024 _)) rfl (fun _ => rfl)
    (fun _ _ _ _ hc => List.mem_map_of_mem Prod.fst (Assoc.mem_of_find hc)) (by decide)
  ⟨h.1, h.2.2.2 ▸ rfl⟩

namespace LockFreeRingBuffer

theorem pop_buffer {T : Type} {Size : Nat} (q : LockFreeRingBuffer T Size) (item : T) :
    (q.pop item).2.2.buffer = q.buffer ∧ (q.pop item).2.2.tail = q.tail := by
  unfold pop
  simp only
  split <;> exact ⟨rfl, rfl⟩

theorem Reachable.holds {T : Type} {Size : Nat} (hSize : 2 ≤ Size)
    {q : LockFreeRingBuffer T Size} (hq : Reachable q) : ∃ l, Holds q l := by
  induction hq with
  | fresh slots h => exact ⟨[], Holds.fresh hSize slots h⟩
  | push q item _ ih =>
    obtain ⟨l, hl⟩ := ih
    by_cases hroom : l.length < Size - 1
    · exact ⟨l ++ [item], (hl.push_ok item hroom).2⟩
    · rw [hl.push_full item hroom]
      exact ⟨l, hl⟩
  | pop q item _ ih =>
    obtain ⟨l, hl⟩ := ih
    cases l with
    | nil =>
      rw [hl.pop_empty item]
      exact ⟨[], hl⟩
    | cons x t => exact ⟨t, (hl.pop_ok item).2.2⟩

theorem Holds.occupancy_eq_length {T : Type} {Size : Nat} {q : LockFreeRingBuffer T Size}
    {l : List T} (h : Holds q l) : q.occupancy = l.length := by
  obtain ⟨_, hh, ht, hl, htail, _⟩ := h
  rw [occupancy_eq q hh ht]
  have w := wrap_eq Size (q.head + l.length) (by omega)
  rw [htail] at w
  split_ifs at w ⊢ <;> omega

end LockFreeRingBuffer

namespace MarketDataHandler

theorem processLoop_drain (durations : Nat → Nat) (l : List MarketDataMessage) :
    ∀ (fuel i : Nat) (h : MarketDataHandler) (msg : MarketDataMessage),
      LockFreeRingBuffer.Holds h.message_queue l → l.length < fuel →
      h.processed_messages + l.length < 2 ^ 64 →
      processLoop false durations fuel i h msg =
        { h with
          message_queue := ⟨h.message_queue.buffer, h.message_queue.tail, h.message_queue.tail⟩
          order_book := l.foldl (fun b m => b.addOrder m.order_id m.price m.quantity
            (decide (m.symbol.getD 0 0 = 66))) h.order_book
          latencies := h.latencies ++ (List.range l.length).map fun j => durations (i + j)
          processed_messages := h.processed_messages + l.length } := by
  induction l with
  | nil =>
    intro fuel i h msg hq hfuel _
    obtain ⟨n, rfl⟩ : ∃ n, fuel = n + 1 := ⟨fuel - 1, by simp at hfuel; omega⟩
    rw [processLoop_succ]
    simp only [Bool.false_eq_true, if_false, hq.pop_empty msg]
    have := hq.head_eq_tail
    cases h with
    | mk q ob pm tl mc lat st lo =>
      cases q with
      | mk buffer head tail =>
        simp only at this
        subst this
        simp
  | cons x t ih =>
    intro fuel i h msg hq hfuel hcount
    obtain ⟨n, rfl⟩ : ∃ n, fuel = n + 1 := ⟨fuel - 1, by simp at hfuel; omega⟩
    obtain ⟨h₁, h₂, h₃⟩ := hq.pop_ok msg
    obtain ⟨hb, ht⟩ := LockFreeRingBuffer.pop_buffer h.message_queue msg
    simp only [List.length_cons] at hfuel hcount
    rw [processLoop_succ]
    simp only [Bool.false_eq_true, if_false, h₁, if_true, h₂]
    rw [Nat.mod_eq_of_lt (by omega)]
    rw [ih n (i + 1) _ x h₃ (by omega) (by simp only; omega)]
    have e₁ : h.latencies ++ [durations i]
          ++ List.map (fun j => durations (i + 1 + j)) (List.range t.length)
        = h.latencies ++ List.map (fun j => durations (i + j)) (List.range (t.length + 1)) := by
      rw [List.range_succ_eq_map]
      simp only [List.map_cons, List.map_map, Nat.add_zero, List.append_assoc,
        List.singleton_append]
      congr 2
      apply List.map_congr_left
      intro j _
      simp only [Function.comp]
      congr 1
      omega
    have e₂ : h.processed_messages + 1 + t.length = h.processed_messages + (t.length + 1) := by
      omega
    simp only [hb, ht, List.foldl_cons, List.length_cons]
    rw [e₁, e₂]

end MarketDataHandler

/-- C21 (`processMessages` drains the queue): with the shutdown flag clear, for
every handler whose queue holds the messages `l = [m1, ..., mn]` (oldest first,
`n ≥ 0`) and whose processed counter stays below `2^64`, `processMessages()`
ends with the queue empty (`head == tail`, holding nothing), the order book
equal to the previous book after `addOrder(mi.order_id, mi.price, mi.quantity,
mi.symbol[0] == 'B')` for `i = 1..n` in that order, the processed counter
increased by exactly `n`, and the latency history longer by exactly `n`
entries, the earlier entries unchanged. The loop stops at the failed `pop`
after `n` passes: every bound on the passes above `n` gives the same final
state. -/
theorem C21_processMessages_drains (h : MarketDataHandler) (l : List MarketDataMessage)
    (uninit_msg : MarketDataMessage) (durations : Nat → Nat)
    (hq : LockFreeRingBuffer.Holds h.message_queue l)
    (hcount : h.processed_messages + l.length < 2 ^ 64) :
    LockFreeRingBuffer.Holds (h.processMessages false uninit_msg durations).message_queue [] ∧
    (h.processMessages false uninit_msg durations).message_queue.head
      = (h.processMessages false uninit_msg durations).message_queue.tail ∧
    (h.processMessages false uninit_msg durations).order_book
      = l.foldl (fun b m => b.addOrder m.order_id m.price m.quantity
          (decide (m.symbol.getD 0 0 = 66))) h.order_book ∧
    (h.processMessages false uninit_msg durations).processed_messages
      = h.processed_messages + l.length ∧
    (h.processMessages false uninit_msg durations).latencies.length
      = h.latencies.length + l.length ∧
    (h.processMessages false uninit_msg durations).latencies.take h.latencies.length
      = h.latencies ∧
    (∀ fuel, l.length < fuel →
      MarketDataHandler.processLoop false durations fuel 0 h uninit_msg
        = h.processMessages false uninit_msg durations) := by
  have hlen : l.length < 1024 := hq.2.2.2.1
  have hrun := MarketDataHandler.processLoop_drain durations l 1024 0 h uninit_msg hq hlen hcount
  have hfinal : h.processMessages false uninit_msg durations = _ := hrun
  rw [hfinal]
  refine ⟨⟨hq.1, hq.2.2.1, hq.2.2.1, by decide, ?_, ?_⟩, rfl, rfl, rfl, ?_, ?_, ?_⟩
  · simp only [List.length_nil, Nat.add_zero]
    exact Nat.mod_eq_of_lt hq.2.2.1
  · intro i hi
    simp at hi
  · simp
  · simp
  · intro fuel hfuel
    exact MarketDataHandler.processLoop_drain durations l fuel 0 h uninit_msg hq hfuel hcount

/-- C21 on a queue holding a buy at 100 and then a sell at 101: both are applied
and the queue is empty afterwards. -/
theorem C21_processMessages_drains_witness :
    (({ MarketDataHandler.fresh (List.replicate 1024 ⟨0, 0, 0, [], 0, 0, 0⟩) with
        message_queue := (((LockFreeRingBuffer.init 1024
          (List.replicate 1024 ⟨0, 0, 0, [], 0, 0, 0⟩)).push ⟨0, 0, 0, [66], 1, 100, 10⟩).2.push
            ⟨0, 0, 0, [83], 2, 101, 10⟩).2 } : MarketDataHandler).processMessages false
        ⟨0, 0, 0, [], 0, 0, 0⟩ (fun _ => 0)).order_book
      = (OrderBook.empty.addOrder 1 100 10 true).addOrder 2 101 10 false ∧
    (({ MarketDataHandler.fresh (List.replicate 1024 ⟨0, 0, 0, [], 0, 0, 0⟩) with
        message_queue := (((LockFreeRingBuffer.init 1024
          (List.replicate 1024 ⟨0, 0, 0, [], 0, 0, 0⟩)).push ⟨0, 0, 0, [66], 1, 100, 10⟩).2.push
            ⟨0, 0, 0, [83], 2, 101, 10⟩).2 } : MarketDataHandler).processMessages false
        ⟨0, 0, 0, [], 0, 0, 0⟩ (fun _ => 0)).processed_messages = 2 :=
  have h₀ : LockFreeRingBuffer.Holds (LockFreeRingBuffer.init 1024
      (List.replicate 1024 (⟨0, 0, 0, [], 0, 0, 0⟩ : MarketDataMessage))) [] :=
    LockFreeRingBuffer.Holds.fresh (by decide) _ (List.length_replicate 1024 _)
  have h₁ := (h₀.push_ok ⟨0, 0, 0, [66], 1, 100, 10⟩ (by decide)).2
  have h₂ := (h₁.push_ok ⟨0, 0, 0, [83], 2, 101, 10⟩ (by decide)).2
  have h := C21_processMessages_drains
    ({ MarketDataHandler.fresh (List.replicate 1024 ⟨0, 0, 0, [], 0, 0, 0⟩) with
        message_queue := (((LockFreeRingBuffer.init 1024
          (List.replicate 1024 ⟨0, 0, 0, [], 0, 0, 0⟩)).push ⟨0, 0, 0, [66], 1, 100, 10⟩).2.push
            ⟨0, 0, 0, [83], 2, 101, 10⟩).2 } : MarketDataHandler)
    [⟨0, 0, 0, [66], 1, 100, 10⟩, ⟨0, 0, 0, [83], 2, 101, 10⟩] ⟨0, 0, 0, [], 0, 0, 0⟩ (fun _ => 0)
    h₂ (by decide)
  ⟨h.2.2.1, h.2.2.2.1⟩

/-- C22 (drop-newest on a full queue): for every handler whose message queue
holds 1023 messages `l` (it is full) and whose received-message counter is below
its maximum, and every message `msg`, `handleMessage(msg)` returns normally and
leaves the queue as it was (head, tail and every slot: the queue still holds
exactly `l`, in the same order, `msg` is discarded), while the received-message
count is incremented by exactly one; the book, the processed counter and the
latency history are not touched. -/
theorem C22_drop_newest_when_full (h : MarketDataHandler) (l : List MarketDataMessage)
    (msg : MarketDataMessage) (now : Nat)
    (hq : LockFreeRingBuffer.Holds h.message_queue l) (hfull : l.length = 1023)
    (hcount : h.message_count + 1 < 2 ^ 64) :
    (h.message_queue.push msg).1 = false ∧
    (h.handleMessage msg now).message_queue = h.message_queue ∧
    LockFreeRingBuffer.Holds (h.handleMessage msg now).message_queue l ∧
    (h.handleMessage msg now).message_queue.occupancy = 1023 ∧
    (h.handleMessage msg now).message_count = h.message_count + 1 ∧
    (h.handleMessage msg now).order_book = h.order_book ∧
    (h.handleMessage msg now).processed_messages = h.processed_messages ∧
    (h.handleMessage msg now).latencies = h.latencies := by
  have hp := hq.push_full msg (by omega)
  have hm : (h.handleMessage msg now).message_queue = h.message_queue := by
    simp only [MarketDataHandler.handleMessage, hp]
  refine ⟨by rw [hp], hm, by rw [hm]; exact hq, ?_, ?_, rfl, rfl, rfl⟩
  · rw [hm, hq.occupancy_eq_length, hfull]
  · simp only [MarketDataHandler.handleMessage]
    exact Nat.mod_eq_of_lt hcount

/-- C22 on a queue whose 1023 queued messages all carry order id 7: a message
with order id 9 is discarded and counted. -/
theorem C22_drop_newest_when_full_witness :
    (({ MarketDataHandler.fresh [] with
        message_queue := ⟨List.replicate 1024 ⟨0, 0, 0, [], 7, 0, 0⟩, 1, 0⟩ } :
      MarketDataHandler).handleMessage ⟨0, 0, 0, [], 9, 0, 0⟩ 0).message_queue
      = ⟨List.replicate 1024 ⟨0, 0, 0, [], 7, 0, 0⟩, 1, 0⟩ ∧
    (({ MarketDataHandler.fresh [] with
        message_queue := ⟨List.replicate 1024 ⟨0, 0, 0, [], 7, 0, 0⟩, 1, 0⟩ } :
      MarketDataHandler).handleMessage ⟨0, 0, 0, [], 9, 0, 0⟩ 0).message_count = 1 :=
  have h := C22_drop_newest_when_full
    ({ MarketDataHandler.fresh [] with
        message_queue := ⟨List.replicate 1024 ⟨0, 0, 0, [], 7, 0, 0⟩, 1, 0⟩ } : MarketDataHandler)
    (List.replicate 1023 ⟨0, 0, 0, [], 7, 0, 0⟩) ⟨0, 0, 0, [], 9, 0, 0⟩ 0
    (by
      refine ⟨List.length_replicate 1024 _, by decide, by decide, ?_, ?_, ?_⟩
      · rw [List.length_replicate]
        decide
      · rw [List.length_replicate]
        rfl
      · intro i hi
        rw [List.length_replicate] at hi
        have hlt : (1 + i) % 1024 < 1024 := Nat.mod_lt _ (by decide)
        simp only [List.getElem?_replicate, hi, hlt, if_true])
    (List.length_replicate 1023 _) (by decide)
  ⟨h.2.1, h.2.2.2.2.1⟩

/-! ## Order book: an added order removed again -/

namespace Assoc

variable {V : Type}

theorem insert_insert_self (d : Bool) (k : Nat) (v v' : V) (m : Assoc V) :
    insert d k v (insert d k v' m) = insert d k v m := by
  induction m with
  | nil => simp [insert]
  | cons e t ih =>
    obtain ⟨k', w⟩ := e
    by_cases h₁ : k' = k
    · simp [insert, h₁]
    · by_cases h₂ : before d k k' = true
      · simp [insert, h₁, h₂]
      · simp [insert, h₁, h₂, ih]

theorem insert_eq_self_of_find (d : Bool) {k : Nat} {v : V} {m : Assoc V} (ho : Ordered d m)
    (h : find k m = some v) : insert d k v m = m := by
  induction m with
  | nil => simp [find] at h
  | cons e t ih =>
    obtain ⟨k', w⟩ := e
    have ho' := List.pairwise_cons.mp ho
    by_cases h₁ : k' = k
    · subst h₁
      simp only [find, if_true, Option.some.injEq] at h
      simp [insert, h]
    · simp only [find, h₁, if_false] at h
      have hb : before d k' k = true := ho'.1 (k, v) (mem_of_find h)
      have h₂ : ¬ before d k k' = true := by
        intro hc
        have := before_trans d hc hb
        rw [before_irrefl] at this
        exact Bool.false_ne_true this
      simp [insert, h₁, h₂, ih ho'.2 h]

end Assoc

namespace OrderBook

theorem dropNode_putNode {d : Bool} {m : Assoc Level} (hm : SideOK d m) {p id : Nat} (o : Order)
    (hfree : Assoc.find id (levelAt m p) = none) : dropNode d (putNode d m p id o) p id = m := by
  have hlo : Assoc.Ordered false (levelAt m p) := levelAt_ordered (fun e he => (hm.2 e he).1) p
  have hin : Assoc.Ordered d (Assoc.insert d p (Assoc.insert false id o (levelAt m p)) m) :=
    Assoc.ordered_insert d p _ hm.1
  have hl : Assoc.erase id (Assoc.insert false id o (levelAt m p)) = levelAt m p := by
    rw [Assoc.erase_insert_self false id o hlo, Assoc.erase_of_find_none hfree]
  unfold dropNode putNode
  rw [levelAt_insert, if_pos rfl, levelAt_insert, if_pos rfl, hl]
  cases hf : Assoc.find p m with
  | none =>
    have hnil : levelAt m p = [] := by simp [levelAt, hf]
    rw [hnil] at hin ⊢
    simp only [List.isEmpty_nil, if_true]
    rw [Assoc.erase_insert_self d p _ hin, Assoc.erase_insert_self d p _ hm.1,
      Assoc.erase_of_find_none hf]
  | some lvl =>
    have hlvl : levelAt m p = lvl := by simp [levelAt, hf]
    have hne : lvl ≠ [] := (hm.2 (p, lvl) (Assoc.mem_of_find hf)).2
    have hemp : (levelAt m p).isEmpty = false := by
      rw [hlvl]
      cases lvl with
      | nil => exact absurd rfl hne
      | cons x t => rfl
    rw [hemp]
    simp only [Bool.false_eq_true, if_false]
    rw [Assoc.insert_insert_self, hlvl, Assoc.insert_eq_self_of_find d hm.1 hf]

theorem eq_of_fields {b b' : OrderBook} (h₁ : b.bids = b'.bids) (h₂ : b.asks = b'.asks)
    (h₃ : b.order_map = b'.order_map) : b = b' := by
  cases b
  cases b'
  simp_all

theorem removeOrder_addOrder {b : OrderBook} (hb : b.Inv) (id p q : Nat) (s : Bool)
    (hidx : Assoc.find id b.order_map = none)
    (hlv : ∀ o ∈ b.restingOrders, o.order_id ≠ id) :
    (b.addOrder id p q s).removeOrder id = b := by
  have hfind : Assoc.find id (b.addOrder id p q s).order_map = some ⟨s, p, id⟩ := by
    rw [order_map_addOrder, Assoc.find_insert_self]
  have hderef : (b.addOrder id p q s).deref ⟨s, p, id⟩ = some ⟨id, q, p, s⟩ := by
    rw [deref_addOrder, if_pos rfl]
  have hfree : Assoc.find id (levelAt (b.side s) p) = none := by
    cases hf : Assoc.find id (levelAt (b.side s) p) with
    | none => rfl
    | some o =>
      have hd : b.deref ⟨s, p, id⟩ = some o := by rw [deref_eq]; exact hf
      have hmem : o ∈ b.restingOrders := (mem_restingOrders_iff hb).mpr ⟨_, hd⟩
      exact absurd (hb.2.2.1 _ _ hd).1 (hlv o hmem)
  have hside : ∀ s', ((b.addOrder id p q s).removeOrder id).side s' = b.side s' := by
    intro s'
    rw [side_removeOrder hfind hderef]
    simp only
    by_cases hs : s' = s
    · rw [if_pos hs, side_addOrder, if_pos rfl, dropNode_putNode (hb.2.1 s) _ hfree, hs]
    · rw [if_neg hs, side_addOrder, if_neg hs]
  apply eq_of_fields
  · exact hside true
  · exact hside false
  · rw [order_map_removeOrder hfind hderef, order_map_addOrder,
      Assoc.erase_insert_self false id _ hb.1, Assoc.erase_of_find_none hidx]

end OrderBook

/-- C27 (`removeOrder` undoes `addOrder`): for every book `b` reached from the
empty book by public calls and every order id that occurs nowhere in `b`
(neither as a key of the index nor as the id of an order resting in a price
level), and every price, quantity and side, `addOrder(id, price, quantity,
side)` followed by `removeOrder(id)` gives a book equal to `b`: the same price
levels on both sides, the same resting orders, the same index, hence the same
`getBestBid()` and `getBestAsk()`. The reads of `order->price` that
`removeOrder` makes after erasing the node are taken to yield the price the
node held. -/
theorem C27_remove_undoes_add (calls : List BookCall) (id price quantity : Nat) (is_buy : Bool)
    (hidx : Assoc.find id (OrderBook.run OrderBook.empty calls).order_map = none)
    (hlv : ∀ o ∈ (OrderBook.run OrderBook.empty calls).restingOrders, o.order_id ≠ id) :
    ((OrderBook.run OrderBook.empty calls).addOrder id price quantity is_buy).removeOrder id
      = OrderBook.run OrderBook.empty calls ∧
    (((OrderBook.run OrderBook.empty calls).addOrder id price quantity is_buy).removeOrder id).bids
      = (OrderBook.run OrderBook.empty calls).bids ∧
    (((OrderBook.run OrderBook.empty calls).addOrder id price quantity is_buy).removeOrder id).asks
      = (OrderBook.run OrderBook.empty calls).asks ∧
    (((OrderBook.run OrderBook.empty calls).addOrder id price quantity is_buy).removeOrder
        id).order_map = (OrderBook.run OrderBook.empty calls).order_map ∧
    (((OrderBook.run OrderBook.empty calls).addOrder id price quantity is_buy).removeOrder
        id).restingOrders = (OrderBook.run OrderBook.empty calls).restingOrders ∧
    (((OrderBook.run OrderBook.empty calls).addOrder id price quantity is_buy).removeOrder
        id).getBestBid = (OrderBook.run OrderBook.empty calls).getBestBid ∧
    (((OrderBook.run OrderBook.empty calls).addOrder id price quantity is_buy).removeOrder
        id).getBestAsk = (OrderBook.run OrderBook.empty calls).getBestAsk := by
  have h := OrderBook.removeOrder_addOrder (OrderBook.inv_reachable calls) id price quantity
    is_buy hidx hlv
  rw [h]
  exact ⟨rfl, rfl, rfl, rfl, rfl, rfl, rfl⟩

/-- C27 on the book holding order 1 (buy, 100): adding order 2 at the same level,
or order 3 at a new level on the other side, and removing it again gives the
book back. -/
theorem C27_remove_undoes_add_witness :
    ((OrderBook.run OrderBook.empty [.addOrder 1 100 10 true]).addOrder 2 100 5 true).removeOrder 2
      = OrderBook.run OrderBook.empty [.addOrder 1 100 10 true] ∧
    ((OrderBook.run OrderBook.empty [.addOrder 1 100 10 true]).addOrder 3 101 5 false).removeOrder 3
      = OrderBook.run OrderBook.empty [.addOrder 1 100 10 true] :=
  ⟨(C27_remove_undoes_add [.addOrder 1 100 10 true] 2 100 5 true (by decide) (by decide)).1,
   (C27_remove_undoes_add [.addOrder 1 100 10 true] 3 101 5 false (by decide) (by decide)).1⟩

/-! ## Reassembly layer: loopback and connection keys -/

/-- C26 (loopback round trip of the reassembly layer): for every stack in which
no connection has a queued chunk, and every `dest_ip`, `dest_port` and non-empty
payload, feeding the frame returned by `create_packet(dest_ip, dest_port,
payload)` into `process_packet` and then calling `get_next_message` (whose loop
visits every connection of the stack) returns exactly the payload and leaves no
connection with a queued chunk, so that a further `get_next_message`, whatever
its visiting order, returns the empty chunk. -/
theorem C26_loopback_round_trip (st : TCPIPStack) (dest_ip dest_port : Nat) (payload : List Nat)
    (scan₁ scan₂ : List Nat)
    (hno : ∀ k, st.queueOf k = [])
    (hpos : payload ≠ [])
    (hscan : ∀ k c,
      Assoc.find k ((st.create_packet dest_ip dest_port payload payload.length).2.process_packet
        (st.create_packet dest_ip dest_port payload payload.length).1
        (st.create_packet dest_ip dest_port payload payload.length).1.length).connections = some c →
      k ∈ scan₁) :
    (((st.create_packet dest_ip dest_port payload payload.length).2.process_packet
        (st.create_packet dest_ip dest_port payload payload.length).1
        (st.create_packet dest_ip dest_port payload payload.length).1.length).get_next_message
          scan₁).1 = payload ∧
    (∀ k, (((st.create_packet dest_ip dest_port payload payload.length).2.process_packet
        (st.create_packet dest_ip dest_port payload payload.length).1
        (st.create_packet dest_ip dest_port payload payload.length).1.length).get_next_message
          scan₁).2.queueOf k = []) ∧
    ((((st.create_packet dest_ip dest_port payload payload.length).2.process_packet
        (st.create_packet dest_ip dest_port payload payload.length).1
        (st.create_packet dest_ip dest_port payload payload.length).1.length).get_next_message
          scan₁).2.get_next_message scan₂).1 = [] := by
  have hlen : 0 < payload.length := List.length_pos.mpr hpos
  obtain ⟨hothers, hkey⟩ := TCPIPStack.loopback_queues st hno dest_ip dest_port payload hlen
  generalize (st.create_packet dest_ip dest_port payload payload.length).2.process_packet
      (st.create_packet dest_ip dest_port payload payload.length).1
      (st.create_packet dest_ip dest_port payload payload.length).1.length = st₂
    at hothers hkey hscan ⊢
  generalize TCPIPStack.frameKey (st.create_packet dest_ip dest_port payload payload.length).1 = key
    at hothers hkey
  have hne : st₂.queueOf key ≠ [] := by rw [hkey]; simp
  obtain ⟨c, hc, _⟩ := TCPIPStack.find_some_of_queueOf hne
  have hfirst : st₂.firstWithData scan₁ = some key :=
    TCPIPStack.firstWithData_only hothers hne (hscan key c hc)
  have hq := fun k => TCPIPStack.queueOf_get_next_message st₂ scan₁ k
  have hret : (st₂.get_next_message scan₁).1 = payload
      ∧ (st₂.get_next_message scan₁).2.queueOf key = [] := by
    have := hq key
    rw [if_pos hfirst, hkey] at this
    simp only [List.singleton_append, List.cons.injEq] at this
    exact ⟨this.1.symm, this.2.symm⟩
  have hrest : ∀ k, (st₂.get_next_message scan₁).2.queueOf k = [] := by
    intro k
    by_cases hk : k = key
    · rw [hk]
      exact hret.2
    · have := hq k
      have hne' : ¬ st₂.firstWithData scan₁ = some k := by
        rw [hfirst]
        intro e
        exact hk (Option.some.inj e).symm
      rw [hothers k hk, if_neg hne'] at this
      simpa using this.symm
  refine ⟨hret.1, hrest, ?_⟩
  rw [TCPIPStack.get_next_message_none (TCPIPStack.firstWithData_none_of_empty hrest scan₂)]

/-- C26 on the empty stack: the payload `[1, 2, 3]` framed for 10.0.0.1:12345
comes back from the first `get_next_message`, the second returns the empty
chunk. -/
theorem C26_loopback_round_trip_witness :
    (((TCPIPStack.empty.create_packet 0x0A000001 12345 [1, 2, 3] 3).2.process_packet
        (TCPIPStack.empty.create_packet 0x0A000001 12345 [1, 2, 3] 3).1 27).get_next_message
          [0, 10995116355641]).1 = [1, 2, 3] ∧
    ((((TCPIPStack.empty.create_packet 0x0A000001 12345 [1, 2, 3] 3).2.process_packet
        (TCPIPStack.empty.create_packet 0x0A000001 12345 [1, 2, 3] 3).1 27).get_next_message
          [0, 10995116355641]).2.get_next_message [10995116355641, 0]).1 = [] :=
  have h := C26_loopback_round_trip TCPIPStack.empty 0x0A000001 12345 [1, 2, 3]
    [0, 10995116355641] [10995116355641, 0] (fun _ => rfl) (by decide)
    (fun k c hc => by
      have hm := List.mem_map_of_mem Prod.fst (Assoc.mem_of_find hc)
      have hkeys : List.map Prod.fst
          ((TCPIPStack.empty.create_packet 0x0A000001 12345 [1, 2, 3] 3).2.process_packet
            (TCPIPStack.empty.create_packet 0x0A000001 12345 [1, 2, 3] 3).1 27).connections
          = [0, 10995116355641] := by decide
      exact hkeys ▸ hm)
  ⟨h.1, h.2.2⟩

namespace TCPIPStack

theorem find_process_packet_ne (st : TCPIPStack) (data : List Nat) (len : Nat) {k : Nat}
    (hk : k ≠ frameKey data) :
    Assoc.find k (st.process_packet data len).connections = Assoc.find k st.connections := by
  by_cases h : len < sizeof_IPHeader + sizeof_TCPHeader
  · unfold process_packet
    rw [if_pos h]
  · rw [process_packet_eq st data len (by omega)]
    exact Assoc.find_insert_ne false _ _ hk

theorem find_process_packet_self (st : TCPIPStack) (data : List Nat) (len : Nat)
    (h : sizeof_IPHeader + sizeof_TCPHeader ≤ len) :
    ∃ c, Assoc.find (frameKey data) (st.process_packet data len).connections = some c := by
  rw [process_packet_eq st data len h]
  exact ⟨_, Assoc.find_insert_self false _ _ _⟩

theorem src_port_lt (data : List Nat) : (TCPHeader.ofBytes data).src_port < 2 ^ 16 := by
  have h := leValue_lt (bytesAt data 0 2)
  rw [bytesAt_length] at h
  exact h

theorem frameKey_ne {d₁ d₂ : List Nat}
    (h : (IPHeader.ofBytes d₁).src_ip ≠ (IPHeader.ofBytes d₂).src_ip ∨
      (TCPHeader.ofBytes (d₁.drop sizeof_IPHeader)).src_port
        ≠ (TCPHeader.ofBytes (d₂.drop sizeof_IPHeader)).src_port) :
    frameKey d₁ ≠ frameKey d₂ := by
  intro heq
  obtain ⟨e₁, e₂⟩ := get_connection_key_inj (src_port_lt _) (src_port_lt _) heq
  rcases h with h | h
  · exact h e₁
  · exact h e₂

theorem get_connection_key_ne {ip₁ port₁ ip₂ port₂ : Nat} (h₁ : port₁ < 2 ^ 16)
    (h₂ : port₂ < 2 ^ 16) (h : ip₁ ≠ ip₂ ∨ port₁ ≠ port₂) :
    get_connection_key ip₁ port₁ ≠ get_connection_key ip₂ port₂ := by
  intro heq
  obtain ⟨e₁, e₂⟩ := get_connection_key_inj h₁ h₂ heq
  rcases h with h | h
  · exact h e₁
  · exact h e₂

theorem connFor_create_packet_ne (st : TCPIPStack) {ip₁ port₁ ip₂ port₂ : Nat}
    (hk : get_connection_key ip₁ port₁ ≠ get_connection_key ip₂ port₂) (data : List Nat)
    (len : Nat) :
    (st.create_packet ip₂ port₂ data len).2.connFor ip₁ port₁ = st.connFor ip₁ port₁ := by
  unfold connFor
  rw [find_create_packet_ne st ip₂ port₂ data len hk]

end TCPIPStack

/-- C30 (connections are never shared between endpoints): `get_connection_key`
is injective on pairs `(ip, port)` with `port` a 16-bit value. Hence, for every
stack: two frames whose `(src_ip, src_port)` differ have different keys,
`process_packet` of either leaves the connection of the other as it is, and
after both (neither undersized) the two keys hold two connections; and for two
endpoints whose `(dest_ip, dest_port)` differ, a `create_packet` for one leaves
the connection of the other as it is, so the frame built for an endpoint, its
sequence number included, is the same whether or not frames for the other
endpoint were built before. -/
theorem C30_connections_not_shared :
    (∀ ip₁ port₁ ip₂ port₂ : Nat, port₁ < 2 ^ 16 → port₂ < 2 ^ 16 →
      TCPIPStack.get_connection_key ip₁ port₁ = TCPIPStack.get_connection_key ip₂ port₂ →
      ip₁ = ip₂ ∧ port₁ = port₂) ∧
    (∀ (st : TCPIPStack) (d₁ d₂ : List Nat) (len₁ len₂ : Nat),
      ((IPHeader.ofBytes d₁).src_ip ≠ (IPHeader.ofBytes d₂).src_ip ∨
        (TCPHeader.ofBytes (d₁.drop sizeof_IPHeader)).src_port
          ≠ (TCPHeader.ofBytes (d₂.drop sizeof_IPHeader)).src_port) →
      TCPIPStack.frameKey d₁ ≠ TCPIPStack.frameKey d₂ ∧
      Assoc.find (TCPIPStack.frameKey d₁) (st.process_packet d₂ len₂).connections
        = Assoc.find (TCPIPStack.frameKey d₁) st.connections ∧
      Assoc.find (TCPIPStack.frameKey d₂) (st.process_packet d₁ len₁).connections
        = Assoc.find (TCPIPStack.frameKey d₂) st.connections ∧
      (sizeof_IPHeader + sizeof_TCPHeader ≤ len₁ → sizeof_IPHeader + sizeof_TCPHeader ≤ len₂ →
        ∃ c₁ c₂,
          Assoc.find (TCPIPStack.frameKey d₁)
            ((st.process_packet d₁ len₁).process_packet d₂ len₂).connections = some c₁ ∧
          Assoc.find (TCPIPStack.frameKey d₂)
            ((st.process_packet d₁ len₁).process_packet d₂ len₂).connections = some c₂ ∧
          Assoc.find (TCPIPStack.frameKey d₁) (st.process_packet d₁ len₁).connections = some c₁)) ∧
    (∀ (st : TCPIPStack) (ip₁ port₁ ip₂ port₂ : Nat) (data₁ data₂ : List Nat) (len₁ len₂ : Nat),
      port₁ < 2 ^ 16 → port₂ < 2 ^ 16 → (ip₁ ≠ ip₂ ∨ port₁ ≠ port₂) →
      TCPIPStack.get_connection_key ip₁ port₁ ≠ TCPIPStack.get_connection_key ip₂ port₂ ∧
      Assoc.find (TCPIPStack.get_connection_key ip₁ port₁)
          (st.create_packet ip₂ port₂ data₂ len₂).2.connections
        = Assoc.find (TCPIPStack.get_connection_key ip₁ port₁) st.connections ∧
      (st.create_packet ip₂ port₂ data₂ len₂).2.connFor ip₁ port₁ = st.connFor ip₁ port₁ ∧
      ((st.create_packet ip₂ port₂ data₂ len₂).2.create_packet ip₁ port₁ data₁ len₁).1
        = (st.create_packet ip₁ port₁ data₁ len₁).1 ∧
      (TCPHeader.ofBytes (((st.create_packet ip₂ port₂ data₂ len₂).2.create_packet ip₁ port₁
          data₁ len₁).1.drop sizeof_IPHeader)).seq_num
        = (TCPHeader.ofBytes ((st.create_packet ip₁ port₁ data₁ len₁).1.drop
            sizeof_IPHeader)).seq_num) := by
  refine ⟨?_, ?_, ?_⟩
  · intro ip₁ port₁ ip₂ port₂ h₁ h₂ heq
    exact TCPIPStack.get_connection_key_inj h₁ h₂ heq
  · intro st d₁ d₂ len₁ len₂ h
    have hne := TCPIPStack.frameKey_ne h
    refine ⟨hne, TCPIPStack.find_process_packet_ne st d₂ len₂ hne,
      TCPIPStack.find_process_packet_ne st d₁ len₁ (Ne.symm hne), ?_⟩
    intro hl₁ hl₂
    obtain ⟨c₁, hc₁⟩ := TCPIPStack.find_process_packet_self st d₁ len₁ hl₁
    obtain ⟨c₂, hc₂⟩ := TCPIPStack.find_process_packet_self (st.process_packet d₁ len₁) d₂ len₂ hl₂
    refine ⟨c₁, c₂, ?_, hc₂, hc₁⟩
    rw [TCPIPStack.find_process_packet_ne _ d₂ len₂ hne]
    exact hc₁
  · intro st ip₁ port₁ ip₂ port₂ data₁ data₂ len₁ len₂ h₁ h₂ h
    have hne := TCPIPStack.get_connection_key_ne h₁ h₂ h
    have hconn := TCPIPStack.connFor_create_packet_ne st hne data₂ len₂
    have hframe : ((st.create_packet ip₂ port₂ data₂ len₂).2.create_packet ip₁ port₁ data₁ len₁).1
        = (st.create_packet ip₁ port₁ data₁ len₁).1 := by
      rw [TCPIPStack.create_packet_eq, TCPIPStack.create_packet_eq st ip₁, hconn]
    refine ⟨hne, TCPIPStack.find_create_packet_ne st ip₂ port₂ data₂ len₂ hne, hconn, hframe, ?_⟩
    rw [hframe]

/-! ## Message parser -/

theorem leBytes_leValue (l : List Nat) (h : ∀ b ∈ l, b < 256) :
    leBytes l.length (leValue l) = l := by
  induction l with
  | nil => rfl
  | cons b t ih =>
    have hb : b < 256 := h b (List.mem_cons_self _ _)
    have ht := ih (fun x hx => h x (List.mem_cons_of_mem _ hx))
    simp only [List.length_cons, leBytes, leValue]
    rw [Nat.mod_eq_of_lt hb, Nat.add_mul_mod_self_left, Nat.mod_eq_of_lt hb,
      Nat.add_mul_div_left _ _ (by decide : 0 < 256), Nat.div_eq_of_lt hb, Nat.zero_add, ht]

theorem bytesAt_add (d : List Nat) (off n m : Nat) :
    bytesAt d off (n + m) = bytesAt d off n ++ bytesAt d (off + n) m := by
  unfold bytesAt
  rw [List.range_add, List.map_append, List.map_map]
  congr 1
  apply List.map_congr_left
  intro i _
  simp only [Function.comp, Nat.add_assoc]

theorem bytesAt_eq_take_drop (d : List Nat) (off n : Nat) (h : off + n ≤ d.length) :
    bytesAt d off n = (d.drop off).take n := by
  unfold bytesAt
  apply List.ext_getElem
  · simp
    omega
  · intro i h₁ h₂
    simp only [List.length_map, List.length_range] at h₁
    simp only [List.getElem_map, List.getElem_range, List.getElem_take, List.getElem_drop]
    rw [List.getD_eq_getElem?_getD, List.getElem?_eq_getElem (by omega)]
    rfl

theorem bytesAt_lt (d : List Nat) (off n : Nat) (h : ∀ b ∈ d, b < 256) :
    ∀ b ∈ bytesAt d off n, b < 256 := by
  intro b hb
  unfold bytesAt at hb
  obtain ⟨i, _, rfl⟩ := List.mem_map.mp hb
  rw [List.getD_eq_getElem?_getD]
  cases hi : d[off + i]? with
  | none => simp
  | some x =>
    have := List.getElem?_mem hi
    simpa using h x this

theorem map_mod_of_lt (l : List Nat) (h : ∀ b ∈ l, b < 256) : l.map (· % 256) = l := by
  induction l with
  | nil => rfl
  | cons b t ih =>
    simp only [List.map_cons]
    rw [Nat.mod_eq_of_lt (h b (List.mem_cons_self _ _)),
      ih (fun x hx => h x (List.mem_cons_of_mem _ hx))]

theorem leBytes_leValue_bytesAt (d : List Nat) (off n : Nat) (h : ∀ b ∈ d, b < 256) :
    leBytes n (leValue (bytesAt d off n)) = bytesAt d off n := by
  have := leBytes_leValue (bytesAt d off n) (bytesAt_lt d off n h)
  rw [bytesAt_length] at this
  exact this

theorem SIMDMessageParser.parse_bytes (d : List Nat) (h : ∀ b ∈ d, b < 256) :
    leBytes 8 (SIMDMessageParser.parse d).timestamp
        ++ leBytes 4 (SIMDMessageParser.parse d).sequence_number
        ++ [(SIMDMessageParser.parse d).message_type]
        ++ (SIMDMessageParser.parse d).symbol
        ++ leBytes 8 (SIMDMessageParser.parse d).order_id
        ++ leBytes 4 (SIMDMessageParser.parse d).price
        ++ leBytes 4 (SIMDMessageParser.parse d).quantity
      = bytesAt d 0 37 := by
  have hty : [d.getD 12 0 % 256] = bytesAt d 12 1 := by
    have h₁ : d.getD 12 0 < 256 := by
      have := bytesAt_lt d 12 1 h (d.getD 12 0) (by simp [bytesAt])
      exact this
    rw [Nat.mod_eq_of_lt h₁]
    rfl
  simp only [SIMDMessageParser.parse]
  rw [leBytes_leValue_bytesAt d 0 8 h, leBytes_leValue_bytesAt d 8 4 h,
    leBytes_leValue_bytesAt d 21 8 h, leBytes_leValue_bytesAt d 29 4 h,
    leBytes_leValue_bytesAt d 33 4 h, map_mod_of_lt _ (bytesAt_lt d 13 8 h), hty]
  rw [show (37 : Nat) = 8 + 4 + 1 + 8 + 8 + 4 + 4 from rfl]
  simp only [bytesAt_add, Nat.zero_add]

theorem SIMDMessageParser.parse_congr (d d' : List Nat)
    (h : ∀ i, i < 37 → d'.getD i 0 = d.getD i 0) :
    SIMDMessageParser.parse d' = SIMDMessageParser.parse d := by
  have e : ∀ off n, off + n ≤ 37 → bytesAt d' off n = bytesAt d off n := by
    intro off n hle
    apply bytesAt_congr
    intro i hi
    exact h (off + i) (by omega)
  simp only [SIMDMessageParser.parse]
  rw [e 0 8 (by decide), e 8 4 (by decide), e 13 8 (by decide), e 21 8 (by decide),
    e 29 4 (by decide), e 33 4 (by decide), h 12 (by decide)]

theorem bytesAt_getD (d : List Nat) (off n i : Nat) (h : i < n) :
    (bytesAt d off n).getD i 0 = d.getD (off + i) 0 := by
  unfold bytesAt
  rw [List.getD_eq_getElem?_getD, List.getElem?_map, List.getElem?_range h]
  rfl

/-- C23 (`MarketDataMessage` decoding): for every buffer `d` of at least 37
bytes, `SIMDMessageParser::parse` returns the record whose `timestamp` is the
little-endian u64 at bytes 0..7, `sequence_number` the u32 at bytes 8..11,
`message_type` the byte at offset 12, `symbol` the 8 bytes at offsets 13..20,
`order_id` the u64 at bytes 21..28, `price` the u32 at bytes 29..32 and
`quantity` the u32 at bytes 33..36, every field within its C++ type. A buffer
that agrees with `d` on the first 37 bytes parses to the same record, whatever
follows; a buffer of at least 37 bytes that differs from `d` in one of the
first 37 bytes parses to a different record. -/
theorem C23_parse_fixed_offsets (d : List Nat) (hlen : 37 ≤ d.length)
    (hbytes : ∀ b ∈ d, b < 256) :
    (SIMDMessageParser.parse d).timestamp = leValue (d.take 8) ∧
    (SIMDMessageParser.parse d).sequence_number = leValue ((d.drop 8).take 4) ∧
    (SIMDMessageParser.parse d).message_type = d.getD 12 0 ∧
    (SIMDMessageParser.parse d).symbol = (d.drop 13).take 8 ∧
    (SIMDMessageParser.parse d).order_id = leValue ((d.drop 21).take 8) ∧
    (SIMDMessageParser.parse d).price = leValue ((d.drop 29).take 4) ∧
    (SIMDMessageParser.parse d).quantity = leValue ((d.drop 33).take 4) ∧
    ((SIMDMessageParser.parse d).timestamp < 2 ^ 64 ∧
      (SIMDMessageParser.parse d).sequence_number < 2 ^ 32 ∧
      (SIMDMessageParser.parse d).message_type < 2 ^ 8 ∧
      (SIMDMessageParser.parse d).symbol.length = 8 ∧
      (SIMDMessageParser.parse d).order_id < 2 ^ 64 ∧
      (SIMDMessageParser.parse d).price < 2 ^ 32 ∧
      (SIMDMessageParser.parse d).quantity < 2 ^ 32) ∧
    (∀ d' : List Nat, (∀ i, i < 37 → d'.getD i 0 = d.getD i 0) →
      SIMDMessageParser.parse d' = SIMDMessageParser.parse d) ∧
    (∀ d' : List Nat, 37 ≤ d'.length → (∀ b ∈ d', b < 256) →
      ∀ i, i < 37 → d'.getD i 0 ≠ d.getD i 0 →
        SIMDMessageParser.parse d' ≠ SIMDMessageParser.parse d) := by
  have hty : d.getD 12 0 < 256 := bytesAt_lt d 12 1 hbytes (d.getD 12 0) (by simp [bytesAt])
  have hlt : ∀ off n, leValue (bytesAt d off n) < 256 ^ n := by
    intro off n
    have := leValue_lt (bytesAt d off n)
    rw [bytesAt_length] at this
    exact this
  refine ⟨?_, ?_, ?_, ?_, ?_, ?_, ?_, ⟨?_, ?_, ?_, ?_, ?_, ?_, ?_⟩, ?_, ?_⟩
  · simp only [SIMDMessageParser.parse]
    rw [bytesAt_eq_take_drop d 0 8 (by omega), List.drop_zero]
  · simp only [SIMDMessageParser.parse]
    rw [bytesAt_eq_take_drop d 8 4 (by omega)]
  · simp only [SIMDMessageParser.parse]
    exact Nat.mod_eq_of_lt hty
  · simp only [SIMDMessageParser.parse]
    rw [map_mod_of_lt _ (bytesAt_lt d 13 8 hbytes), bytesAt_eq_take_drop d 13 8 (by omega)]
  · simp only [SIMDMessageParser.parse]
    rw [bytesAt_eq_take_drop d 21 8 (by omega)]
  · simp only [SIMDMessageParser.parse]
    rw [bytesAt_eq_take_drop d 29 4 (by omega)]
  · simp only [SIMDMessageParser.parse]
    rw [bytesAt_eq_take_drop d 33 4 (by omega)]
  · have := hlt 0 8
    norm_num at this ⊢
    exact this
  · have := hlt 8 4
    norm_num at this ⊢
    exact this
  · simp only [SIMDMessageParser.parse]
    exact Nat.mod_lt _ (by decide)
  · simp [SIMDMessageParser.parse, bytesAt_length]
  · have := hlt 21 8
    norm_num at this ⊢
    exact this
  · have := hlt 29 4
    norm_num at this ⊢
    exact this
  · have := hlt 33 4
    norm_num at this ⊢
    exact this
  · intro d' h
    exact SIMDMessageParser.parse_congr d d' h
  · intro d' _ hbytes' i hi hne heq
    have h₁ := SIMDMessageParser.parse_bytes d hbytes
    have h₂ := SIMDMessageParser.parse_bytes d' hbytes'
    rw [heq, h₁] at h₂
    have h₃ := congrArg (fun l => l.getD i 0) h₂
    simp only [bytesAt_getD _ _ _ _ hi, Nat.zero_add] at h₃
    exact hne h₃.symm

/-- C23 on a 39-byte buffer: the record read from the first 37 bytes, and a
buffer that differs in byte 36 parses to another record. -/
theorem C23_parse_fixed_offsets_witness :
    SIMDMessageParser.parse
        [1, 0, 0, 0, 0, 0, 0, 0, 2, 0, 0, 0, 65, 66, 67, 68, 69, 70, 71, 72, 73,
          3, 1, 0, 0, 0, 0, 0, 0, 100, 0, 0, 0, 10, 0, 0, 0, 255, 255]
      = ⟨1, 2, 65, [66, 67, 68, 69, 70, 71, 72, 73], 259, 100, 10⟩ ∧
    SIMDMessageParser.parse
        [1, 0, 0, 0, 0, 0, 0, 0, 2, 0, 0, 0, 65, 66, 67, 68, 69, 70, 71, 72, 73,
          3, 1, 0, 0, 0, 0, 0, 0, 100, 0, 0, 0, 10, 0, 0, 1]
      ≠ SIMDMessageParser.parse
        [1, 0, 0, 0, 0, 0, 0, 0, 2, 0, 0, 0, 65, 66, 67, 68, 69, 70, 71, 72, 73,
          3, 1, 0, 0, 0, 0, 0, 0, 100, 0, 0, 0, 10, 0, 0, 0, 255, 255] :=
  have h := C23_parse_fixed_offsets
    [1, 0, 0, 0, 0, 0, 0, 0, 2, 0, 0, 0, 65, 66, 67, 68, 69, 70, 71, 72, 73,
      3, 1, 0, 0, 0, 0, 0, 0, 100, 0, 0, 0, 10, 0, 0, 0, 255, 255] (by decide) (by decide)
  ⟨by decide,
   h.2.2.2.2.2.2.2.2.2
    [1, 0, 0, 0, 0, 0, 0, 0, 2, 0, 0, 0, 65, 66, 67, 68, 69, 70, 71, 72, 73,
      3, 1, 0, 0, 0, 0, 0, 0, 100, 0, 0, 0, 10, 0, 0, 1] (by decide) (by decide) 36 (by decide)
    (by decide)⟩

/-! ## Strategy and order ids -/

namespace MarketDataHandler

theorem executeTradingStrategy_triggered (h : MarketDataHandler) (force_quit : Bool)
    (pad₁ pad₂ : List Nat) (env₁ env₂ : Nat → Ambient)
    (h₁ : 0 < h.order_book.getBestBid ∧ h.order_book.getBestAsk < 4294967295)
    (h₂ : spread32 h.order_book.getBestBid h.order_book.getBestAsk ≤ 2) :
    (h.executeTradingStrategy force_quit pad₁ env₁ pad₂ env₂).1
      = [⟨(h.last_order_id + 1) % 2 ^ 64, h.order_book.getBestBid, 100, true⟩,
         ⟨((h.last_order_id + 1) % 2 ^ 64 + 1) % 2 ^ 64, h.order_book.getBestAsk, 100, false⟩] ∧
    (h.executeTradingStrategy force_quit pad₁ env₁ pad₂ env₂).2.last_order_id
      = (h.last_order_id + 2) % 2 ^ 64 := by
  unfold executeTradingStrategy
  simp only
  rw [if_pos h₁, if_pos h₂]
  refine ⟨rfl, ?_⟩
  simp only
  rw [last_order_id_submit_order, last_order_id_submit_order]

end MarketDataHandler

/-- C25 (the strategy is not run by `processMessages`): for every handler whose
queue holds the messages `l`, with the shutdown flag clear, `processMessages()`
applies the messages to the book and does nothing else: the reassembly layer,
the id counter and the received-message count are as before and the queue ends
empty, so no order was synthesized, framed or enqueued, whatever the best
prices of the resulting book are. -/
theorem C25_strategy_not_run (h : MarketDataHandler) (l : List MarketDataMessage)
    (uninit_msg : MarketDataMessage) (durations : Nat → Nat)
    (hq : LockFreeRingBuffer.Holds h.message_queue l)
    (hcount : h.processed_messages + l.length < 2 ^ 64) :
    (h.processMessages false uninit_msg durations).tcp_stack = h.tcp_stack ∧
    (h.processMessages false uninit_msg durations).last_order_id = h.last_order_id ∧
    (h.processMessages false uninit_msg durations).message_count = h.message_count ∧
    (h.processMessages false uninit_msg durations).total_latency = h.total_latency ∧
    (h.processMessages false uninit_msg durations).message_queue.buffer = h.message_queue.buffer ∧
    (h.processMessages false uninit_msg durations).message_queue.head
      = (h.processMessages false uninit_msg durations).message_queue.tail := by
  have hrun := MarketDataHandler.processLoop_drain durations l 1024 0 h uninit_msg hq hq.2.2.2.1
    hcount
  have hfinal : h.processMessages false uninit_msg durations = _ := hrun
  rw [hfinal]
  exact ⟨rfl, rfl, rfl, rfl, rfl, rfl⟩

/-- C25 on a queue holding a buy at 100 and a sell at 101: after
`processMessages()` the book has best bid 100 and best ask 101, no id was
issued and the reassembly layer saw no frame, although
`executeTradingStrategy` run on that state issues the pair
`{1, 100, 100, buy}`, `{2, 101, 100, sell}`. -/
theorem C25_strategy_not_run_witness :
    (({ MarketDataHandler.fresh (List.replicate 1024 ⟨0, 0, 0, [], 0, 0, 0⟩) with
        message_queue := (((LockFreeRingBuffer.init 1024
          (List.replicate 1024 ⟨0, 0, 0, [], 0, 0, 0⟩)).push ⟨0, 0, 0, [66], 1, 100, 10⟩).2.push
            ⟨0, 0, 0, [83], 2, 101, 10⟩).2 } : MarketDataHandler).processMessages false
        ⟨0, 0, 0, [], 0, 0, 0⟩ (fun _ => 0)).tcp_stack = TCPIPStack.empty ∧
    (({ MarketDataHandler.fresh (List.replicate 1024 ⟨0, 0, 0, [], 0, 0, 0⟩) with
        message_queue := (((LockFreeRingBuffer.init 1024
          (List.replicate 1024 ⟨0, 0, 0, [], 0, 0, 0⟩)).push ⟨0, 0, 0, [66], 1, 100, 10⟩).2.push
            ⟨0, 0, 0, [83], 2, 101, 10⟩).2 } : MarketDataHandler).processMessages false
        ⟨0, 0, 0, [], 0, 0, 0⟩ (fun _ => 0)).last_order_id = 0 ∧
    (({ MarketDataHandler.fresh (List.replicate 1024 ⟨0, 0, 0, [], 0, 0, 0⟩) with
        message_queue := (((LockFreeRingBuffer.init 1024
          (List.replicate 1024 ⟨0, 0, 0, [], 0, 0, 0⟩)).push ⟨0, 0, 0, [66], 1, 100, 10⟩).2.push
            ⟨0, 0, 0, [83], 2, 101, 10⟩).2 } : MarketDataHandler).processMessages false
        ⟨0, 0, 0, [], 0, 0, 0⟩ (fun _ => 0)).order_book.getBestBid = 100 ∧
    (({ MarketDataHandler.fresh (List.replicate 1024 ⟨0, 0, 0, [], 0, 0, 0⟩) with
        message_queue := (((LockFreeRingBuffer.init 1024
          (List.replicate 1024 ⟨0, 0, 0, [], 0, 0, 0⟩)).push ⟨0, 0, 0, [66], 1, 100, 10⟩).2.push
            ⟨0, 0, 0, [83], 2, 101, 10⟩).2 } : MarketDataHandler).processMessages false
        ⟨0, 0, 0, [], 0, 0, 0⟩ (fun _ => 0)).order_book.getBestAsk = 101 ∧
    ((({ MarketDataHandler.fresh (List.replicate 1024 ⟨0, 0, 0, [], 0, 0, 0⟩) with
        message_queue := (((LockFreeRingBuffer.init 1024
          (List.replicate 1024 ⟨0, 0, 0, [], 0, 0, 0⟩)).push ⟨0, 0, 0, [66], 1, 100, 10⟩).2.push
            ⟨0, 0, 0, [83], 2, 101, 10⟩).2 } : MarketDataHandler).processMessages false
        ⟨0, 0, 0, [], 0, 0, 0⟩ (fun _ => 0)).executeTradingStrategy false []
        (fun _ => ⟨fun st => st.connections.map Prod.fst, ⟨0, 0, 0, false⟩,
          ⟨0, 0, 0, [], 0, 0, 0⟩, 0, 0⟩) []
        (fun _ => ⟨fun st => st.connections.map Prod.fst, ⟨0, 0, 0, false⟩,
          ⟨0, 0, 0, [], 0, 0, 0⟩, 0, 0⟩)).1
      = [⟨1, 100, 100, true⟩, ⟨2, 101, 100, false⟩] := by
  have h₀ : LockFreeRingBuffer.Holds (LockFreeRingBuffer.init 1024
      (List.replicate 1024 (⟨0, 0, 0, [], 0, 0, 0⟩ : MarketDataMessage))) [] :=
    LockFreeRingBuffer.Holds.fresh (by decide) _ (List.length_replicate 1024 _)
  have h₁ := (h₀.push_ok ⟨0, 0, 0, [66], 1, 100, 10⟩ (by decide)).2
  have h₂ := (h₁.push_ok ⟨0, 0, 0, [83], 2, 101, 10⟩ (by decide)).2
  have h := C25_strategy_not_run
    ({ MarketDataHandler.fresh (List.replicate 1024 ⟨0, 0, 0, [], 0, 0, 0⟩) with
        message_queue := (((LockFreeRingBuffer.init 1024
          (List.replicate 1024 ⟨0, 0, 0, [], 0, 0, 0⟩)).push ⟨0, 0, 0, [66], 1, 100, 10⟩).2.push
            ⟨0, 0, 0, [83], 2, 101, 10⟩).2 } : MarketDataHandler)
    [⟨0, 0, 0, [66], 1, 100, 10⟩, ⟨0, 0, 0, [83], 2, 101, 10⟩] ⟨0, 0, 0, [], 0, 0, 0⟩ (fun _ => 0)
    h₂ (by decide)
  have hrun := MarketDataHandler.processLoop_drain (fun _ => 0)
    [⟨0, 0, 0, [66], 1, 100, 10⟩, ⟨0, 0, 0, [83], 2, 101, 10⟩] 1024 0
    ({ MarketDataHandler.fresh (List.replicate 1024 ⟨0, 0, 0, [], 0, 0, 0⟩) with
        message_queue := (((LockFreeRingBuffer.init 1024
          (List.replicate 1024 ⟨0, 0, 0, [], 0, 0, 0⟩)).push ⟨0, 0, 0, [66], 1, 100, 10⟩).2.push
            ⟨0, 0, 0, [83], 2, 101, 10⟩).2 } : MarketDataHandler)
    ⟨0, 0, 0, [], 0, 0, 0⟩ h₂ (by decide) (by decide)
  have hfinal : MarketDataHandler.processMessages _ false _ _ = _ := hrun
  refine ⟨h.1, h.2.1, ?_, ?_, ?_⟩
  · rw [hfinal]
    decide
  · rw [hfinal]
    decide
  · rw [hfinal]
    exact (MarketDataHandler.executeTradingStrategy_triggered _ false [] [] _ _ (by decide)
      (by decide)).1

/-- C28 fails: on a handler with `last_order_id = 0` whose book has best bid 100
and best ask 101, `executeTradingStrategy` hands out the ids 1 and 2 and leaves
the counter at 2; the next `generate_random_order` hands out the value of the
counter, 2, again. -/
theorem C28_duplicate_order_id :
    ({ MarketDataHandler.fresh (List.replicate 1024 ⟨0, 0, 0, [], 0, 0, 0⟩) with
        order_book := OrderBook.run OrderBook.empty
          [.addOrder 7 100 10 true, .addOrder 8 101 10 false] } :
      MarketDataHandler).last_order_id = 0 ∧
    ((({ MarketDataHandler.fresh (List.replicate 1024 ⟨0, 0, 0, [], 0, 0, 0⟩) with
        order_book := OrderBook.run OrderBook.empty
          [.addOrder 7 100 10 true, .addOrder 8 101 10 false] } :
      MarketDataHandler).executeTradingStrategy false []
        (fun _ => ⟨fun st => st.connections.map Prod.fst, ⟨0, 0, 0, false⟩,
          ⟨0, 0, 0, [], 0, 0, 0⟩, 0, 0⟩) []
        (fun _ => ⟨fun st => st.connections.map Prod.fst, ⟨0, 0, 0, false⟩,
          ⟨0, 0, 0, [], 0, 0, 0⟩, 0, 0⟩)).1.map Order.order_id) = [1, 2] ∧
    ((({ MarketDataHandler.fresh (List.replicate 1024 ⟨0, 0, 0, [], 0, 0, 0⟩) with
        order_book := OrderBook.run OrderBook.empty
          [.addOrder 7 100 10 true, .addOrder 8 101 10 false] } :
      MarketDataHandler).executeTradingStrategy false []
        (fun _ => ⟨fun st => st.connections.map Prod.fst, ⟨0, 0, 0, false⟩,
          ⟨0, 0, 0, [], 0, 0, 0⟩, 0, 0⟩) []
        (fun _ => ⟨fun st => st.connections.map Prod.fst, ⟨0, 0, 0, false⟩,
          ⟨0, 0, 0, [], 0, 0, 0⟩, 0, 0⟩)).2.generate_random_order 1500 10 true).1.order_id
      = 2 := by
  have h := MarketDataHandler.executeTradingStrategy_triggered
    ({ MarketDataHandler.fresh (List.replicate 1024 ⟨0, 0, 0, [], 0, 0, 0⟩) with
        order_book := OrderBook.run OrderBook.empty
          [.addOrder 7 100 10 true, .addOrder 8 101 10 false] } : MarketDataHandler) false [] []
    (fun _ => ⟨fun st => st.connections.map Prod.fst, ⟨0, 0, 0, false⟩,
      ⟨0, 0, 0, [], 0, 0, 0⟩, 0, 0⟩)
    (fun _ => ⟨fun st => st.connections.map Prod.fst, ⟨0, 0, 0, false⟩,
      ⟨0, 0, 0, [], 0, 0, 0⟩, 0, 0⟩) (by decide) (by decide)
  refine ⟨rfl, ?_, ?_⟩
  · rw [h.1]
    rfl
  · show (MarketDataHandler.executeTradingStrategy _ _ _ _ _ _).2.last_order_id = 2
    rw [h.2]
    rfl

/-! ## Draining the reassembly layer -/

namespace TCPIPStack

theorem totalQueued_eq_length (st : TCPIPStack) : st.totalQueued = st.allChunks.length := by
  unfold totalQueued allChunks
  generalize st.connections = m
  induction m with
  | nil => rfl
  | cons e t ih => simp [List.flatMap_cons, ih]

theorem noEmptyChunk_empty : empty.NoEmptyChunk := by
  intro k chunk h
  simp [queueOf, empty, Assoc.find] at h

theorem noEmptyChunk_process_packet {st : TCPIPStack} (h : st.NoEmptyChunk) (data : List Nat)
    (len : Nat) : (st.process_packet data len).NoEmptyChunk := by
  intro k chunk hmem
  rw [queueOf_process_packet] at hmem
  rcases List.mem_append.mp hmem with hold | hnew
  · exact h k chunk hold
  · unfold queuedChunk at hnew
    by_cases h₁ : len < sizeof_IPHeader + sizeof_TCPHeader
    · simp [h₁] at hnew
    · by_cases h₂ : len - sizeof_IPHeader - sizeof_TCPHeader > 0
      · simp only [h₁, h₂, if_false, if_true] at hnew
        by_cases h₃ : frameKey data = k
        · simp only [h₃, if_true, List.mem_singleton] at hnew
          intro hnil
          have hlen := bytesAt_length (data.drop (sizeof_IPHeader + sizeof_TCPHeader)) 0
            (len - sizeof_IPHeader - sizeof_TCPHeader)
          rw [hnew, framePayload] at hnil
          rw [hnil] at hlen
          simp only [List.length_nil] at hlen
          omega
        · simp [h₃] at hnew
      · simp [h₁, h₂] at hnew

theorem noEmptyChunk_create_packet {st : TCPIPStack} (h : st.NoEmptyChunk) (dest_ip dest_port : Nat)
    (data : List Nat) (len : Nat) : (st.create_packet dest_ip dest_port data len).2.NoEmptyChunk := by
  intro k chunk hmem
  rw [queueOf_create_packet] at hmem
  exact h k chunk hmem

theorem noEmptyChunk_get_next_message {st : TCPIPStack} (h : st.NoEmptyChunk) (scan : List Nat) :
    (st.get_next_message scan).2.NoEmptyChunk := by
  intro k chunk hmem
  apply h k chunk
  rw [queueOf_get_next_message st scan k]
  exact List.mem_append_right _ hmem

theorem noEmptyChunk_run (calls : List StackCall) :
    ∀ st : TCPIPStack, st.NoEmptyChunk → (st.run calls).NoEmptyChunk := by
  induction calls with
  | nil => intro st h; exact h
  | cons c t ih =>
    intro st h
    have hstep : (st.step c).NoEmptyChunk := by
      cases c with
      | process_packet data len => exact noEmptyChunk_process_packet h data len
      | create_packet dest_ip dest_port data len =>
        exact noEmptyChunk_create_packet h dest_ip dest_port data len
      | get_next_message scan => exact noEmptyChunk_get_next_message h scan
    exact ih _ hstep

theorem noEmptyChunk_of_reachable {st : TCPIPStack} (h : st.Reachable) : st.NoEmptyChunk := by
  obtain ⟨calls, _, rfl⟩ := h
  exact noEmptyChunk_run calls _ noEmptyChunk_empty

theorem queues_empty_of_totalQueued {st : TCPIPStack} (h : st.totalQueued = 0) :
    ∀ k, st.queueOf k = [] := by
  intro k
  unfold queueOf
  cases hf : Assoc.find k st.connections with
  | none => rfl
  | some c =>
    have := length_le_totalQueued hf
    rw [h] at this
    exact List.length_eq_zero.mp (Nat.le_zero.mp this)

theorem exists_queue_of_totalQueued {st : TCPIPStack} (hst : Assoc.Ordered false st.connections)
    (h : 0 < st.totalQueued) : ∃ k, st.queueOf k ≠ [] := by
  rw [totalQueued_eq_length] at h
  obtain ⟨chunk, hmem⟩ := List.exists_mem_of_length_pos h
  unfold allChunks at hmem
  obtain ⟨e, he, hin⟩ := List.mem_flatMap.mp hmem
  refine ⟨e.1, ?_⟩
  have hf : Assoc.find e.1 st.connections = some e.2 := Assoc.find_of_mem false hst he
  unfold queueOf
  rw [hf]
  exact List.ne_nil_of_mem hin

theorem firstWithData_of_mem {st : TCPIPStack} {key : Nat} (hkey : st.queueOf key ≠ [])
    {scan : List Nat} (hmem : key ∈ scan) : ∃ k, st.firstWithData scan = some k := by
  induction scan with
  | nil => simp at hmem
  | cons k t ih =>
    unfold firstWithData
    cases hf : Assoc.find k st.connections with
    | none =>
      have hk : key ≠ k := by
        intro e
        subst e
        simp [queueOf, hf] at hkey
      rcases List.mem_cons.mp hmem with h | h
      · exact absurd h hk
      · exact ih h
    | some c =>
      by_cases hd : c.has_data = true
      · exact ⟨k, by simp [hd]⟩
      · have hk : key ≠ k := by
          intro e
          subst e
          simp only [queueOf, hf] at hkey
          apply hd
          unfold TCPConnection.has_data
          cases hq : c.received_data with
          | nil => exact absurd hq hkey
          | cons x l => rfl
        simp only [hd, Bool.false_eq_true, if_false]
        rcases List.mem_cons.mp hmem with h | h
        · exact absurd h hk
        · exact ih h

theorem perm_allChunks_pop {m : Assoc TCPConnection} (ho : Assoc.Ordered false m) {k : Nat}
    {c : TCPConnection} {chunk : List Nat} {rest : List (List Nat)}
    (hf : Assoc.find k m = some c) (hr : c.received_data = chunk :: rest) :
    List.Perm (allChunks ⟨m⟩)
      (chunk :: allChunks ⟨Assoc.insert false k ({ c with received_data := rest }) m⟩) := by
  induction m with
  | nil => simp [Assoc.find] at hf
  | cons e t ih =>
    obtain ⟨k', c₀⟩ := e
    have ho' := List.pairwise_cons.mp ho
    by_cases h₁ : k' = k
    · subst h₁
      simp only [Assoc.find, if_true, Option.some.injEq] at hf
      subst hf
      simp only [allChunks, Assoc.insert, if_true, List.flatMap_cons, hr, List.cons_append]
      exact List.Perm.refl _
    · simp only [Assoc.find, h₁, if_false] at hf
      have hb : Assoc.before false k' k = true := ho'.1 (k, c) (Assoc.mem_of_find hf)
      have h₂ : ¬ Assoc.before false k k' = true := by
        intro hc
        have := Assoc.before_trans false hc hb
        rw [Assoc.before_irrefl] at this
        exact Bool.false_ne_true this
      have ih' := ih ho'.2 hf
      simp only [allChunks, Assoc.insert, h₁, if_false, h₂, List.flatMap_cons] at ih' ⊢
      exact (List.Perm.append_left c₀.received_data ih').trans List.perm_middle

theorem drain_step {st : TCPIPStack} (hst : st.Inv) (hne : st.NoEmptyChunk) {scan : List Nat}
    (hcov : ∀ k c, Assoc.find k st.connections = some c → k ∈ scan) (hpos : 0 < st.totalQueued) :
    (st.get_next_message scan).1 ≠ [] ∧ (st.get_next_message scan).2.Inv ∧
      (st.get_next_message scan).2.NoEmptyChunk ∧
      st.totalQueued = (st.get_next_message scan).2.totalQueued + 1 ∧
      List.Perm st.allChunks
        ((st.get_next_message scan).1 :: (st.get_next_message scan).2.allChunks) := by
  obtain ⟨key, hkey⟩ := exists_queue_of_totalQueued hst.1 hpos
  obtain ⟨c₀, hc₀, _⟩ := find_some_of_queueOf hkey
  obtain ⟨k, hk⟩ := firstWithData_of_mem hkey (hcov key c₀ hc₀)
  obtain ⟨c, chunk, rest, hf, hr⟩ := firstWithData_some hk
  have hget := get_next_message_some hk hf hr
  have hperm := perm_allChunks_pop hst.1 hf hr
  have hchunk : chunk ≠ [] := by
    apply hne k chunk
    simp [queueOf, hf, hr]
  refine ⟨?_, inv_get_next_message hst scan, noEmptyChunk_get_next_message hne scan, ?_, ?_⟩
  · rw [hget]
    exact hchunk
  · rw [hget, totalQueued_eq_length, totalQueued_eq_length]
    simpa using hperm.length_eq
  · rw [hget]
    exact hperm

theorem get_next_message_empty_iff {st : TCPIPStack} (hst : st.Inv) (hne : st.NoEmptyChunk)
    {scan : List Nat} (hcov : ∀ k c, Assoc.find k st.connections = some c → k ∈ scan) :
    (st.get_next_message scan).1 = [] ↔ ∀ k, st.queueOf k = [] := by
  constructor
  · intro h
    by_cases h0 : st.totalQueued = 0
    · exact queues_empty_of_totalQueued h0
    · exact absurd h (drain_step hst hne hcov (by omega)).1
  · intro h
    rw [get_next_message_none (firstWithData_none_of_empty h scan)]

end TCPIPStack

namespace MarketDataHandler

theorem drainChunks_succ (force_quit : Bool) (env : Nat → Ambient) (fuel i : Nat)
    (h : MarketDataHandler) :
    drainChunks force_quit env (fuel + 1) i h =
      if force_quit then []
      else if (h.tcp_stack.get_next_message ((env i).scan h.tcp_stack)).1.isEmpty then []
      else
        (h.tcp_stack.get_next_message ((env i).scan h.tcp_stack)).1 ::
          drainChunks force_quit env fuel (i + 1)
            (({ h with tcp_stack := (h.tcp_stack.get_next_message ((env i).scan h.tcp_stack)).2 } :
              MarketDataHandler).handleMessage
              (chunkMessage (env i) (h.tcp_stack.get_next_message ((env i).scan h.tcp_stack)).1)
              (env i).now_handle) := by
  rw [drainChunks]

theorem drain_spec (env : Nat → Ambient)
    (hscan : ∀ (i : Nat) (st : TCPIPStack) (k : Nat) (c : TCPConnection),
      Assoc.find k st.connections = some c → k ∈ (env i).scan st) :
    ∀ (n fuel i : Nat) (h : MarketDataHandler), h.tcp_stack.totalQueued = n → n < fuel →
      h.tcp_stack.Inv → h.tcp_stack.NoEmptyChunk →
      (∀ k, (drainLoop false env fuel i h).tcp_stack.queueOf k = []) ∧
      (h.message_count + n < 2 ^ 64 →
        (drainLoop false env fuel i h).message_count = h.message_count + n) ∧
      List.Perm (drainChunks false env fuel i h) h.tcp_stack.allChunks ∧
      drainLoop false env fuel i h = drainLoop false env (n + 1) i h := by
  intro n
  induction n with
  | zero =>
    intro fuel i h hn hfuel _ _
    obtain ⟨f, rfl⟩ : ∃ f, fuel = f + 1 := ⟨fuel - 1, by omega⟩
    have hq := TCPIPStack.queues_empty_of_totalQueued hn
    have hget := TCPIPStack.get_next_message_none
      (TCPIPStack.firstWithData_none_of_empty hq ((env i).scan h.tcp_stack))
    have hall : h.tcp_stack.allChunks = [] := by
      apply List.length_eq_zero.mp
      rw [← TCPIPStack.totalQueued_eq_length]
      exact hn
    have hloop : ∀ g, drainLoop false env (g + 1) i h = h := by
      intro g
      rw [drainLoop_succ, hget]
      simp
    refine ⟨?_, ?_, ?_, ?_⟩
    · rw [hloop]
      exact hq
    · intro _
      rw [hloop]
      rfl
    · rw [drainChunks_succ, hget, hall]
      simp
    · rw [hloop, hloop]
  | succ m ih =>
    intro fuel i h hn hfuel hinv hne
    obtain ⟨f, rfl⟩ : ∃ f, fuel = f + 1 := ⟨fuel - 1, by omega⟩
    obtain ⟨s₁, s₂, s₃, s₄, s₅⟩ := TCPIPStack.drain_step hinv hne (hscan i h.tcp_stack)
      (by omega)
    have hemp : (h.tcp_stack.get_next_message ((env i).scan h.tcp_stack)).1.isEmpty = false := by
      cases hc : (h.tcp_stack.get_next_message ((env i).scan h.tcp_stack)).1 with
      | nil => exact absurd hc s₁
      | cons x l => rfl
    have hloop : ∀ g, drainLoop false env (g + 1) i h
        = drainLoop false env g (i + 1)
          (({ h with tcp_stack := (h.tcp_stack.get_next_message ((env i).scan h.tcp_stack)).2 } :
            MarketDataHandler).handleMessage
            (chunkMessage (env i) (h.tcp_stack.get_next_message ((env i).scan h.tcp_stack)).1)
            (env i).now_handle) := by
      intro g
      rw [drainLoop_succ, hemp]
      simp
    obtain ⟨r₁, r₂, r₃, r₄⟩ := ih f (i + 1)
      (({ h with tcp_stack := (h.tcp_stack.get_next_message ((env i).scan h.tcp_stack)).2 } :
        MarketDataHandler).handleMessage
        (chunkMessage (env i) (h.tcp_stack.get_next_message ((env i).scan h.tcp_stack)).1)
        (env i).now_handle)
      (by
        show (h.tcp_stack.get_next_message ((env i).scan h.tcp_stack)).2.totalQueued = m
        omega)
      (by omega) s₂ s₃
    refine ⟨?_, ?_, ?_, ?_⟩
    · rw [hloop]
      exact r₁
    · intro hc
      rw [hloop]
      have hm : (h.message_count + 1) % 2 ^ 64 = h.message_count + 1 :=
        Nat.mod_eq_of_lt (by omega)
      have := r₂ (by
        show (h.message_count + 1) % 2 ^ 64 + m < 2 ^ 64
        rw [hm]
        omega)
      rw [this]
      show (h.message_count + 1) % 2 ^ 64 + m = h.message_count + (m + 1)
      rw [hm]
      omega
    · rw [drainChunks_succ, hemp]
      simp only [Bool.false_eq_true, if_false]
      exact (List.Perm.cons _ r₃).trans s₅.symm
    · rw [hloop, hloop]
      exact r₄

end MarketDataHandler

/-- C29 (draining the reassembly layer): with the shutdown flag clear, for every
handler whose reassembly layer is in a state reached by public calls, every
frame, and `get_next_message` visiting every connection: the loop of
`process_network_packet` leaves by its `break` (every bound on the passes above
the number of queued chunks gives the same final state), no connection is left
with a queued chunk, the chunks handed to `handleMessage` are, one call each,
those that were queued when the loop began (the chunk of the frame included),
and the received-message count goes up by their number. No queued chunk is ever
empty, so `get_next_message` returns the empty chunk exactly when no connection
has a queued chunk. A chunk shorter than an `Order` record is not dropped: it is
handed on with the order fields that `deserialize_order` returns for a short
buffer. -/
theorem C29_drain_reassembly (h : MarketDataHandler) (data : List Nat) (len : Nat)
    (env : Nat → Ambient)
    (hst : h.tcp_stack.Reachable)
    (hscan : ∀ (i : Nat) (st : TCPIPStack) (k : Nat) (c : TCPConnection),
      Assoc.find k st.connections = some c → k ∈ (env i).scan st) :
    (∀ k, (h.process_network_packet data len false env).tcp_stack.queueOf k = []) ∧
    List.Perm
      (MarketDataHandler.drainChunks false env
        ((h.tcp_stack.process_packet data len).totalQueued + 1) 0
        { h with tcp_stack := h.tcp_stack.process_packet data len })
      (h.tcp_stack.process_packet data len).allChunks ∧
    (h.message_count + (h.tcp_stack.process_packet data len).totalQueued < 2 ^ 64 →
      (h.process_network_packet data len false env).message_count
        = h.message_count + (h.tcp_stack.process_packet data len).totalQueued) ∧
    (∀ fuel, (h.tcp_stack.process_packet data len).totalQueued < fuel →
      MarketDataHandler.drainLoop false env fuel 0
          { h with tcp_stack := h.tcp_stack.process_packet data len }
        = h.process_network_packet data len false env) ∧
    (∀ k, ∀ chunk ∈ (h.tcp_stack.process_packet data len).queueOf k, chunk ≠ []) ∧
    (∀ (st : TCPIPStack) (scan : List Nat), st.Reachable →
      (∀ k c, Assoc.find k st.connections = some c → k ∈ scan) →
      ((st.get_next_message scan).1 = [] ↔ ∀ k, st.queueOf k = [])) ∧
    (∀ (a : Ambient) (chunk : List Nat), chunk.length < sizeof_Order →
      (MarketDataHandler.chunkMessage a chunk).order_id
        = (OrderProtocol.deserialize_order a.uninit_order chunk chunk.length).order_id ∧
      OrderProtocol.deserialize_order a.uninit_order chunk chunk.length = a.uninit_order) := by
  have hinv := TCPIPStack.inv_process_packet (TCPIPStack.inv_of_reachable hst) data len
  have hne := TCPIPStack.noEmptyChunk_process_packet (TCPIPStack.noEmptyChunk_of_reachable hst)
    data len
  have hspec := fun fuel hfuel => MarketDataHandler.drain_spec env hscan
    (h.tcp_stack.process_packet data len).totalQueued fuel 0
    { h with tcp_stack := h.tcp_stack.process_packet data len } rfl hfuel hinv hne
  obtain ⟨r₁, r₂, r₃, _⟩ := hspec ((h.tcp_stack.process_packet data len).totalQueued + 1)
    (Nat.lt_succ_self _)
  refine ⟨r₁, r₃, r₂, ?_, hne, ?_, ?_⟩
  · intro fuel hfuel
    exact (hspec fuel hfuel).2.2.2
  · intro st scan hr hcov
    exact TCPIPStack.get_next_message_empty_iff (TCPIPStack.inv_of_reachable hr)
      (TCPIPStack.noEmptyChunk_of_reachable hr) hcov
  · intro a chunk hlen
    refine ⟨rfl, ?_⟩
    unfold OrderProtocol.deserialize_order
    rw [if_neg (by omega)]

/-- C29 on a fresh handler and a 27-byte frame with the payload `[7, 8, 9]`: the
chunk is handed on once and no connection keeps a queued chunk. -/
theorem C29_drain_reassembly_witness :
    (∀ k, ((MarketDataHandler.fresh (List.replicate 1024 ⟨0, 0, 0, [], 0, 0, 0⟩)).process_network_packet
        [1, 0, 0, 0, 9, 0, 0, 0, 6, 0, 0, 0, 2, 0, 3, 0, 5, 0, 0, 0, 0, 0, 0, 0, 7, 8, 9] 27
        false (fun _ => ⟨fun st => st.connections.map Prod.fst, ⟨0, 0, 0, false⟩,
          ⟨0, 0, 0, [], 0, 0, 0⟩, 0, 0⟩)).tcp_stack.queueOf k = []) ∧
    ((MarketDataHandler.fresh (List.replicate 1024 ⟨0, 0, 0, [], 0, 0, 0⟩)).process_network_packet
        [1, 0, 0, 0, 9, 0, 0, 0, 6, 0, 0, 0, 2, 0, 3, 0, 5, 0, 0, 0, 0, 0, 0, 0, 7, 8, 9] 27
        false (fun _ => ⟨fun st => st.connections.map Prod.fst, ⟨0, 0, 0, false⟩,
          ⟨0, 0, 0, [], 0, 0, 0⟩, 0, 0⟩)).message_count = 1 :=
  have h := C29_drain_reassembly
    (MarketDataHandler.fresh (List.replicate 1024 ⟨0, 0, 0, [], 0, 0, 0⟩))
    [1, 0, 0, 0, 9, 0, 0, 0, 6, 0, 0, 0, 2, 0, 3, 0, 5, 0, 0, 0, 0, 0, 0, 0, 7, 8, 9] 27
    (fun _ => ⟨fun st => st.connections.map Prod.fst, ⟨0, 0, 0, false⟩,
      ⟨0, 0, 0, [], 0, 0, 0⟩, 0, 0⟩)
    ⟨[], fun _ hc => absurd hc (List.not_mem_nil _), rfl⟩
    (fun _ _ _ _ hc => List.mem_map_of_mem Prod.fst (Assoc.mem_of_find hc))
  ⟨h.1, (h.2.2.1 (by decide)).trans (by decide)⟩

/-! ## Ring buffer: one producer and one consumer, interleaved -/

namespace LockFreeRingBuffer

variable {T : Type} {Size : Nat}

theorem Holds.full_iff {q : LockFreeRingBuffer T Size} {l : List T} (h : Holds q l) :
    next Size q.tail = q.head ↔ ¬ l.length < Size - 1 := by
  obtain ⟨_, hh, ht, hl, htail, _⟩ := h
  have n₁ := next_eq Size q.tail ht
  have w := wrap_eq Size (q.head + l.length) (by omega)
  rw [htail] at w
  rw [n₁]
  split_ifs at w ⊢ <;> omega

theorem Holds.empty_iff {q : LockFreeRingBuffer T Size} {l : List T} (h : Holds q l) :
    q.head = q.tail ↔ l = [] := by
  obtain ⟨_, hh, ht, hl, htail, _⟩ := h
  have w := wrap_eq Size (q.head + l.length) (by omega)
  rw [htail] at w
  rw [← List.length_eq_zero]
  split_ifs at w <;> omega

theorem Holds.set_tail {q : LockFreeRingBuffer T Size} {l : List T} (h : Holds q l) (x : T) :
    Holds ({ q with buffer := q.buffer.set q.tail x } : LockFreeRingBuffer T Size) l := by
  obtain ⟨hb, hh, ht, hl, htail, hslots⟩ := h
  refine ⟨by simpa using hb, hh, ht, hl, htail, ?_⟩
  intro i hi
  have hne : q.tail ≠ (q.head + i) % Size := by
    have w₁ := wrap_eq Size (q.head + l.length) (by omega)
    have w₂ := wrap_eq Size (q.head + i) (by omega)
    rw [htail] at w₁
    rw [w₂]
    split_ifs at w₁ ⊢ <;> omega
  simp only
  rw [List.getElem?_set_ne hne]
  exact hslots i hi

theorem Holds.advance_tail {q : LockFreeRingBuffer T Size} {l : List T} (h : Holds q l) (x : T)
    (hroom : l.length < Size - 1) (hx : q.buffer[q.tail]? = some x) :
    Holds ({ q with tail := next Size q.tail } : LockFreeRingBuffer T Size) (l ++ [x]) := by
  have hp := (h.push_ok x hroom).2
  have hset : q.buffer.set q.tail x = q.buffer := by
    apply List.ext_getElem?
    intro i
    by_cases hi : q.tail = i
    · subst hi
      rw [List.getElem?_set_self (by rw [h.1]; exact h.2.2.1), hx]
    · rw [List.getElem?_set_ne hi]
  have hne : ¬ next Size q.tail = q.head := fun e => (h.full_iff.mp e) hroom
  simp only [push, hne, if_false, hset] at hp
  exact hp

theorem Holds.advance_head {q : LockFreeRingBuffer T Size} {x : T} {l : List T}
    (h : Holds q (x :: l)) :
    Holds ({ q with head := next Size q.head } : LockFreeRingBuffer T Size) l ∧
      q.buffer[q.head]? = some x := by
  have hp := (h.pop_ok x).2.2
  have hne : ¬ q.head = q.tail := fun e => by
    have := h.empty_iff.mp e
    simp at this
  simp only [pop, hne, if_false] at hp
  refine ⟨hp, ?_⟩
  have h0 := h.2.2.2.2.2 0 (by simp)
  simp only [Nat.add_zero, List.getElem?_cons_zero] at h0
  rw [Nat.mod_eq_of_lt h.2.1] at h0
  exact h0

end LockFreeRingBuffer

namespace Spsc

variable {T : Type} {Size : Nat}

theorem consumerOK_of_eq {s s' : Spsc T Size} {l l' : List T} (hc : s'.consumer = s.consumer)
    (hh : s'.mem.head = s.mem.head) (hl : ∀ x t, l = x :: t → ∃ t', l' = x :: t')
    (h : s.ConsumerOK l) : s'.ConsumerOK l' := by
  have hne : l ≠ [] → l' ≠ [] := by
    intro hn
    cases l with
    | nil => exact absurd rfl hn
    | cons x t =>
      obtain ⟨t', ht'⟩ := hl x t rfl
      rw [ht']
      exact List.cons_ne_nil _ _
  unfold ConsumerOK at h ⊢
  rw [hc, hh]
  cases hpc : s.consumer with
  | idle => trivial
  | loadedHead ch =>
    rw [hpc] at h
    exact h
  | checked ch =>
    rw [hpc] at h
    exact ⟨h.1, hne h.2⟩
  | copying ch =>
    rw [hpc] at h
    exact ⟨h.1, hne h.2⟩
  | copied ch v =>
    rw [hpc] at h
    obtain ⟨h₁, x, t, h₂, h₃⟩ := h
    obtain ⟨t', ht'⟩ := hl x t h₂
    exact ⟨h₁, x, t', ht', h₃⟩

theorem producerOK_of_eq {s s' : Spsc T Size} {l l' : List T} (hp : s'.producer = s.producer)
    (ht : s'.mem.tail = s.mem.tail) (hb : s'.mem.buffer = s.mem.buffer)
    (hl : l'.length ≤ l.length) (h : s.ProducerOK l) : s'.ProducerOK l' := by
  unfold ProducerOK at h ⊢
  rw [hp, ht, hb]
  cases hpc : s.producer with
  | idle => trivial
  | loadedTail it ct =>
    rw [hpc] at h
    exact h
  | checked it ct =>
    rw [hpc] at h
    exact ⟨h.1, by omega⟩
  | writing it ct =>
    rw [hpc] at h
    exact ⟨h.1, by omega⟩
  | written it ct =>
    rw [hpc] at h
    exact ⟨h.1, by omega, h.2.2⟩

theorem inv_init (hSize : 2 ≤ Size) (slots : List T) (hslots : slots.length = Size) :
    (init Size slots).Inv :=
  ⟨[], rfl, LockFreeRingBuffer.Holds.fresh hSize (slots.map some) (by simp [hslots]), trivial,
    trivial⟩

theorem inv_producerStep {s : Spsc T Size} (hs : s.Inv) (item : T) :
    (s.producerStep item).Inv := by
  obtain ⟨l, hhist, hholds, hp, hc⟩ := hs
  unfold ProducerOK at hp
  unfold producerStep
  cases hpc : s.producer with
  | idle =>
    simp only
    refine ⟨l, hhist, hholds, ?_, consumerOK_of_eq rfl rfl (fun x t e => ⟨t, e⟩) hc⟩
    simp [ProducerOK]
  | loadedTail it ct =>
    rw [hpc] at hp
    simp only at hp ⊢
    subst hp
    split
    · refine ⟨l, hhist, hholds, ?_, consumerOK_of_eq rfl rfl (fun x t e => ⟨t, e⟩) hc⟩
      simp [ProducerOK]
    · next hne =>
      refine ⟨l, hhist, hholds, ?_, consumerOK_of_eq rfl rfl (fun x t e => ⟨t, e⟩) hc⟩
      have hroom : (l.map some).length < Size - 1 := by
        by_contra hfull
        exact hne (hholds.full_iff.mpr hfull)
      simp only [ProducerOK]
      exact ⟨trivial, by simpa using hroom⟩
  | checked it ct =>
    rw [hpc] at hp
    simp only at hp ⊢
    obtain ⟨rfl, hroom⟩ := hp
    refine ⟨l, hhist, hholds.set_tail none, ?_,
      consumerOK_of_eq rfl rfl (fun x t e => ⟨t, e⟩) hc⟩
    simp only [ProducerOK]
    exact ⟨trivial, hroom⟩
  | writing it ct =>
    rw [hpc] at hp
    simp only at hp ⊢
    obtain ⟨rfl, hroom⟩ := hp
    refine ⟨l, hhist, hholds.set_tail (some it), ?_,
      consumerOK_of_eq rfl rfl (fun x t e => ⟨t, e⟩) hc⟩
    simp only [ProducerOK]
    refine ⟨trivial, hroom, ?_⟩
    exact List.getElem?_set_self (by rw [hholds.1]; exact hholds.2.2.1)
  | written it ct =>
    rw [hpc] at hp
    simp only at hp ⊢
    obtain ⟨rfl, hroom, hslot⟩ := hp
    refine ⟨l ++ [it], ?_, ?_, ?_, consumerOK_of_eq rfl rfl (fun x t e => ⟨t ++ [it], ?_⟩) hc⟩
    · simp only [List.map_append, List.map_cons, List.map_nil]
      rw [← List.append_assoc, hhist]
    · have := hholds.advance_tail (some it) (by simpa using hroom) hslot
      simpa using this
    · simp [ProducerOK]
    · rw [e]
      rfl

theorem inv_consumerStep {s : Spsc T Size} (hs : s.Inv) : s.consumerStep.Inv := by
  obtain ⟨l, hhist, hholds, hp, hc⟩ := hs
  unfold ConsumerOK at hc
  unfold consumerStep
  cases hpc : s.consumer with
  | idle =>
    simp only
    refine ⟨l, hhist, hholds, producerOK_of_eq rfl rfl rfl (Nat.le_refl _) hp, ?_⟩
    simp [ConsumerOK]
  | loadedHead ch =>
    rw [hpc] at hc
    simp only at hc ⊢
    subst hc
    split
    · refine ⟨l, hhist, hholds, producerOK_of_eq rfl rfl rfl (Nat.le_refl _) hp, ?_⟩
      simp [ConsumerOK]
    · next hne =>
      refine ⟨l, hhist, hholds, producerOK_of_eq rfl rfl rfl (Nat.le_refl _) hp, ?_⟩
      simp only [ConsumerOK]
      refine ⟨trivial, ?_⟩
      intro hnil
      apply hne
      apply hholds.empty_iff.mpr
      rw [hnil]
      rfl
  | checked ch =>
    rw [hpc] at hc
    simp only at hc ⊢
    refine ⟨l, hhist, hholds, producerOK_of_eq rfl rfl rfl (Nat.le_refl _) hp, ?_⟩
    simp only [ConsumerOK]
    exact hc
  | copying ch =>
    rw [hpc] at hc
    simp only at hc ⊢
    obtain ⟨rfl, hne⟩ := hc
    refine ⟨l, hhist, hholds, producerOK_of_eq rfl rfl rfl (Nat.le_refl _) hp, ?_⟩
    simp only [ConsumerOK]
    refine ⟨trivial, ?_⟩
    cases l with
    | nil => exact absurd rfl hne
    | cons x t =>
      refine ⟨x, t, rfl, ?_⟩
      have hx := (LockFreeRingBuffer.Holds.advance_head
        (by simpa using hholds : LockFreeRingBuffer.Holds s.mem (some x :: t.map some))).2
      rw [List.getD_eq_getElem?_getD, hx]
      rfl
  | copied ch v =>
    rw [hpc] at hc
    simp only at hc ⊢
    obtain ⟨rfl, x, t, rfl, rfl⟩ := hc
    refine ⟨t, ?_, ?_, producerOK_of_eq rfl rfl rfl (by simp) hp, ?_⟩
    · rw [← hhist]
      simp
    · exact (LockFreeRingBuffer.Holds.advance_head
        (by simpa using hholds : LockFreeRingBuffer.Holds s.mem (some x :: t.map some))).1
    · simp [ConsumerOK]

theorem inv_run_spsc (turns : List (Turn T)) :
    ∀ s : Spsc T Size, s.Inv → (s.run turns).Inv := by
  induction turns with
  | nil => intro s h; exact h
  | cons t rest ih =>
    intro s h
    have hstep : (s.step t).Inv := by
      cases t with
      | producer item => exact inv_producerStep h item
      | consumer => exact inv_consumerStep h
    exact ih _ hstep

end Spsc

/-- C24 (SPSC safety under interleaving): for a queue with `Size ≥ 2` and every
interleaving of the steps of one producer thread repeatedly calling `push` and
one consumer thread repeatedly calling `pop` (each load, each store, the
beginning and the end of each slot assignment and of each slot copy being one
step): the values delivered by the successful pops are, in order, the first
items of the successful pushes, each fully written (the k-th successful pop
returns the k-th successfully pushed item); the items pushed and not yet popped
are exactly what the queue holds, in order, so none is lost or duplicated;
their number is the occupancy `(tail − head) mod Size` and is at most
`Size − 1`; and the producer never assigns to the slot the consumer is copying.
The steps are interleaved in one total order (sequential consistency); the
`relaxed`/`acquire`/`release` orders of the source are not part of the model. -/
theorem C24_spsc_interleavings {T : Type} {Size : Nat} (hSize : 2 ≤ Size) (slots : List T)
    (hslots : slots.length = Size) (turns : List (Turn T)) :
    ((Spsc.init Size slots).run turns).popped
      = (((Spsc.init Size slots).run turns).pushed.take
          ((Spsc.init Size slots).run turns).popped.length).map some ∧
    ((Spsc.init Size slots).run turns).popped.length
      ≤ ((Spsc.init Size slots).run turns).pushed.length ∧
    ((Spsc.init Size slots).run turns).pushed.length
      - ((Spsc.init Size slots).run turns).popped.length ≤ Size - 1 ∧
    ((Spsc.init Size slots).run turns).mem.occupancy
      = ((Spsc.init Size slots).run turns).pushed.length
        - ((Spsc.init Size slots).run turns).popped.length ∧
    LockFreeRingBuffer.Holds ((Spsc.init Size slots).run turns).mem
      ((((Spsc.init Size slots).run turns).pushed.drop
        ((Spsc.init Size slots).run turns).popped.length).map some) ∧
    (∀ it i j, ((Spsc.init Size slots).run turns).producer = ProducerPc.writing it i →
      ((Spsc.init Size slots).run turns).consumer = ConsumerPc.copying j → i ≠ j) := by
  obtain ⟨l, hhist, hholds, hp, hc⟩ :=
    Spsc.inv_run_spsc turns _ (Spsc.inv_init hSize slots hslots)
  generalize (Spsc.init Size slots).run turns = s at hhist hholds hp hc ⊢
  have hlen : s.popped.length + l.length = s.pushed.length := by
    have := congrArg List.length hhist
    simpa using this
  have htake : (s.pushed.map some).take s.popped.length = s.popped := by
    rw [← hhist, List.take_left]
  have hdrop : (s.pushed.map some).drop s.popped.length = l.map some := by
    rw [← hhist, List.drop_left]
  have hl : l.length < Size := by simpa using hholds.2.2.2.1
  refine ⟨?_, by omega, by omega, ?_, ?_, ?_⟩
  · rw [List.map_take]
    exact htake.symm
  · rw [hholds.occupancy_eq_length, List.length_map]
    omega
  · rw [List.map_drop, hdrop]
    exact hholds
  · intro it i j hpw hcc hij
    unfold Spsc.ProducerOK at hp
    unfold Spsc.ConsumerOK at hc
    rw [hpw] at hp
    rw [hcc] at hc
    simp only at hp hc
    have hempty := hholds.empty_iff.mp (by rw [← hp.1, ← hc.1, hij])
    exact hc.2 (List.map_eq_nil_iff.mp hempty)

/-- C24 on a three-slot queue: the consumer finds the queue empty while the
first push is under way, then pops the item once the push has completed. -/
theorem C24_spsc_interleavings_witness :
    ((Spsc.init 3 [0, 0, 0]).run
      [.producer 1, .consumer, .producer 1, .consumer, .producer 1, .producer 1, .producer 1,
        .consumer, .consumer, .consumer, .consumer, .consumer, .consumer]).popped
      = (((Spsc.init 3 [0, 0, 0]).run
      [.producer 1, .consumer, .producer 1, .consumer, .producer 1, .producer 1, .producer 1,
        .consumer, .consumer, .consumer, .consumer, .consumer, .consumer]).pushed.take
          ((Spsc.init 3 [0, 0, 0]).run
      [.producer 1, .consumer, .producer 1, .consumer, .producer 1, .producer 1, .producer 1,
        .consumer, .consumer, .consumer, .consumer, .consumer, .consumer]).popped.length).map some ∧
    ((Spsc.init 3 [0, 0, 0]).run
      [.producer 1, .consumer, .producer 1, .consumer, .producer 1, .producer 1, .producer 1,
        .consumer, .consumer, .consumer, .consumer, .consumer, .consumer]).popped = [some 1] :=
  ⟨(C24_spsc_interleavings (by decide) [0, 0, 0] rfl
    [.producer 1, .consumer, .producer 1, .consumer, .producer 1, .producer 1, .producer 1,
      .consumer, .consumer, .consumer, .consumer, .consumer, .consumer]).1,
   by decide⟩

/-! ## Strategy trigger: the submitted pair -/

namespace MarketDataHandler

end MarketDataHandler

